import Mathlib

/-!
# lsh: the pipeline executor of `lsh.c`

A shallow embedding of `count_programs`, `reverse_array`, `safe_close` and
`handle_command` of `lsh.c` (with the types of `parse.h`), together with a small
model of the operating-system calls they make (`open`, `pipe`, `fork`, `dup2`,
`close`, `chdir`, `waitpid`), and the properties of the pipeline executor proved
over that embedding.
-/

namespace Lsh

/-! ## parse.h -/

/-- A `const Pgm*` of `parse.h`: either `NULL` or a pointer to a node holding the
argument vector `pgmlist` and the pointer `next`. The parser links the stages in
parse order, the last stage of the pipeline first. -/
inductive Pgm where
  | NULL : Pgm
  | node (pgmlist : List String) (next : Pgm) : Pgm
  deriving DecidableEq

/-- The `Command` of `parse.h` (`struct node`). A `char*` that may be `NULL` is an
`Option String`; `bakground` is the C `int`. -/
structure Command where
  pgm : Pgm
  rstdin : Option String
  rstdout : Option String
  rstderr : Option String
  bakground : Int

/-- The non-`NULL` node pointers met when following `next` from `pgm`, in parse order. -/
def Pgm.nodes : Pgm → List Pgm
  | .NULL => []
  | .node pgmlist next => .node pgmlist next :: Pgm.nodes next

/-- The argument vector `pgmlist` behind a pointer (`none` for `NULL`). -/
def Pgm.argv : Pgm → Option (List String)
  | .NULL => none
  | .node pgmlist _ => some pgmlist

/-- The stage is run by forking: its `pgmlist[0]` exists and is neither exactly
`"exit"` nor exactly `"cd"` (the two `strcmp` tests of `handle_command`). -/
def Pgm.forks : Pgm → Bool
  | .node (arg0 :: _) _ => decide (arg0 ≠ "exit") && decide (arg0 ≠ "cd")
  | _ => false

/-- The stage has a first argument, so `pgmlist[0]` is a string and not the
terminating `NULL` of the argument vector. -/
def Pgm.has_arg0 : Pgm → Bool
  | .node (_ :: _) _ => true
  | _ => false

/-! ## Descriptors, files and processes -/

/-- The access flags `handle_command` passes to `open`. -/
inductive OpenFlag where
  | O_RDONLY
  | O_WRONLY
  | O_CREAT
  deriving DecidableEq

def S_IRUSR : Nat := 0o400
def S_IWUSR : Nat := 0o200
def S_IRGRP : Nat := 0o040
def S_IROTH : Nat := 0o004

/-- The constant `DEFAULT_MODE` of `lsh.c`, line 25. -/
def DEFAULT_MODE : Nat := S_IRUSR ||| S_IWUSR ||| S_IRGRP ||| S_IROTH

def STDIN_FILENO : Int := 0
def STDOUT_FILENO : Int := 1

/-- The size of the process table `pid_t pids[20]`. -/
def PIDS_SIZE : Nat := 20

/-- The memory of the process table after the assignment `pids[i] = pid`. The list
holds the slots `pids[0]`, `pids[1]`, .. in address order: the first `PIDS_SIZE` of
them are the array, the ones after it are what a store at an index of `PIDS_SIZE`
or more lands in (the assignment tests nothing). A slot is `none` until it is
written. -/
def store_pid : List (Option Nat) → Nat → Nat → List (Option Nat)
  | [], 0, pid => [some pid]
  | [], i + 1, pid => none :: store_pid [] i pid
  | _ :: t, 0, pid => some pid :: t
  | x :: t, i + 1, pid => x :: store_pid t i pid

/-- What an open descriptor refers to. -/
inductive Obj where
  /-- A description the controlling process already had open at descriptor `fd`
  when `handle_command` was entered. -/
  | inherited (fd : Nat)
  /-- The description created by a successful `open(path, flags, ..)`. -/
  | file (path : String) (flags : List OpenFlag)
  /-- The read end of the `k`-th pipe created (counting from 0). -/
  | pipe_read (k : Nat)
  /-- The write end of the `k`-th pipe created (counting from 0). -/
  | pipe_write (k : Nat)
  deriving DecidableEq

/-- The object is an end of some pipe. -/
def Obj.is_pipe_end : Obj → Bool
  | .pipe_read _ => true
  | .pipe_write _ => true
  | _ => false

/-- A regular file: its bytes and its permission bits. -/
structure File where
  content : List Nat
  mode : Nat
  deriving DecidableEq

/-- The descriptor table of one process: entry `fd` is `some o` when descriptor
`fd` is open on `o`. -/
abbrev FdTable := List (Option Obj)

/-- Entry `n` of the table (`none` beyond its end). -/
def FdTable.entry : FdTable → Nat → Option Obj
  | [], _ => none
  | x :: _, 0 => x
  | _ :: t, n + 1 => FdTable.entry t n

/-- What descriptor `fd` refers to (`none`: not an open descriptor). -/
def FdTable.lookup (t : FdTable) (fd : Int) : Option Obj :=
  if fd < 0 then none else t.entry fd.toNat

/-- The lowest descriptor number that is not open, the one `open` and `pipe` hand out. -/
def FdTable.lowest_free : FdTable → Nat
  | [] => 0
  | none :: _ => 0
  | some _ :: t => FdTable.lowest_free t + 1

/-- The table with entry `n` replaced by `v`. -/
def FdTable.put : FdTable → Nat → Option Obj → FdTable
  | [], 0, v => [v]
  | [], n + 1, v => none :: FdTable.put [] n v
  | _ :: t, 0, v => v :: t
  | x :: t, n + 1, v => x :: FdTable.put t n v

/-- The table after `close(fd)`: unchanged (`EBADF`) when `fd` is not open. -/
def FdTable.close (t : FdTable) (fd : Int) : FdTable :=
  match t.lookup fd with
  | none => t
  | some _ => t.put fd.toNat none

/-- The table after `dup2(oldfd, newfd)`: unchanged (`EBADF`) when `oldfd` is not
open, else `newfd` refers to what `oldfd` refers to. -/
def FdTable.dup2 (t : FdTable) (oldfd : Int) (newfd : Nat) : FdTable :=
  match t.lookup oldfd with
  | none => t
  | some o => t.put newfd (some o)

/-- No open descriptor of the table is an end of a pipe. -/
def FdTable.no_pipe_ends (t : FdTable) : Bool :=
  t.all fun e => match e with
    | some o => !o.is_pipe_end
    | none => true

/-- The calls a process makes that the properties below speak about. -/
inductive Event where
  | open_call (path : String) (flags : List OpenFlag) (mode : Option Nat) (ret : Int)
  | pipe_call (ret : Option (Int × Int))
  | fork_call (ret : Option Nat)
  | close_call (fd : Int)
  | dup2_call (oldfd : Int) (newfd : Nat)
  | chdir_call (path : Option String) (ret : Int)
  | waitpid_call (pid : Option Nat)
  | pids_store (i : Nat) (pid : Nat)
  | setpgid_call
  | signal_default
  | execvp_call (argv : List String)
  deriving DecidableEq

/-- One process: its descriptor table and the calls it has made, oldest first. -/
structure Proc where
  fds : FdTable
  calls : List Event

/-- A forked stage: the loop index `stage` at which it was forked, the process
identifier `fork` returned for it, its argument vector, and the process itself as
it stands when it calls `execvp`. -/
structure Child where
  stage : Nat
  pid : Nat
  argv : List String
  proc : Proc

/-- The answers of the operating system and of the stage programs.
`open_ok path flags` tells whether that `open` succeeds; `pipe_ok i` whether the
`pipe` call of loop index `i` succeeds; `fork_ret i` is what `fork` returns to the
controlling process at loop index `i` (`some pid`, or `none` for `-1`);
`chdir_ok path` whether `chdir(path)` succeeds; `umask` is the file-creation mask;
`output i` are the bytes the program of loop index `i` writes to its standard
output before it terminates. -/
structure Env where
  open_ok : String → List OpenFlag → Bool
  pipe_ok : Nat → Bool
  fork_ret : Nat → Option Nat
  chdir_ok : String → Bool
  umask : Nat
  output : Nat → List Nat

/-- What `handle_command` finds when it is called: which descriptors of the
controlling process are open, the file system, the successful `chdir` arguments
so far (the working directory), and the global `done`. Descriptors 0 and 1, the
standard input and the standard output of the shell, are open, as they are in a
conforming environment; `open_fds` tells which of the descriptors 2, 3, .. are. -/
structure World where
  open_fds : List Bool
  fs : String → Option File
  cwd : List String
  done : Int

/-- The descriptor table in which the descriptors `k, k + 1, ..` are open as the
list tells, each on the description it has on entry. -/
def inherited_table : Nat → List Bool → FdTable
  | _, [] => []
  | k, true :: rest => some (Obj.inherited k) :: inherited_table (k + 1) rest
  | k, false :: rest => none :: inherited_table (k + 1) rest

/-- The descriptor table of the controlling process when `handle_command` is called. -/
def World.fds (w : World) : FdTable :=
  some (Obj.inherited 0) :: some (Obj.inherited 1) :: inherited_table 2 w.open_fds

/-- The state while `handle_command` runs: the controlling process `proc`, the
file system, working directory and `done`, the children forked so far (oldest
first), the number of pipes created, and the locals of `handle_command`;
`pids` holds `none` where the array was never written. Every store into `pids`
is also an event `pids_store i pid` of `proc`, with the index it was made at. -/
structure State where
  proc : Proc
  fs : String → Option File
  cwd : List String
  done : Int
  children : List Child
  npipes : Nat
  fdin : Int
  fdout : Int
  previous_read_end : Int
  previous_write_end : Int
  pids : List (Option Nat)

/-- How a piece of `handle_command` is left: it falls through to what follows, it
jumps to the label `cleanup`, the `assert` aborts the process, or it dereferences
`NULL`. -/
inductive Flow where
  | next
  | cleanup
  | aborted
  | undefined
  deriving DecidableEq

/-- How a call of `handle_command` ends. -/
inductive Exit where
  | returned
  | aborted
  | undefined
  deriving DecidableEq

/-! ## The operating-system calls -/

/-- The process after making the call `e`. -/
def Proc.call (e : Event) (p : Proc) : Proc :=
  { p with calls := p.calls ++ [e] }

/-- The call `close(fd)`. -/
def sys_close (fd : Int) (p : Proc) : Proc :=
  { fds := p.fds.close fd, calls := p.calls ++ [Event.close_call fd] }

/-- The call `dup2(oldfd, newfd)`. -/
def sys_dup2 (oldfd : Int) (newfd : Nat) (p : Proc) : Proc :=
  { fds := p.fds.dup2 oldfd newfd, calls := p.calls ++ [Event.dup2_call oldfd newfd] }

/-- The permission bits a file created with `mode` gets: `mode & ~umask`. -/
def created_mode (mode umask : Nat) : Nat :=
  mode ^^^ (mode &&& umask)

/-- The file system after a successful `open(path, flags, mode)`: with `O_CREAT`
an absent file is created empty; an existing file is left as it is (there is no
`O_TRUNC` among the flags). -/
def fs_open (umask : Nat) (path : String) (flags : List OpenFlag) (mode : Option Nat)
    (fs : String → Option File) : String → Option File :=
  if OpenFlag.O_CREAT ∈ flags ∧ fs path = none then
    fun q => if q = path then some { content := [], mode := created_mode (mode.getD 0) umask }
      else fs q
  else fs

/-- The call `open(path, flags, mode)` in the controlling process; returns the new
descriptor, or `-1`. -/
def sys_open (env : Env) (path : String) (flags : List OpenFlag) (mode : Option Nat)
    (s : State) : Int × State :=
  if env.open_ok path flags then
    let fd := s.proc.fds.lowest_free
    ((fd : Int),
      { s with
        proc :=
          { fds := s.proc.fds.put fd (some (Obj.file path flags)),
            calls := s.proc.calls ++ [Event.open_call path flags mode fd] },
        fs := fs_open env.umask path flags mode s.fs })
  else
    (-1, { s with proc := s.proc.call (Event.open_call path flags mode (-1)) })

/-- The call `pipe(pipefds)` of loop index `i` in the controlling process; returns
`(pipefds[0], pipefds[1])`, or `none` for `-1`. -/
def sys_pipe (env : Env) (i : Nat) (s : State) : Option (Int × Int) × State :=
  if env.pipe_ok i then
    let r := s.proc.fds.lowest_free
    let t := s.proc.fds.put r (some (Obj.pipe_read s.npipes))
    let w := t.lowest_free
    (some ((r : Int), (w : Int)),
      { s with
        proc :=
          { fds := t.put w (some (Obj.pipe_write s.npipes)),
            calls := s.proc.calls ++ [Event.pipe_call (some ((r : Int), (w : Int)))] },
        npipes := s.npipes + 1 })
  else
    (none, { s with proc := s.proc.call (Event.pipe_call none) })

/-- The call `chdir(path)` with its error report; `path` is `none` when
`pgmlist[1]` is the terminating `NULL`. -/
def sys_chdir (env : Env) (path : Option String) (s : State) : State :=
  match path with
  | some p =>
    if env.chdir_ok p then
      { s with proc := s.proc.call (Event.chdir_call path 0), cwd := s.cwd ++ [p] }
    else
      { s with proc := s.proc.call (Event.chdir_call path (-1)) }
  | none => { s with proc := s.proc.call (Event.chdir_call path (-1)) }

/-- The bytes of a file after `bytes` were written from offset 0. -/
def write_from_start (bytes old : List Nat) : List Nat :=
  bytes ++ old.drop bytes.length

/-- The file system once child `c` has terminated: when its standard output is a
file opened for writing, the bytes its program wrote have gone to that file,
starting at offset 0 of the fresh description. -/
def child_output (env : Env) (c : Child) (fs : String → Option File) : String → Option File :=
  match c.proc.fds.lookup 1 with
  | some (Obj.file path flags) =>
    if OpenFlag.O_WRONLY ∈ flags then
      match fs path with
      | some f =>
        fun q => if q = path then
          some { f with content := write_from_start (env.output c.stage) f.content }
        else fs q
      | none => fs
    else fs
  | _ => fs

/-- The blocking call `waitpid(pid, &status, 0)`; `pid` is `none` when the slot read
from `pids` was never written. When `pid` is a child of this call, the child has
terminated when `waitpid` returns. -/
def sys_waitpid (env : Env) (pid : Option Nat) (s : State) : State :=
  let s1 := { s with proc := s.proc.call (Event.waitpid_call pid) }
  match pid with
  | none => s1
  | some p =>
    match s.children.find? (fun c => c.pid == p) with
    | some c => { s1 with fs := child_output env c s.fs }
    | none => s1

/-! ## lsh.c -/

/-- The loop of `count_programs`: `while (pgm) { ++count; pgm = pgm->next; }`. -/
def count_programs_loop : Pgm → Nat → Nat
  | .NULL, count => count
  | .node _ next, count => count_programs_loop next (count + 1)

/-- The function `count_programs` of `lsh.c`. -/
def count_programs (pgm : Pgm) : Nat :=
  count_programs_loop pgm 0

/-- The loop of `reverse_array`, `for (i = count-1; i >= 0; --i) { pgms[i] = pgm;
pgm = pgm->next; }`, with `n = i + 1`; `none` when `pgm->next` dereferences `NULL`. -/
def reverse_array_loop : Nat → Pgm → List Pgm → Option (List Pgm)
  | 0, _, pgms => some pgms
  | i + 1, pgm, pgms =>
    match pgm with
    | .NULL => none
    | .node pgmlist next => reverse_array_loop i next (pgms.set i (.node pgmlist next))

/-- The function `reverse_array` of `lsh.c`; `calloc` gives `count` `NULL` entries. -/
def reverse_array (pgm : Pgm) (count : Nat) : Option (List Pgm) :=
  reverse_array_loop count pgm (List.replicate count Pgm.NULL)

/-- The function `safe_close` of `lsh.c`. -/
def safe_close (fd : Int) (p : Proc) : Proc :=
  if fd > 1 then sys_close fd p else p

/-- The branch `pid == 0` of `handle_command`, lines 175-200, run by the child on
its copy `p` of the descriptor table, up to the call of `execvp`. -/
def child_branch (cmd : Command) (pgmlist : List String)
    (previous_read_end previous_write_end next_read_end next_write_end : Int)
    (p : Proc) : Proc :=
  let p := if cmd.bakground ≠ 0 then p.call Event.setpgid_call else p.call Event.signal_default
  let p := safe_close previous_write_end p
  let p := sys_dup2 previous_read_end 0 p
  let p := safe_close previous_read_end p
  let p := safe_close next_read_end p
  let p := sys_dup2 next_write_end 1 p
  let p := safe_close next_write_end p
  p.call (Event.execvp_call pgmlist)

/-- The call `fork()` of loop index `i` and the three branches on its result,
lines 173-220. The parent branch ends with `pids[i] = pid`, whatever `i` is, and
the loop goes on. -/
def fork_stage (env : Env) (cmd : Command) (i : Nat) (pgmlist : List String)
    (next_read_end next_write_end : Int) (s : State) : Flow × State :=
  let s1 := { s with proc := s.proc.call (Event.fork_call (env.fork_ret i)) }
  match env.fork_ret i with
  | some pid =>
    let child : Child :=
      { stage := i, pid := pid, argv := pgmlist,
        proc := child_branch cmd pgmlist s.previous_read_end s.previous_write_end
          next_read_end next_write_end { fds := s.proc.fds, calls := [] } }
    let s2 := { s1 with children := s1.children ++ [child] }
    let s3 := { s2 with proc := safe_close s2.previous_read_end s2.proc }
    let s4 := { s3 with proc := safe_close s3.previous_write_end s3.proc }
    let s5 := { s4 with previous_read_end := next_read_end,
                        previous_write_end := next_write_end }
    let s6 := { s5 with proc := s5.proc.call (Event.pids_store i pid) }
    (Flow.next, { s6 with pids := store_pid s6.pids i pid })
  | none => (Flow.cleanup, s1)

/-- The body of the launch loop of `handle_command` for `current = pgms[i]`,
lines 132-223. -/
def launch_stage (env : Env) (cmd : Command) (count i : Nat) (current : Pgm)
    (s : State) : Flow × State :=
  match current with
  | .NULL => (Flow.undefined, s)
  | .node [] _ => (Flow.undefined, s)
  | .node (arg0 :: args) _ =>
    if arg0 = "exit" then
      (Flow.next, { s with done := 1 })
    else if arg0 = "cd" then
      (Flow.next, sys_chdir env args.head? s)
    else if i = count - 1 then
      fork_stage env cmd i (arg0 :: args) (-1) s.fdout s
    else
      match sys_pipe env i s with
      | (none, s1) => (Flow.cleanup, s1)
      | (some (next_read_end, next_write_end), s1) =>
        fork_stage env cmd i (arg0 :: args) next_read_end next_write_end s1

/-- The launch loop `for (int i = 0; i < count; ++i)` of `handle_command` from
index `i` on, over the entries `pgms[i], pgms[i+1], ..` of the execution-order
array (which has `count` entries). -/
def launch_loop (env : Env) (cmd : Command) (count : Nat) :
    Nat → List Pgm → State → Flow × State
  | _, [], s => (Flow.next, s)
  | i, current :: rest, s =>
    match launch_stage env cmd count i current s with
    | (Flow.next, s1) => launch_loop env cmd count (i + 1) rest s1
    | r => r

/-- The wait loop `for (int i = 0; i < count; ++i) waitpid(pids[i], &status, 0)`,
lines 229-236, with `n` iterations left from index `i`; it reads slot `i` of
`pids` whatever `i` is. -/
def wait_loop (env : Env) : Nat → Nat → State → State
  | 0, _, s => s
  | n + 1, i, s => wait_loop env n (i + 1) (sys_waitpid env (s.pids.getD i none) s)

/-- The code after the label `cleanup`, lines 239-245. -/
def cleanup (s : State) : State :=
  let s := { s with proc := safe_close s.fdin s.proc }
  let s := { s with proc := safe_close s.fdout s.proc }
  let s := { s with proc := safe_close s.previous_read_end s.proc }
  { s with proc := safe_close s.previous_write_end s.proc }

/-- The state on entry of `handle_command`, lines 84-92. -/
def State.enter (w : World) : State :=
  { proc := { fds := w.fds, calls := [] },
    fs := w.fs, cwd := w.cwd, done := w.done,
    children := [], npipes := 0,
    fdin := 0, fdout := 0,
    previous_read_end := 0, previous_write_end := -1,
    pids := List.replicate PIDS_SIZE none }

/-- The two `open` calls of `handle_command`, lines 99-106. -/
def open_redirections (env : Env) (cmd : Command) (s : State) : State :=
  let s := { s with fdin := STDIN_FILENO, fdout := STDOUT_FILENO }
  let s :=
    match cmd.rstdin with
    | some path =>
      let r := sys_open env path [OpenFlag.O_RDONLY] none s
      { r.2 with fdin := r.1 }
    | none => s
  match cmd.rstdout with
  | some path =>
    let r := sys_open env path [OpenFlag.O_WRONLY, OpenFlag.O_CREAT] (some DEFAULT_MODE) s
    { r.2 with fdout := r.1 }
  | none => s

/-- The part of `handle_command` up to the end of the launch loop, lines 84-224. -/
def launch (env : Env) (cmd : Command) (w : World) : Flow × State :=
  let s := State.enter w
  match cmd.pgm with
  | .NULL => (Flow.aborted, s)
  | .node _ _ =>
    let s := open_redirections env cmd s
    if s.fdin = -1 then (Flow.cleanup, s)
    else if s.fdout = -1 then (Flow.cleanup, s)
    else
      let count := count_programs cmd.pgm
      match reverse_array cmd.pgm count with
      | none => (Flow.undefined, s)
      | some pgms =>
        launch_loop env cmd count 0 pgms
          { s with previous_read_end := s.fdin, previous_write_end := -1 }

/-- The function `handle_command` of `lsh.c`. -/
def handle_command (env : Env) (cmd : Command) (w : World) : Exit × State :=
  match launch env cmd w with
  | (Flow.aborted, s) => (Exit.aborted, s)
  | (Flow.undefined, s) => (Exit.undefined, s)
  | (Flow.cleanup, s) => (Exit.returned, cleanup s)
  | (Flow.next, s) =>
    if cmd.bakground = 0 then
      (Exit.returned, cleanup (wait_loop env (count_programs cmd.pgm) 0 s))
    else
      (Exit.returned, cleanup s)

/-! ## Predicates of the statements -/

/-- The controlling process still has `a` at descriptor 0 and `b` at descriptor 1,
and every `close` made so far, by it or by a child, was of a descriptor above 1. -/
def State.std_kept (a b : Option Obj) (s : State) : Prop :=
  s.proc.fds.lookup 0 = a ∧ s.proc.fds.lookup 1 = b ∧
  (∀ fd, Event.close_call fd ∈ s.proc.calls → fd > 1) ∧
  (∀ c ∈ s.children, ∀ fd, Event.close_call fd ∈ c.proc.calls → fd > 1)

/-- The event is a call of `fork`. -/
def Event.is_fork : Event → Bool
  | .fork_call _ => true
  | _ => false

/-- The event is a call of `pipe`. -/
def Event.is_pipe : Event → Bool
  | .pipe_call _ => true
  | _ => false

/-- The number of `fork` calls the process has made. -/
def Proc.fork_count (p : Proc) : Nat :=
  p.calls.countP Event.is_fork

/-- The number of `pipe` calls the process has made. -/
def Proc.pipe_count (p : Proc) : Nat :=
  p.calls.countP Event.is_pipe

/-- What `fork` returned to the process, call by call, oldest first. -/
def Proc.fork_results (p : Proc) : List (Option Nat) :=
  p.calls.filterMap fun e => match e with
    | .fork_call ret => some ret
    | _ => none

/-- The arguments of the blocking `waitpid` calls of the process, oldest first;
`none` stands for a slot of `pids` that was never written. -/
def Proc.waited (p : Proc) : List (Option Nat) :=
  p.calls.filterMap fun e => match e with
    | .waitpid_call pid => some pid
    | _ => none

/-- The indices at which the process stored into `pids`, oldest first. -/
def Proc.store_indices (p : Proc) : List Nat :=
  p.calls.filterMap fun e => match e with
    | .pids_store i _ => some i
    | _ => none

/-- The stores `pids[i] = pid` the process made, oldest first, each as the pair
of the index `i` and the value `pid`. -/
def Proc.stores (p : Proc) : List (Nat × Nat) :=
  p.calls.filterMap fun e => match e with
    | .pids_store i pid => some (i, pid)
    | _ => none

/-- The loop indices of the stages run by forking among the entries `pgms[i]`,
`pgms[i+1]`, .. of the execution-order array, in increasing order. -/
def forking_stages : Nat → List Pgm → List Nat
  | _, [] => []
  | i, p :: rest =>
    if p.forks = true then i :: forking_stages (i + 1) rest
    else forking_stages (i + 1) rest

/-- An `open` of the input redirection or of the output redirection returns `-1`. -/
def open_fails (env : Env) (cmd : Command) : Prop :=
  (∃ path, cmd.rstdin = some path ∧ env.open_ok path [OpenFlag.O_RDONLY] = false) ∨
  (∃ path, cmd.rstdout = some path ∧
    env.open_ok path [OpenFlag.O_WRONLY, OpenFlag.O_CREAT] = false)

/-- Every `open` that `handle_command` makes for the redirections of `cmd` succeeds. -/
def opens_ok (env : Env) (cmd : Command) : Prop :=
  (∀ path, cmd.rstdin = some path → env.open_ok path [OpenFlag.O_RDONLY] = true) ∧
  (∀ path, cmd.rstdout = some path →
    env.open_ok path [OpenFlag.O_WRONLY, OpenFlag.O_CREAT] = true)

/-- Every `pipe` call succeeds. -/
def pipes_ok (env : Env) : Prop :=
  ∀ i, env.pipe_ok i = true

/-- Every `fork` call succeeds. -/
def forks_ok (env : Env) : Prop :=
  ∀ i, (env.fork_ret i).isSome = true

/-- The bytes the only stage of a single-stage pipeline writes to its standard
output: those its program writes when the stage is forked, none when the stage is
a built-in, which runs no program. -/
def single_stage_output (env : Env) (pgm : Pgm) : List Nat :=
  if pgm.forks = true then env.output 0 else []

/-- What the first stage is to read: the file of the input redirection when
`rstdin` is set, else the standard input of the controlling process. -/
def overall_input (cmd : Command) (w : World) : Option Obj :=
  match cmd.rstdin with
  | some path => some (Obj.file path [OpenFlag.O_RDONLY])
  | none => w.fds.lookup 0

/-- What the last stage is to write: the file of the output redirection when
`rstdout` is set, else the standard output of the controlling process. -/
def overall_output (cmd : Command) (w : World) : Option Obj :=
  match cmd.rstdout with
  | some path => some (Obj.file path [OpenFlag.O_WRONLY, OpenFlag.O_CREAT])
  | none => w.fds.lookup 1

/-- The controlling process had a descriptor open on `o` when `handle_command`
was entered. -/
def World.holds (w : World) (o : Obj) : Prop :=
  ∃ x, w.fds.lookup x = some o

/-- The `pipe` and `fork` calls of a process in the order it made them: `false`
for a `pipe`, `true` for a `fork`. -/
def Proc.launch_order (p : Proc) : List Bool :=
  (p.calls.filter fun e => e.is_pipe || e.is_fork).map Event.is_fork

/-- The order of `k` rounds of a `pipe` followed by a `fork`. -/
def chain_order : Nat → List Bool
  | 0 => []
  | k + 1 => chain_order k ++ [false, true]

/-- Child `c` is stage `j` of a linear chain of `n` stages: it reads the overall
input (stage 0) or the read end of pipe `j - 1`, it writes the overall output
(stage `n - 1`) or the write end of pipe `j`, and it has no other pipe end open
that `handle_command` created. -/
structure Child.wired (cmd : Command) (w : World) (n j : Nat) (c : Child) : Prop where
  stage : c.stage = j
  stdin : c.proc.fds.lookup 0
    = if j = 0 then overall_input cmd w else some (Obj.pipe_read (j - 1))
  stdout : c.proc.fds.lookup 1
    = if j + 1 = n then overall_output cmd w else some (Obj.pipe_write j)
  others : ∀ x o, c.proc.fds.lookup x = some o → o.is_pipe_end = true →
    x = 0 ∨ x = 1 ∨ w.holds o

/-- The state of the launch loop before stage `i` of a chain of `n` forked stages
whose calls all succeeded. -/
structure State.chain (cmd : Command) (w : World) (n i : Nat) (s : State) : Prop where
  npipes : s.npipes = i
  count : s.children.length = i
  std0 : s.proc.fds.lookup 0 = w.fds.lookup 0
  std1 : s.proc.fds.lookup 1 = w.fds.lookup 1
  out_ne : s.fdout ≠ 0
  out : s.proc.fds.lookup s.fdout = overall_output cmd w
  ends_ne : s.previous_read_end ≠ s.previous_write_end
  out_ne_read : s.fdout ≠ s.previous_read_end
  out_ne_write : s.fdout ≠ s.previous_write_end
  read_end : s.proc.fds.lookup s.previous_read_end
    = if i = 0 then overall_input cmd w else some (Obj.pipe_read (i - 1))
  write_first : i = 0 → s.previous_write_end = -1
  write_end : i ≠ 0 → s.proc.fds.lookup s.previous_write_end = some (Obj.pipe_write (i - 1))
  others : ∀ x o, s.proc.fds.lookup x = some o → o.is_pipe_end = true →
    x = s.previous_read_end ∨ x = s.previous_write_end ∨ w.holds o
  children : ∀ (j : Nat) (c : Child), s.children[j]? = some c → c.wired cmd w n j
  order : s.proc.launch_order = chain_order i
  stored : ∀ (j : Nat) (c : Child), s.children[j]? = some c → s.pids[j]? = some (some c.pid)
  forked : s.proc.fork_results = s.children.map fun c => some c.pid
  unwaited : s.proc.waited = []

/-- The state of the launch loop after the last of `n` forked stages whose calls
all succeeded. -/
structure State.launched (cmd : Command) (w : World) (n : Nat) (s : State) : Prop where
  count : s.children.length = n
  children : ∀ (j : Nat) (c : Child), s.children[j]? = some c → c.wired cmd w n j
  others : ∀ x o, s.proc.fds.lookup x = some o → o.is_pipe_end = true → w.holds o
  order : s.proc.launch_order = chain_order (n - 1) ++ [true]
  stored : ∀ (j : Nat) (c : Child), s.children[j]? = some c → s.pids[j]? = some (some c.pid)
  std0 : s.proc.fds.lookup 0 = w.fds.lookup 0
  std1 : s.proc.fds.lookup 1 = w.fds.lookup 1
  forked : s.proc.fork_results = s.children.map fun c => some c.pid
  unwaited : s.proc.waited = []

/-- The descriptor table of the controlling process differs from the one on entry
only at the four bookkeeping descriptors `fdin`, `fdout`, `previous_read_end` and
`previous_write_end`, and those of them above 1 were not open on entry. -/
structure State.tidy (w : World) (s : State) : Prop where
  std0 : s.proc.fds.lookup 0 = w.fds.lookup 0
  std1 : s.proc.fds.lookup 1 = w.fds.lookup 1
  differ : ∀ x : Int, s.proc.fds.lookup x ≠ w.fds.lookup x →
    x = s.fdin ∨ x = s.fdout ∨ x = s.previous_read_end ∨ x = s.previous_write_end
  fresh_in : s.fdin > 1 → w.fds.lookup s.fdin = none
  fresh_out : s.fdout > 1 → w.fds.lookup s.fdout = none
  fresh_read : s.previous_read_end > 1 → w.fds.lookup s.previous_read_end = none
  fresh_write : s.previous_write_end > 1 → w.fds.lookup s.previous_write_end = none

/-! ## Concrete pipelines, used to run the definitions -/

/-- The parse-order list with the given argument vectors, head first. -/
def Pgm.of_list : List (List String) → Pgm
  | [] => Pgm.NULL
  | pgmlist :: rest => Pgm.node pgmlist (Pgm.of_list rest)

/-- A pipeline of `n` stages `ls`. -/
def Pgm.chain : Nat → Pgm
  | 0 => Pgm.NULL
  | n + 1 => Pgm.node ["ls"] (Pgm.chain n)

/-- A controlling process with descriptors 0, 1 and 2 open, and a file system
holding the one file `in`, of three bytes. -/
def ex_world : World :=
  { open_fds := [true],
    fs := fun q => if q = "in" then some { content := [97, 98, 99], mode := 0o644 } else none,
    cwd := [], done := 0 }

/-- An environment in which every call succeeds; the child of loop index `i` gets
the process identifier `100 + i` and writes the two bytes of `hi`. -/
def ex_env : Env :=
  { open_ok := fun _ _ => true, pipe_ok := fun _ => true,
    fork_ret := fun i => some (100 + i), chdir_ok := fun _ => true,
    umask := 0o022, output := fun _ => [104, 105] }

/-- The environment `ex_env`, except that every `fork` fails. -/
def ex_env_no_fork : Env :=
  { ex_env with fork_ret := fun _ => none }

/-- The environment `ex_env`, except that every `open` fails. -/
def ex_env_no_open : Env :=
  { ex_env with open_ok := fun _ _ => false }

/-- The command with the stages `pgm` (parse order), no redirection, foreground. -/
def ex_cmd (pgm : Pgm) : Command :=
  { pgm := pgm, rstdin := none, rstdout := none, rstderr := none, bakground := 0 }

/-- The world `ex_world` in which the file `out` already holds the five bytes of
`hello`, with permission bits 0600. -/
def ex_world_hello : World :=
  { ex_world with
    fs := fun q => if q = "out" then some { content := [104, 101, 108, 108, 111], mode := 0o600 }
      else ex_world.fs q }

/-- The environment `ex_env` under the umask 077. -/
def ex_env_umask_077 : Env :=
  { ex_env with umask := 0o077 }

/-- The foreground command `echo hi > out`. -/
def ex_cmd_echo_out : Command :=
  { ex_cmd (Pgm.of_list [["echo", "hi"]]) with rstdout := some "out" }

/-- The foreground command `ls < in | grep x | wc > out`. -/
def ex_cmd_three : Command :=
  { ex_cmd (Pgm.of_list [["wc"], ["grep", "x"], ["ls"]]) with
    rstdin := some "in", rstdout := some "out" }

/-! ## Descriptor tables -/

theorem entry_put_nil (n m : Nat) (v : Option Obj) :
    (FdTable.put [] n v).entry m = if m = n then v else none := by
  induction n generalizing m with
  | zero => cases m <;> simp [FdTable.put, FdTable.entry]
  | succ n ih =>
    cases m with
    | zero => simp [FdTable.put, FdTable.entry]
    | succ m => simp [FdTable.put, FdTable.entry, ih]

theorem entry_put (t : FdTable) (n m : Nat) (v : Option Obj) :
    (FdTable.put t n v).entry m = if m = n then v else t.entry m := by
  induction t generalizing n m with
  | nil => simpa using entry_put_nil n m v
  | cons x t ih =>
    cases n with
    | zero => cases m <;> simp [FdTable.put, FdTable.entry]
    | succ n =>
      cases m with
      | zero => simp [FdTable.put, FdTable.entry]
      | succ m => simp [FdTable.put, FdTable.entry, ih]

theorem lookup_put (t : FdTable) (n : Nat) (v : Option Obj) (fd : Int) :
    (FdTable.put t n v).lookup fd = if fd = (n : Int) then v else t.lookup fd := by
  unfold FdTable.lookup
  by_cases h : fd < 0
  · have : fd ≠ (n : Int) := by omega
    simp [h, this]
  · have e : (fd.toNat = n) = (fd = (n : Int)) := by
      apply propext; omega
    simp [h, entry_put, e]

theorem entry_lowest_free (t : FdTable) : t.entry t.lowest_free = none := by
  induction t with
  | nil => simp [FdTable.lowest_free, FdTable.entry]
  | cons x t ih =>
    cases x with
    | none => simp [FdTable.lowest_free, FdTable.entry]
    | some o => simpa [FdTable.lowest_free, FdTable.entry] using ih

theorem lookup_lowest_free (t : FdTable) : t.lookup (t.lowest_free : Int) = none := by
  unfold FdTable.lookup
  simp [entry_lowest_free]

theorem lookup_neg (t : FdTable) (fd : Int) (h : fd < 0) : t.lookup fd = none := by
  simp [FdTable.lookup, h]

theorem lookup_close (t : FdTable) (fd x : Int) :
    (t.close fd).lookup x = if x = fd then none else t.lookup x := by
  unfold FdTable.close
  cases h : t.lookup fd with
  | none =>
    by_cases hx : x = fd
    · simp [hx, h]
    · simp [hx]
  | some o =>
    have hfd : ¬ fd < 0 := fun hlt => by simp [lookup_neg t fd hlt] at h
    have e : ((fd.toNat : Nat) : Int) = fd := by omega
    simp [lookup_put, e]

theorem lookup_dup2 (t : FdTable) (oldfd : Int) (newfd : Nat) (x : Int) :
    (t.dup2 oldfd newfd).lookup x =
      if x = (newfd : Int) ∧ (t.lookup oldfd).isSome then t.lookup oldfd else t.lookup x := by
  unfold FdTable.dup2
  cases h : t.lookup oldfd with
  | none => simp
  | some o => simp [lookup_put]

/-! ## The slots of the process table -/

theorem store_pid_get_self (l : List (Option Nat)) (i pid : Nat) :
    (store_pid l i pid)[i]? = some (some pid) := by
  induction i generalizing l with
  | zero => cases l <;> simp [store_pid]
  | succ i ih => cases l <;> simp [store_pid, ih]

theorem store_pid_get_of_ne (l : List (Option Nat)) (i pid j : Nat) (v : Option Nat)
    (hne : j ≠ i) (hv : l[j]? = some v) : (store_pid l i pid)[j]? = some v := by
  induction i generalizing l j with
  | zero =>
    cases l with
    | nil => simp at hv
    | cons x t =>
      cases j with
      | zero => exact absurd rfl hne
      | succ j => simpa [store_pid] using hv
  | succ i ih =>
    cases l with
    | nil => simp at hv
    | cons x t =>
      cases j with
      | zero => simpa [store_pid] using hv
      | succ j =>
        simp only [store_pid, List.getElem?_cons_succ] at hv ⊢
        exact ih t j (by omega) hv

/-! ## count_programs and reverse_array -/

theorem count_programs_loop_eq (pgm : Pgm) (count : Nat) :
    count_programs_loop pgm count = count + (Pgm.nodes pgm).length := by
  induction pgm generalizing count with
  | NULL => simp [count_programs_loop, Pgm.nodes]
  | node pgmlist next ih =>
    simp [count_programs_loop, Pgm.nodes, ih]
    omega

theorem count_programs_eq (pgm : Pgm) : count_programs pgm = (Pgm.nodes pgm).length := by
  simp [count_programs, count_programs_loop_eq]

theorem reverse_array_loop_eq (pgm : Pgm) (pre suf : List Pgm)
    (hpre : pre.length = (Pgm.nodes pgm).length) :
    reverse_array_loop (Pgm.nodes pgm).length pgm (pre ++ suf)
      = some ((Pgm.nodes pgm).reverse ++ suf) := by
  induction pgm generalizing pre suf with
  | NULL =>
    have : pre = [] := by simpa [Pgm.nodes] using hpre
    simp [Pgm.nodes, reverse_array_loop, this]
  | node pgmlist next ih =>
    have hlen : pre.length = (Pgm.nodes next).length + 1 := by simpa [Pgm.nodes] using hpre
    have hne : pre ≠ [] := by
      intro h; simp [h] at hlen
    obtain ⟨front, x, rfl⟩ : ∃ front x, pre = front ++ [x] :=
      ⟨pre.dropLast, pre.getLast hne, (List.dropLast_append_getLast hne).symm⟩
    have hfront : front.length = (Pgm.nodes next).length := by simpa using hlen
    have hset : (front ++ [x] ++ suf).set (Pgm.nodes next).length (Pgm.node pgmlist next)
        = front ++ (Pgm.node pgmlist next :: suf) := by
      rw [List.append_assoc, ← hfront, List.set_append_right _ _ (le_refl _)]
      simp
    simp only [Pgm.nodes, List.length_cons, reverse_array_loop, hset]
    rw [ih front _ hfront]
    simp

theorem reverse_array_eq (pgm : Pgm) :
    reverse_array pgm (count_programs pgm) = some (Pgm.nodes pgm).reverse := by
  have h := reverse_array_loop_eq pgm (List.replicate (Pgm.nodes pgm).length Pgm.NULL) []
    (by simp)
  simpa [reverse_array, count_programs_eq] using h

/-- C8: for a non-empty parse-order list `L`, `count_programs L` is the number of
nodes of `L`, and `reverse_array L (count_programs L)` returns an array with
exactly that many entries which is `L` reversed: entry `i` is the node at parse
position `length - 1 - i`, and the last entry is the head `L` itself. -/
theorem reverse_array_reverses (L : Pgm) (hL : L ≠ Pgm.NULL) :
    count_programs L = (Pgm.nodes L).length ∧
    0 < count_programs L ∧
    ∃ pgms, reverse_array L (count_programs L) = some pgms ∧
      pgms.length = (Pgm.nodes L).length ∧
      pgms = (Pgm.nodes L).reverse ∧
      (∀ i, i < (Pgm.nodes L).length →
        pgms[i]? = (Pgm.nodes L)[(Pgm.nodes L).length - 1 - i]?) ∧
      pgms[(Pgm.nodes L).length - 1]? = some L := by
  have hpos : 0 < (Pgm.nodes L).length := by
    cases L with
    | NULL => exact absurd rfl hL
    | node pgmlist next => simp [Pgm.nodes]
  refine ⟨count_programs_eq L, by rw [count_programs_eq]; exact hpos,
    (Pgm.nodes L).reverse, reverse_array_eq L, by simp, rfl, ?_, ?_⟩
  · intro i hi
    rw [List.getElem?_reverse hi]
  · rw [List.getElem?_reverse (by omega)]
    cases L with
    | NULL => exact absurd rfl hL
    | node pgmlist next => simp [Pgm.nodes]

theorem reverse_array_reverses_witness :
    count_programs (Pgm.node ["wc"] (Pgm.node ["ls", "-l"] Pgm.NULL)) = 2 ∧
    reverse_array (Pgm.node ["wc"] (Pgm.node ["ls", "-l"] Pgm.NULL)) 2
      = some [Pgm.node ["ls", "-l"] Pgm.NULL,
              Pgm.node ["wc"] (Pgm.node ["ls", "-l"] Pgm.NULL)] := by
  have h := reverse_array_reverses (Pgm.node ["wc"] (Pgm.node ["ls", "-l"] Pgm.NULL))
    (by decide)
  obtain ⟨h1, -, pgms, h2, -, h3, -, -⟩ := h
  refine ⟨by simpa [Pgm.nodes] using h1, ?_⟩
  have h4 : count_programs (Pgm.node ["wc"] (Pgm.node ["ls", "-l"] Pgm.NULL)) = 2 := by
    simpa [Pgm.nodes] using h1
  rw [h4] at h2
  rw [h2, h3]
  simp [Pgm.nodes]

/-! ## safe_close and the standard descriptors -/

theorem safe_close_calls (fd : Int) (p : Proc) :
    (safe_close fd p).calls = if fd > 1 then p.calls ++ [Event.close_call fd] else p.calls := by
  unfold safe_close sys_close
  split <;> rfl

theorem safe_close_lookup (fd : Int) (p : Proc) (x : Int) :
    (safe_close fd p).fds.lookup x = if x = fd ∧ fd > 1 then none else p.fds.lookup x := by
  unfold safe_close sys_close
  by_cases h : fd > 1
  · simp [h, lookup_close]
  · simp [h]

theorem lowest_free_ne (t : FdTable) (x : Int) (h : (t.lookup x).isSome) :
    x ≠ (t.lowest_free : Int) := by
  intro e
  rw [e, lookup_lowest_free] at h
  simp at h

theorem std_kept_safe_close (a b : Option Obj) (s : State) (fd : Int)
    (h : s.std_kept a b) : State.std_kept a b { s with proc := safe_close fd s.proc } := by
  obtain ⟨h0, h1, h2, h3⟩ := h
  refine ⟨?_, ?_, ?_, h3⟩
  · simp only [safe_close_lookup]
    rw [if_neg (by omega)]; exact h0
  · simp only [safe_close_lookup]
    rw [if_neg (by omega)]; exact h1
  · intro x hx
    simp only [safe_close_calls] at hx
    split at hx
    · rcases List.mem_append.1 hx with hx | hx
      · exact h2 x hx
      · simp at hx; omega
    · exact h2 x hx

theorem std_kept_call (a b : Option Obj) (s : State) (e : Event)
    (he : ∀ fd, e ≠ Event.close_call fd) (h : s.std_kept a b) :
    State.std_kept a b { s with proc := s.proc.call e } := by
  obtain ⟨h0, h1, h2, h3⟩ := h
  refine ⟨h0, h1, ?_, h3⟩
  intro x hx
  simp only [Proc.call, List.mem_append, List.mem_singleton] at hx
  rcases hx with hx | hx
  · exact h2 x hx
  · exact absurd hx.symm (he x)

theorem std_kept_open (env : Env) (a b : Option Obj) (ha : a.isSome) (hb : b.isSome)
    (path : String) (flags : List OpenFlag) (mode : Option Nat) (s : State)
    (h : s.std_kept a b) : (sys_open env path flags mode s).2.std_kept a b := by
  unfold sys_open
  split
  · obtain ⟨h0, h1, h2, h3⟩ := h
    have n0 := lowest_free_ne s.proc.fds 0 (by rw [h0]; exact ha)
    have n1 := lowest_free_ne s.proc.fds 1 (by rw [h1]; exact hb)
    refine ⟨?_, ?_, ?_, h3⟩
    · simp only [lookup_put]; rw [if_neg n0]; exact h0
    · simp only [lookup_put]; rw [if_neg n1]; exact h1
    · intro x hx
      simp only [List.mem_append, List.mem_singleton] at hx
      rcases hx with hx | hx
      · exact h2 x hx
      · cases hx
  · exact std_kept_call a b s _ (by intro fd; simp) h

theorem std_kept_pipe (env : Env) (a b : Option Obj) (ha : a.isSome) (hb : b.isSome)
    (i : Nat) (s : State) (h : s.std_kept a b) : (sys_pipe env i s).2.std_kept a b := by
  unfold sys_pipe
  split
  · obtain ⟨h0, h1, h2, h3⟩ := h
    have n0 := lowest_free_ne s.proc.fds 0 (by rw [h0]; exact ha)
    have n1 := lowest_free_ne s.proc.fds 1 (by rw [h1]; exact hb)
    have m0 := lowest_free_ne
      (s.proc.fds.put s.proc.fds.lowest_free (some (Obj.pipe_read s.npipes))) 0
      (by rw [lookup_put, if_neg n0, h0]; exact ha)
    have m1 := lowest_free_ne
      (s.proc.fds.put s.proc.fds.lowest_free (some (Obj.pipe_read s.npipes))) 1
      (by rw [lookup_put, if_neg n1, h1]; exact hb)
    refine ⟨?_, ?_, ?_, h3⟩
    · simp only [lookup_put]; rw [if_neg m0, if_neg n0]; exact h0
    · simp only [lookup_put]; rw [if_neg m1, if_neg n1]; exact h1
    · intro x hx
      simp only [List.mem_append, List.mem_singleton] at hx
      rcases hx with hx | hx
      · exact h2 x hx
      · cases hx
  · exact std_kept_call a b s _ (by intro fd; simp) h

theorem std_kept_chdir (env : Env) (a b : Option Obj) (path : Option String) (s : State)
    (h : s.std_kept a b) : (sys_chdir env path s).std_kept a b := by
  unfold sys_chdir
  split
  · split
    · exact std_kept_call a b s _ (by intro fd; simp) h
    · exact std_kept_call a b s _ (by intro fd; simp) h
  · exact std_kept_call a b s _ (by intro fd; simp) h

theorem std_kept_waitpid (env : Env) (a b : Option Obj) (pid : Option Nat) (s : State)
    (h : s.std_kept a b) : (sys_waitpid env pid s).std_kept a b := by
  have h1 := std_kept_call a b s (Event.waitpid_call pid) (by intro fd; simp) h
  unfold sys_waitpid
  cases pid with
  | none => exact h1
  | some p =>
    simp only
    split
    · exact h1
    · exact h1

theorem child_branch_closes (cmd : Command) (pgmlist : List String) (pr pw nr nw : Int)
    (t : FdTable) (fd : Int)
    (h : Event.close_call fd ∈
      (child_branch cmd pgmlist pr pw nr nw { fds := t, calls := [] }).calls) : fd > 1 := by
  simp only [child_branch, Proc.call, safe_close_calls, sys_dup2, List.mem_append,
    List.mem_singleton] at h
  by_contra hfd
  rcases h with h | h
  · repeat' split at h
    all_goals simp at h
    all_goals omega
  · cases h

theorem std_kept_locals (a b : Option Obj) (s s1 : State) (hp : s1.proc = s.proc)
    (hc : s1.children = s.children) (h : s.std_kept a b) : s1.std_kept a b := by
  unfold State.std_kept at *
  rw [hp, hc]
  exact h

theorem std_kept_fork_stage (env : Env) (cmd : Command) (a b : Option Obj) (i : Nat)
    (pgmlist : List String) (nr nw : Int) (s : State) (h : s.std_kept a b) :
    (fork_stage env cmd i pgmlist nr nw s).2.std_kept a b := by
  have hf := std_kept_call a b s (Event.fork_call (env.fork_ret i)) (by intro fd; simp) h
  unfold fork_stage
  cases hr : env.fork_ret i with
  | none => simpa [hr] using hf
  | some pid =>
    rw [hr] at hf
    simp only
    have hch : State.std_kept a b
        { s with proc := s.proc.call (Event.fork_call (some pid)),
                 children := s.children ++
                   [{ stage := i, pid := pid, argv := pgmlist,
                      proc := child_branch cmd pgmlist s.previous_read_end
                        s.previous_write_end nr nw { fds := s.proc.fds, calls := [] } }] } := by
      obtain ⟨h0, h1, h2, h3⟩ := hf
      refine ⟨h0, h1, h2, ?_⟩
      intro c hc fd hfd
      simp only [List.mem_append, List.mem_singleton] at hc
      rcases hc with hc | hc
      · exact h3 c hc fd hfd
      · subst hc
        exact child_branch_closes _ _ _ _ _ _ _ _ hfd
    have h3 := std_kept_safe_close a b _ s.previous_read_end hch
    have h4 := std_kept_safe_close a b _ s.previous_write_end h3
    have h5 := std_kept_call a b _ (Event.pids_store i pid) (by intro fd; simp) h4
    exact std_kept_locals a b _ _ rfl rfl h5

theorem std_kept_launch_stage (env : Env) (cmd : Command) (a b : Option Obj)
    (ha : a.isSome) (hb : b.isSome) (count i : Nat) (current : Pgm) (s : State)
    (h : s.std_kept a b) : (launch_stage env cmd count i current s).2.std_kept a b := by
  unfold launch_stage
  split
  · exact h
  · exact h
  · split
    · exact std_kept_locals a b s _ rfl rfl h
    · split
      · exact std_kept_chdir env a b _ s h
      · split
        · exact std_kept_fork_stage env cmd a b i _ _ _ s h
        · have hp := std_kept_pipe env a b ha hb i s h
          split
          · rename_i s1 heq
            rw [heq] at hp; exact hp
          · rename_i nr nw s1 heq
            rw [heq] at hp
            exact std_kept_fork_stage env cmd a b i _ _ _ s1 hp

theorem std_kept_launch_loop (env : Env) (cmd : Command) (a b : Option Obj)
    (ha : a.isSome) (hb : b.isSome) (count : Nat) (pgms : List Pgm) (i : Nat) (s : State)
    (h : s.std_kept a b) : (launch_loop env cmd count i pgms s).2.std_kept a b := by
  induction pgms generalizing i s with
  | nil => simpa [launch_loop] using h
  | cons current rest ih =>
    have hs := std_kept_launch_stage env cmd a b ha hb count i current s h
    unfold launch_loop
    split
    · rename_i s1 heq
      rw [heq] at hs
      exact ih (i + 1) s1 hs
    · exact hs

theorem std_kept_wait_loop (env : Env) (a b : Option Obj) (n i : Nat) (s : State)
    (h : s.std_kept a b) : (wait_loop env n i s).std_kept a b := by
  induction n generalizing i s with
  | zero => simpa [wait_loop] using h
  | succ n ih =>
    unfold wait_loop
    exact ih (i + 1) _ (std_kept_waitpid env a b _ s h)

theorem std_kept_cleanup (a b : Option Obj) (s : State) (h : s.std_kept a b) :
    (cleanup s).std_kept a b := by
  unfold cleanup
  exact std_kept_safe_close a b _ _ (std_kept_safe_close a b _ _
    (std_kept_safe_close a b _ _ (std_kept_safe_close a b _ _ h)))

theorem std_kept_open_redirections (env : Env) (cmd : Command) (a b : Option Obj)
    (ha : a.isSome) (hb : b.isSome) (s : State) (h : s.std_kept a b) :
    (open_redirections env cmd s).std_kept a b := by
  unfold open_redirections
  have h1 : State.std_kept a b { s with fdin := STDIN_FILENO, fdout := STDOUT_FILENO } :=
    std_kept_locals a b s _ rfl rfl h
  have h2 : State.std_kept a b
      (match cmd.rstdin with
        | some path =>
          { (sys_open env path [OpenFlag.O_RDONLY] none
              { s with fdin := STDIN_FILENO, fdout := STDOUT_FILENO }).2 with
            fdin := (sys_open env path [OpenFlag.O_RDONLY] none
              { s with fdin := STDIN_FILENO, fdout := STDOUT_FILENO }).1 }
        | none => { s with fdin := STDIN_FILENO, fdout := STDOUT_FILENO }) := by
    split
    · exact std_kept_locals a b _ _ rfl rfl (std_kept_open env a b ha hb _ _ _ _ h1)
    · exact h1
  simp only
  split
  · exact std_kept_locals a b _ _ rfl rfl (std_kept_open env a b ha hb _ _ _ _ h2)
  · exact h2

theorem world_std0 (w : World) : (w.fds.lookup 0).isSome = true := rfl

theorem world_std1 (w : World) : (w.fds.lookup 1).isSome = true := rfl

theorem std_kept_enter (w : World) :
    (State.enter w).std_kept (w.fds.lookup 0) (w.fds.lookup 1) := by
  refine ⟨rfl, rfl, ?_, ?_⟩
  · intro fd hfd; simp [State.enter] at hfd
  · intro c hc; simp [State.enter] at hc

theorem std_kept_launch (env : Env) (cmd : Command) (w : World)
    (h0 : (w.fds.lookup 0).isSome) (h1 : (w.fds.lookup 1).isSome) :
    (launch env cmd w).2.std_kept (w.fds.lookup 0) (w.fds.lookup 1) := by
  have he := std_kept_enter w
  have ho := std_kept_open_redirections env cmd _ _ h0 h1 _ he
  unfold launch
  split
  · exact he
  · simp only
    split
    · exact ho
    · split
      · exact ho
      · split
        · exact ho
        · exact std_kept_launch_loop env cmd _ _ h0 h1 _ _ _ _
            (std_kept_locals _ _ _ _ rfl rfl ho)

theorem std_kept_handle_command (env : Env) (cmd : Command) (w : World)
    (h0 : (w.fds.lookup 0).isSome) (h1 : (w.fds.lookup 1).isSome) :
    (handle_command env cmd w).2.std_kept (w.fds.lookup 0) (w.fds.lookup 1) := by
  have hl := std_kept_launch env cmd w h0 h1
  unfold handle_command
  split
  · rename_i s heq; rw [heq] at hl; exact hl
  · rename_i s heq; rw [heq] at hl; exact hl
  · rename_i s heq; rw [heq] at hl; exact std_kept_cleanup _ _ _ hl
  · rename_i s heq; rw [heq] at hl
    split
    · exact std_kept_cleanup _ _ _
        (std_kept_wait_loop env _ _ (count_programs cmd.pgm) 0 s hl)
    · exact std_kept_cleanup _ _ _ hl

/-- C9: `safe_close fd` makes the call `close(fd)` exactly when `fd > 1` and
otherwise does nothing; and however `handle_command` ends, descriptors 0 and 1 of
the controlling process are still open, on the descriptions they had on entry,
every `close` of the controlling process and of the children having been of a
descriptor above 1. -/
theorem safe_close_spares_std (fd : Int) (p : Proc) (env : Env) (cmd : Command) (w : World) :
    ((safe_close fd p).calls = p.calls ++ [Event.close_call fd] ↔ fd > 1) ∧
    (fd > 1 → safe_close fd p = sys_close fd p) ∧
    (¬ fd > 1 → safe_close fd p = p) ∧
    (handle_command env cmd w).2.proc.fds.lookup 0 = some (Obj.inherited 0) ∧
    (handle_command env cmd w).2.proc.fds.lookup 1 = some (Obj.inherited 1) ∧
    (∀ x, Event.close_call x ∈ (handle_command env cmd w).2.proc.calls → x > 1) ∧
    (∀ c ∈ (handle_command env cmd w).2.children,
      ∀ x, Event.close_call x ∈ c.proc.calls → x > 1) := by
  obtain ⟨k0, k1, k2, k3⟩ := std_kept_handle_command env cmd w (world_std0 w) (world_std1 w)
  refine ⟨?_, ?_, ?_, k0, k1, k2, k3⟩
  · rw [safe_close_calls]
    by_cases h : fd > 1
    · simp [h]
    · simp [h]
  · intro h; simp [safe_close, h]
  · intro h; simp [safe_close, h]

theorem open_redirections_fields (env : Env) (cmd : Command) (s : State) :
    (open_redirections env cmd s).children = s.children ∧
    (open_redirections env cmd s).cwd = s.cwd ∧
    (open_redirections env cmd s).done = s.done ∧
    (open_redirections env cmd s).npipes = s.npipes ∧
    (open_redirections env cmd s).pids = s.pids ∧
    (open_redirections env cmd s).proc.fork_count = s.proc.fork_count ∧
    (open_redirections env cmd s).proc.pipe_count = s.proc.pipe_count ∧
    (open_redirections env cmd s).proc.waited = s.proc.waited := by
  unfold open_redirections sys_open
  cases cmd.rstdin <;> cases cmd.rstdout <;> simp only <;>
    (repeat' split) <;>
    simp [Proc.call, Proc.fork_count, Proc.pipe_count, Proc.waited, Event.is_fork,
      Event.is_pipe, List.countP_append, List.filterMap_append]

theorem cleanup_fields (s : State) :
    (cleanup s).children = s.children ∧
    (cleanup s).cwd = s.cwd ∧
    (cleanup s).done = s.done ∧
    (cleanup s).fs = s.fs ∧
    (cleanup s).pids = s.pids ∧
    (cleanup s).proc.fork_count = s.proc.fork_count ∧
    (cleanup s).proc.pipe_count = s.proc.pipe_count ∧
    (cleanup s).proc.waited = s.proc.waited ∧
    (cleanup s).proc.store_indices = s.proc.store_indices ∧
    (cleanup s).proc.fork_results = s.proc.fork_results := by
  refine ⟨rfl, rfl, rfl, rfl, rfl, ?_, ?_, ?_, ?_, ?_⟩ <;>
    simp only [cleanup, Proc.fork_count, Proc.pipe_count, Proc.waited, Proc.store_indices,
      Proc.fork_results, safe_close_calls] <;>
    (repeat' split) <;>
    simp [Event.is_fork, Event.is_pipe, List.countP_append, List.filterMap_append]

theorem open_redirections_fails (env : Env) (cmd : Command) (s : State)
    (h : open_fails env cmd) :
    (open_redirections env cmd s).fdin = -1 ∨ (open_redirections env cmd s).fdout = -1 := by
  unfold open_redirections sys_open
  rcases h with ⟨path, hp, hf⟩ | ⟨path, hp, hf⟩
  · left
    rw [hp]
    simp only [hf]
    cases cmd.rstdout with
    | none => simp
    | some q => simp only; split <;> simp
  · right
    rw [hp]
    simp [hf]

/-- C7: when the `open` of the input redirection or of the output redirection
fails, `handle_command` leaves the launch part for the label `cleanup` right after
the two `open` calls and returns: no `fork`, no `pipe`, no `waitpid`, no child, and
the working directory and `done` are as before. -/
theorem open_failure_launches_nothing (env : Env) (cmd : Command) (w : World)
    (hpgm : cmd.pgm ≠ Pgm.NULL) (h : open_fails env cmd) :
    launch env cmd w = (Flow.cleanup, open_redirections env cmd (State.enter w)) ∧
    handle_command env cmd w
      = (Exit.returned, cleanup (open_redirections env cmd (State.enter w))) ∧
    (handle_command env cmd w).2.proc.fork_count = 0 ∧
    (handle_command env cmd w).2.proc.pipe_count = 0 ∧
    (handle_command env cmd w).2.proc.waited = [] ∧
    (handle_command env cmd w).2.children = [] ∧
    (handle_command env cmd w).2.cwd = w.cwd ∧
    (handle_command env cmd w).2.done = w.done := by
  have hl : launch env cmd w = (Flow.cleanup, open_redirections env cmd (State.enter w)) := by
    unfold launch
    cases hc : cmd.pgm with
    | NULL => exact absurd hc hpgm
    | node pgmlist next =>
      simp only
      rcases open_redirections_fails env cmd (State.enter w) h with h1 | h1
      · rw [if_pos h1]
      · by_cases h2 : (open_redirections env cmd (State.enter w)).fdin = -1
        · rw [if_pos h2]
        · rw [if_neg h2, if_pos h1]
  have hh : handle_command env cmd w
      = (Exit.returned, cleanup (open_redirections env cmd (State.enter w))) := by
    unfold handle_command
    rw [hl]
  obtain ⟨c1, c2, c3, -, -, c6, c7, c8, -, -⟩ :=
    cleanup_fields (open_redirections env cmd (State.enter w))
  obtain ⟨o1, o2, o3, -, -, o6, o7, o8⟩ := open_redirections_fields env cmd (State.enter w)
  refine ⟨hl, hh, ?_, ?_, ?_, ?_, ?_, ?_⟩
  · rw [hh]; simp only; rw [c6, o6]; rfl
  · rw [hh]; simp only; rw [c7, o7]; rfl
  · rw [hh]; simp only; rw [c8, o8]; rfl
  · rw [hh]; simp only; rw [c1, o1]; rfl
  · rw [hh]; simp only; rw [c2, o2]; rfl
  · rw [hh]; simp only; rw [c3, o3]; rfl

/-! ## The number of forks -/

theorem fork_count_call (p : Proc) (e : Event) :
    (p.call e).fork_count = p.fork_count + (if e.is_fork then 1 else 0) := by
  simp only [Proc.call, Proc.fork_count, List.countP_append]
  cases h : e.is_fork <;> simp [List.countP_cons, h]

theorem fork_count_safe_close (fd : Int) (p : Proc) :
    (safe_close fd p).fork_count = p.fork_count := by
  simp only [Proc.fork_count, safe_close_calls]
  split <;> simp [List.countP_append, Event.is_fork]

theorem fork_stage_fork_count (env : Env) (cmd : Command) (i : Nat) (pgmlist : List String)
    (nr nw : Int) (s : State) :
    (fork_stage env cmd i pgmlist nr nw s).2.proc.fork_count = s.proc.fork_count + 1 := by
  unfold fork_stage
  cases env.fork_ret i with
  | none => simp [fork_count_call, Event.is_fork]
  | some pid => simp [fork_count_call, fork_count_safe_close, Event.is_fork]

theorem fork_stage_flow (env : Env) (cmd : Command) (i : Nat) (pgmlist : List String)
    (nr nw : Int) (s : State) (hf : (env.fork_ret i).isSome = true) :
    (fork_stage env cmd i pgmlist nr nw s).1 = Flow.next := by
  unfold fork_stage
  cases h : env.fork_ret i with
  | none => simp [h] at hf
  | some pid => simp

theorem sys_pipe_fork_count (env : Env) (i : Nat) (s : State) :
    (sys_pipe env i s).2.proc.fork_count = s.proc.fork_count := by
  unfold sys_pipe
  split
  · simp [Proc.fork_count, List.countP_append, Event.is_fork]
  · simp [fork_count_call, Event.is_fork]

theorem sys_pipe_some (env : Env) (i : Nat) (s : State) (h : env.pipe_ok i = true) :
    ∃ nr nw, (sys_pipe env i s).1 = some (nr, nw) := by
  unfold sys_pipe
  simp [h]

theorem sys_chdir_fork_count (env : Env) (path : Option String) (s : State) :
    (sys_chdir env path s).proc.fork_count = s.proc.fork_count := by
  unfold sys_chdir
  repeat' split
  all_goals simp [fork_count_call, Event.is_fork]

theorem launch_stage_flow (env : Env) (cmd : Command) (count i : Nat) (current : Pgm)
    (s : State) (hp : pipes_ok env) (hf : forks_ok env)
    (ha : current.has_arg0 = true) :
    (launch_stage env cmd count i current s).1 = Flow.next := by
  unfold launch_stage
  split
  · simp [Pgm.has_arg0] at ha
  · simp [Pgm.has_arg0] at ha
  · split
    · rfl
    · split
      · rfl
      · split
        · exact fork_stage_flow env cmd i _ _ _ s (hf i)
        · obtain ⟨nr, nw, hs⟩ := sys_pipe_some env i s (hp i)
          split
          · rename_i s1 heq
            rw [heq] at hs; simp at hs
          · exact fork_stage_flow env cmd i _ _ _ _ (hf i)

theorem launch_stage_fork_count (env : Env) (cmd : Command) (count i : Nat) (current : Pgm)
    (s : State) (hp : pipes_ok env) (ha : current.has_arg0 = true) :
    (launch_stage env cmd count i current s).2.proc.fork_count
      = s.proc.fork_count + (if current.forks = true then 1 else 0) := by
  unfold launch_stage
  split
  · simp [Pgm.has_arg0] at ha
  · simp [Pgm.has_arg0] at ha
  · rename_i arg0 args next
    split
    · rename_i h; simp [Pgm.forks, h]
    · split
      · rename_i h1 h2; simp [Pgm.forks, h2, sys_chdir_fork_count]
      · rename_i h1 h2
        have hfk : (Pgm.node (arg0 :: args) next).forks = true := by simp [Pgm.forks, h1, h2]
        rw [if_pos hfk]
        split
        · exact fork_stage_fork_count env cmd i _ _ _ s
        · obtain ⟨nr, nw, hs⟩ := sys_pipe_some env i s (hp i)
          have hc := sys_pipe_fork_count env i s
          split
          · rename_i s1 heq
            rw [heq] at hs; simp at hs
          · rename_i nr1 nw1 s1 heq
            rw [heq] at hc
            rw [fork_stage_fork_count, hc]

theorem launch_loop_cons (env : Env) (cmd : Command) (count i : Nat) (current : Pgm)
    (rest : List Pgm) (s s1 : State)
    (h : launch_stage env cmd count i current s = (Flow.next, s1)) :
    launch_loop env cmd count i (current :: rest) s
      = launch_loop env cmd count (i + 1) rest s1 := by
  rw [launch_loop, h]

theorem launch_loop_forks (env : Env) (cmd : Command) (count : Nat) (pgms : List Pgm)
    (i : Nat) (s : State) (hp : pipes_ok env) (hf : forks_ok env)
    (ha : ∀ p ∈ pgms, p.has_arg0 = true) :
    (launch_loop env cmd count i pgms s).1 = Flow.next ∧
    (launch_loop env cmd count i pgms s).2.proc.fork_count
      = s.proc.fork_count + pgms.countP Pgm.forks := by
  induction pgms generalizing i s with
  | nil => simp [launch_loop]
  | cons current rest ih =>
    have hcur : current.has_arg0 = true := ha current (by simp)
    have h1 := launch_stage_flow env cmd count i current s hp hf hcur
    have h2 := launch_stage_fork_count env cmd count i current s hp hcur
    rcases hr : launch_stage env cmd count i current s with ⟨fl, s1⟩
    rw [hr] at h1 h2
    simp only at h1 h2
    subst h1
    rw [launch_loop_cons env cmd count i current rest s s1 hr]
    obtain ⟨k1, k2⟩ := ih (i + 1) s1 (fun p hp1 => ha p (by simp [hp1]))
    refine ⟨k1, ?_⟩
    rw [k2, h2, List.countP_cons]
    omega

theorem sys_waitpid_calls (env : Env) (pid : Option Nat) (s : State) :
    (sys_waitpid env pid s).proc = s.proc.call (Event.waitpid_call pid) ∧
    (sys_waitpid env pid s).pids = s.pids ∧
    (sys_waitpid env pid s).children = s.children ∧
    (sys_waitpid env pid s).cwd = s.cwd ∧
    (sys_waitpid env pid s).done = s.done := by
  unfold sys_waitpid
  cases pid with
  | none => simp
  | some p =>
    simp only
    split <;> simp

theorem wait_loop_forks (env : Env) (n i : Nat) (s : State) :
    (wait_loop env n i s).proc.fork_count = s.proc.fork_count := by
  induction n generalizing i s with
  | zero => simp [wait_loop]
  | succ n ih =>
    unfold wait_loop
    rw [ih (i + 1) (sys_waitpid env (s.pids.getD i none) s),
      (sys_waitpid_calls env _ s).1, fork_count_call]
    simp [Event.is_fork]

theorem open_redirections_ok (env : Env) (cmd : Command) (s : State) (h : opens_ok env cmd) :
    (open_redirections env cmd s).fdin ≠ -1 ∧ (open_redirections env cmd s).fdout ≠ -1 := by
  obtain ⟨h1, h2⟩ := h
  unfold open_redirections sys_open
  cases hi : cmd.rstdin with
  | none =>
    cases ho : cmd.rstdout with
    | none => simp [STDIN_FILENO, STDOUT_FILENO]
    | some q =>
      simp only [h2 q ho, if_true, STDIN_FILENO]
      constructor
      · simp
      · omega
  | some p =>
    cases ho : cmd.rstdout with
    | none =>
      simp only [h1 p hi, if_true, STDOUT_FILENO]
      constructor
      · omega
      · simp
    | some q =>
      simp only [h1 p hi, h2 q ho, if_true]
      constructor
      · omega
      · omega

theorem launch_eq_loop (env : Env) (cmd : Command) (w : World) (hpgm : cmd.pgm ≠ Pgm.NULL)
    (h : opens_ok env cmd) :
    launch env cmd w = launch_loop env cmd (count_programs cmd.pgm) 0
      (Pgm.nodes cmd.pgm).reverse
      { open_redirections env cmd (State.enter w) with
        previous_read_end := (open_redirections env cmd (State.enter w)).fdin,
        previous_write_end := -1 } := by
  obtain ⟨h1, h2⟩ := open_redirections_ok env cmd (State.enter w) h
  unfold launch
  cases hc : cmd.pgm with
  | NULL => exact absurd hc hpgm
  | node pgmlist next =>
    simp only
    rw [if_neg h1, if_neg h2, ← hc, reverse_array_eq]

/-- C3: for a pipeline of 1 to 20 stages, each with a first argument, for which
the redirection opens, every `pipe` and every `fork` succeed, `handle_command`
returns and has made exactly as many `fork` calls as there are stages whose first
argument is neither `"exit"` nor `"cd"`. -/
theorem fork_count_is_forking_stages (env : Env) (cmd : Command) (w : World)
    (hn1 : 1 ≤ count_programs cmd.pgm) (hn : count_programs cmd.pgm ≤ 20)
    (ha : ∀ p ∈ Pgm.nodes cmd.pgm, p.has_arg0 = true)
    (ho : opens_ok env cmd) (hp : pipes_ok env) (hf : forks_ok env) :
    (handle_command env cmd w).1 = Exit.returned ∧
    (handle_command env cmd w).2.proc.fork_count = (Pgm.nodes cmd.pgm).countP Pgm.forks := by
  have hpgm : cmd.pgm ≠ Pgm.NULL := by
    intro h; rw [h] at hn1; simp [count_programs, count_programs_loop] at hn1
  have _ := hn
  have hl := launch_eq_loop env cmd w hpgm ho
  obtain ⟨l1, l2⟩ := launch_loop_forks env cmd (count_programs cmd.pgm)
    (Pgm.nodes cmd.pgm).reverse 0
    { open_redirections env cmd (State.enter w) with
      previous_read_end := (open_redirections env cmd (State.enter w)).fdin,
      previous_write_end := -1 } hp hf
    (fun p hp1 => ha p (by simpa using hp1))
  rw [← hl] at l1 l2
  have hstart : (open_redirections env cmd (State.enter w)).proc.fork_count = 0 := by
    rw [(open_redirections_fields env cmd (State.enter w)).2.2.2.2.2.1]; rfl
  simp only [List.countP_reverse] at l2
  rw [hstart, Nat.zero_add] at l2
  rcases hr : launch env cmd w with ⟨fl, s⟩
  rw [hr] at l1 l2
  simp only at l1 l2
  subst l1
  unfold handle_command
  rw [hr]
  simp only
  split
  · refine ⟨by simp, ?_⟩
    simp only
    rw [(cleanup_fields _).2.2.2.2.2.1, wait_loop_forks, l2]
  · refine ⟨by simp, ?_⟩
    simp only
    rw [(cleanup_fields s).2.2.2.2.2.1, l2]

/-! ## The process table -/

theorem store_indices_call (p : Proc) (e : Event) (j : Nat)
    (h : j ∈ (p.call e).store_indices) :
    j ∈ p.store_indices ∨ ∃ pid, e = Event.pids_store j pid := by
  simp only [Proc.call, Proc.store_indices, List.filterMap_append, List.mem_append] at h
  rcases h with h | h
  · exact Or.inl h
  · right
    cases e <;> simp at h
    rename_i i pid
    exact ⟨pid, by rw [h]⟩

theorem store_indices_safe_close (fd : Int) (p : Proc) :
    (safe_close fd p).store_indices = p.store_indices := by
  simp only [Proc.store_indices, safe_close_calls]
  split <;> simp [List.filterMap_append]

theorem fork_stage_store (env : Env) (cmd : Command) (i : Nat) (pgmlist : List String)
    (nr nw : Int) (s : State) (j : Nat)
    (h : j ∈ (fork_stage env cmd i pgmlist nr nw s).2.proc.store_indices) :
    j ∈ s.proc.store_indices ∨ j = i := by
  unfold fork_stage at h
  cases hr : env.fork_ret i with
  | none =>
    simp only [hr] at h
    rcases store_indices_call _ _ _ h with h | ⟨pid, h⟩
    · exact Or.inl h
    · cases h
  | some pid =>
    simp only [hr] at h
    have h' : j ∈ (Proc.call (Event.pids_store i pid)
        (safe_close s.previous_write_end (safe_close s.previous_read_end
          (s.proc.call (Event.fork_call (some pid)))))).store_indices := h
    rcases store_indices_call _ _ _ h' with h1 | ⟨pid1, h1⟩
    · rw [store_indices_safe_close, store_indices_safe_close] at h1
      rcases store_indices_call _ _ _ h1 with h2 | ⟨pid2, h2⟩
      · exact Or.inl h2
      · cases h2
    · right
      cases h1
      rfl

theorem sys_pipe_store (env : Env) (i : Nat) (s : State) :
    (sys_pipe env i s).2.proc.store_indices = s.proc.store_indices := by
  unfold sys_pipe
  split <;> simp [Proc.store_indices, Proc.call, List.filterMap_append]

theorem sys_chdir_store (env : Env) (path : Option String) (s : State) :
    (sys_chdir env path s).proc.store_indices = s.proc.store_indices := by
  unfold sys_chdir
  repeat' split
  all_goals simp [Proc.store_indices, Proc.call, List.filterMap_append]

theorem launch_stage_store (env : Env) (cmd : Command) (count i : Nat) (current : Pgm)
    (s : State) (j : Nat)
    (h : j ∈ (launch_stage env cmd count i current s).2.proc.store_indices) :
    j ∈ s.proc.store_indices ∨ j = i := by
  unfold launch_stage at h
  split at h
  · exact Or.inl h
  · exact Or.inl h
  · split at h
    · exact Or.inl h
    · split at h
      · rw [sys_chdir_store] at h; exact Or.inl h
      · split at h
        · exact fork_stage_store env cmd i _ _ _ s j h
        · have hp := sys_pipe_store env i s
          split at h
          · rename_i s1 heq
            rw [heq] at hp
            simp only at h hp
            rw [hp] at h; exact Or.inl h
          · rename_i nr nw s1 heq
            rw [heq] at hp
            simp only at hp
            rcases fork_stage_store env cmd i _ _ _ s1 j h with h1 | h1
            · rw [hp] at h1; exact Or.inl h1
            · exact Or.inr h1

theorem launch_loop_store (env : Env) (cmd : Command) (count : Nat) (pgms : List Pgm)
    (i : Nat) (s : State) (j : Nat)
    (h : j ∈ (launch_loop env cmd count i pgms s).2.proc.store_indices) :
    j ∈ s.proc.store_indices ∨ (i ≤ j ∧ j < i + pgms.length) := by
  induction pgms generalizing i s with
  | nil => exact Or.inl (by simpa [launch_loop] using h)
  | cons current rest ih =>
    have hs := launch_stage_store env cmd count i current s j
    unfold launch_loop at h
    split at h
    · rename_i s1 heq
      rw [heq] at hs
      rcases ih (i + 1) s1 h with h1 | h1
      · rcases hs h1 with h2 | h2
        · exact Or.inl h2
        · right; simp; omega
      · right; simp; omega
    · rcases hs h with h2 | h2
      · exact Or.inl h2
      · right; simp; omega

theorem wait_loop_store (env : Env) (n i : Nat) (s : State) :
    (wait_loop env n i s).proc.store_indices = s.proc.store_indices := by
  induction n generalizing i s with
  | zero => simp [wait_loop]
  | succ n ih =>
    unfold wait_loop
    rw [ih, (sys_waitpid_calls env _ s).1]
    simp [Proc.store_indices, Proc.call, List.filterMap_append]

theorem open_redirections_store (env : Env) (cmd : Command) (s : State) :
    (open_redirections env cmd s).proc.store_indices = s.proc.store_indices := by
  unfold open_redirections sys_open
  cases cmd.rstdin <;> cases cmd.rstdout <;> simp only <;>
    (repeat' split) <;>
    simp [Proc.call, Proc.store_indices, List.filterMap_append]

theorem launch_store (env : Env) (cmd : Command) (w : World) (j : Nat)
    (h : j ∈ (launch env cmd w).2.proc.store_indices) : j < count_programs cmd.pgm := by
  have h0 : (open_redirections env cmd (State.enter w)).proc.store_indices = [] := by
    rw [open_redirections_store]; rfl
  unfold launch at h
  split at h
  · simp [State.enter, Proc.store_indices] at h
  · rename_i pgmlist next hc
    simp only at h
    split at h
    · simp only at h; rw [h0] at h; simp at h
    · split at h
      · simp only at h; rw [h0] at h; simp at h
      · rw [reverse_array_eq] at h
        simp only at h
        rcases launch_loop_store env cmd _ _ 0 _ j h with h1 | h1
        · simp only at h1; rw [h0] at h1; simp at h1
        · rw [count_programs_eq]
          simpa using h1.2

theorem handle_command_store (env : Env) (cmd : Command) (w : World) (j : Nat)
    (h : j ∈ (handle_command env cmd w).2.proc.store_indices) : j < count_programs cmd.pgm := by
  have hl := launch_store env cmd w j
  unfold handle_command at h
  split at h
  · rename_i s heq; rw [heq] at hl; exact hl h
  · rename_i s heq; rw [heq] at hl; exact hl h
  · rename_i s heq; rw [heq] at hl
    simp only at h
    rw [(cleanup_fields s).2.2.2.2.2.2.2.2.1] at h
    exact hl h
  · rename_i s heq; rw [heq] at hl
    have hw := wait_loop_store env (count_programs cmd.pgm) 0 s
    split at h
    · simp only at h
      rw [(cleanup_fields _).2.2.2.2.2.2.2.2.1, hw] at h
      exact hl h
    · simp only at h
      rw [(cleanup_fields s).2.2.2.2.2.2.2.2.1] at h
      exact hl h

/-! ## The descriptor table of a child -/

theorem sys_dup2_lookup (oldfd : Int) (newfd : Nat) (p : Proc) (x : Int) :
    (sys_dup2 oldfd newfd p).fds.lookup x =
      if x = (newfd : Int) ∧ (p.fds.lookup oldfd).isSome then p.fds.lookup oldfd
      else p.fds.lookup x := by
  simp only [sys_dup2, lookup_dup2]

theorem safe_close_fds (fd : Int) (p : Proc) :
    (safe_close fd p).fds = if fd > 1 then p.fds.close fd else p.fds := by
  unfold safe_close sys_close
  split <;> rfl

theorem child_branch_fds (cmd : Command) (pgmlist : List String) (pr pw nr nw : Int)
    (p : Proc) :
    (child_branch cmd pgmlist pr pw nr nw p).fds =
      (safe_close nw (sys_dup2 nw 1 (safe_close nr (safe_close pr
        (sys_dup2 pr 0 (safe_close pw p)))))).fds := by
  have hfd : ∀ (fd : Int) (q r : Proc), q.fds = r.fds →
      (safe_close fd q).fds = (safe_close fd r).fds := by
    intro fd q r h; simp only [safe_close_fds, h]
  have hdup : ∀ (a : Int) (b : Nat) (q r : Proc), q.fds = r.fds →
      (sys_dup2 a b q).fds = (sys_dup2 a b r).fds := by
    intro a b q r h; simp only [sys_dup2, h]
  have hb : (if cmd.bakground ≠ 0 then p.call Event.setpgid_call
      else p.call Event.signal_default).fds = p.fds := by
    split <;> rfl
  unfold child_branch
  simp only []
  rw [show ∀ q : Proc, (q.call (Event.execvp_call pgmlist)).fds = q.fds from fun _ => rfl]
  exact hfd _ _ _ (hdup _ _ _ _ (hfd _ _ _ (hfd _ _ _ (hdup _ _ _ _ (hfd _ _ _ hb)))))

theorem child_branch_lookup (cmd : Command) (pgmlist : List String) (pr pw nr nw : Int)
    (p : Proc) (x : Int)
    (hpr : (p.fds.lookup pr).isSome = true) (hnw : (p.fds.lookup nw).isSome = true)
    (h1 : pr ≠ pw) (h2 : nw ≠ pw) (h3 : nw ≠ pr) (h4 : nw ≠ nr) (h5 : nw ≠ 0) :
    (child_branch cmd pgmlist pr pw nr nw p).fds.lookup x =
      if x = 0 then p.fds.lookup pr
      else if x = 1 then p.fds.lookup nw
      else if x = pr ∨ x = pw ∨ x = nr ∨ x = nw then none
      else p.fds.lookup x := by
  rw [child_branch_fds]
  have L1 : ∀ y, (safe_close pw p).fds.lookup y
      = if y = pw ∧ pw > 1 then none else p.fds.lookup y := fun y => safe_close_lookup pw p y
  have L1pr : (safe_close pw p).fds.lookup pr = p.fds.lookup pr := by
    rw [L1, if_neg (fun h => h1 h.1)]
  have L2 : ∀ y, (sys_dup2 pr 0 (safe_close pw p)).fds.lookup y
      = if y = 0 then p.fds.lookup pr else (safe_close pw p).fds.lookup y := by
    intro y
    rw [sys_dup2_lookup, L1pr]
    simp [hpr]
  have L4 : ∀ y, (safe_close nr (safe_close pr (sys_dup2 pr 0 (safe_close pw p)))).fds.lookup y
      = if y = nr ∧ nr > 1 then none else if y = pr ∧ pr > 1 then none
        else if y = 0 then p.fds.lookup pr
        else if y = pw ∧ pw > 1 then none else p.fds.lookup y := by
    intro y
    rw [safe_close_lookup, safe_close_lookup, L2, L1]
  have L4nw : (safe_close nr (safe_close pr
      (sys_dup2 pr 0 (safe_close pw p)))).fds.lookup nw = p.fds.lookup nw := by
    rw [L4, if_neg (fun h => h4 h.1), if_neg (fun h => h3 h.1), if_neg h5,
      if_neg (fun h => h2 h.1)]
  have L5 : ∀ y, (sys_dup2 nw 1 (safe_close nr (safe_close pr
      (sys_dup2 pr 0 (safe_close pw p))))).fds.lookup y
      = if y = 1 then p.fds.lookup nw
        else (safe_close nr (safe_close pr (sys_dup2 pr 0 (safe_close pw p)))).fds.lookup y := by
    intro y
    rw [sys_dup2_lookup, L4nw]
    simp [hnw]
  rw [safe_close_lookup, L5, L4]
  have hneg : ∀ y : Int, y < 0 → p.fds.lookup y = none := fun y hy => lookup_neg _ y hy
  by_cases hx0 : x = 0
  · subst hx0
    have e1 : ¬ ((0 : Int) = nw ∧ nw > 1) := fun h => h5 h.1.symm
    have e2 : ¬ ((0 : Int) = nr ∧ nr > 1) := fun h => by omega
    have e3 : ¬ ((0 : Int) = pr ∧ pr > 1) := fun h => by omega
    simp [e1, e2, e3]
  · by_cases hx1 : x = 1
    · subst hx1
      have e1 : ¬ ((1 : Int) = nw ∧ nw > 1) := fun h => by omega
      simp [e1]
    · by_cases hxn : x < 0
      · have e1 : ¬ (x = nw ∧ nw > 1) := fun h => by omega
        have e2 : ¬ (x = nr ∧ nr > 1) := fun h => by omega
        have e3 : ¬ (x = pr ∧ pr > 1) := fun h => by omega
        have e4 : ¬ (x = pw ∧ pw > 1) := fun h => by omega
        simp only [e1, e2, e3, e4, hx0, hx1, if_false, hneg x hxn]
        split <;> rfl
      · have hx : x > 1 := by omega
        have e1 : (x = nw ∧ nw > 1) = (x = nw) := by apply propext; constructor <;> intro h <;> omega
        have e2 : (x = nr ∧ nr > 1) = (x = nr) := by apply propext; constructor <;> intro h <;> omega
        have e3 : (x = pr ∧ pr > 1) = (x = pr) := by apply propext; constructor <;> intro h <;> omega
        have e4 : (x = pw ∧ pw > 1) = (x = pw) := by apply propext; constructor <;> intro h <;> omega
        simp only [e1, e2, e3, e4, hx0, hx1, if_false]
        by_cases a1 : x = nw
        · simp [a1]
        · by_cases a2 : x = nr
          · simp [a1, a2]
          · by_cases a3 : x = pr
            · simp [a1, a2, a3]
            · by_cases a4 : x = pw
              · simp [a1, a2, a3, a4]
              · simp [a1, a2, a3, a4]

/-! ## Output redirection -/

theorem default_mode_eq : DEFAULT_MODE = 0o644 := by decide

theorem created_mode_of_disjoint (mode umask : Nat) (h : mode &&& umask = 0) :
    created_mode mode umask = mode := by
  simp [created_mode, h]

theorem write_from_start_of_le (bytes old : List Nat) (h : old.length ≤ bytes.length) :
    write_from_start bytes old = bytes := by
  simp [write_from_start, List.drop_eq_nil_of_le h]

theorem single_stage_child_stdout (cmd : Command) (pgmlist : List String) (t : FdTable)
    (fd : Int) (o : Obj) (h : t.lookup fd = some o) :
    (child_branch cmd pgmlist 0 (-1) (-1) fd { fds := t, calls := [] }).fds.lookup 1
      = some o := by
  have hneg : ¬ ((-1 : Int) > 1) := by omega
  have h0 : ¬ ((0 : Int) > 1) := by omega
  have hdup : ∀ (p : Proc) (x : Int), (sys_dup2 0 0 p).fds.lookup x = p.fds.lookup x := by
    intro p x
    rw [sys_dup2_lookup]
    split
    · rename_i hx; rw [hx.1]; rfl
    · rfl
  rw [child_branch_fds, safe_close_lookup, if_neg (by omega), sys_dup2_lookup]
  simp only [safe_close, hneg, h0, if_false, hdup, h]
  simp

/-- C6, amended: a foreground single-stage pipeline whose only redirection is the
output redirection to `F`, the `open` of `F` and the `fork` succeeding, returns,
and then: when `F` was absent it holds exactly the bytes the stage wrote and has
the permission bits `DEFAULT_MODE` (0644) less the bits of the umask; when `F`
existed (it is opened without truncation) the bytes written replace the start of
its former content, what lay beyond them stays, and its permission bits are
unchanged. So the content is exactly the bytes written whenever the former
content was not longer than them. -/
theorem output_redirection_overwrites (env : Env) (cmd : Command) (w : World)
    (arg0 : String) (args : List String) (F : String)
    (hpgm : cmd.pgm = Pgm.node (arg0 :: args) Pgm.NULL)
    (hin : cmd.rstdin = none) (hout : cmd.rstdout = some F) (hfg : cmd.bakground = 0)
    (hopen : env.open_ok F [OpenFlag.O_WRONLY, OpenFlag.O_CREAT] = true)
    (hfork : (env.fork_ret 0).isSome = true) :
    (handle_command env cmd w).1 = Exit.returned ∧
    (handle_command env cmd w).2.fs F = some (match w.fs F with
      | none =>
        { content := single_stage_output env cmd.pgm,
          mode := created_mode DEFAULT_MODE env.umask }
      | some f =>
        { content := write_from_start (single_stage_output env cmd.pgm) f.content,
          mode := f.mode }) ∧
    DEFAULT_MODE = 0o644 ∧
    (DEFAULT_MODE &&& env.umask = 0 → created_mode DEFAULT_MODE env.umask = 0o644) ∧
    (∀ f, w.fs F = some f → f.content.length ≤ (single_stage_output env cmd.pgm).length →
      write_from_start (single_stage_output env cmd.pgm) f.content
        = single_stage_output env cmd.pgm) := by
  refine ⟨?_, ?_, default_mode_eq,
    fun h => (created_mode_of_disjoint _ _ h).trans default_mode_eq,
    fun f _ hle => write_from_start_of_le _ _ hle⟩
  · by_cases he : arg0 = "exit"
    · simp [handle_command, wait_loop, sys_waitpid, cleanup, launch, hpgm,
        open_redirections, hin, hout, sys_open, hopen, State.enter, count_programs,
        count_programs_loop, reverse_array, reverse_array_loop, launch_loop, launch_stage,
        he, PIDS_SIZE, store_pid_get_self, STDIN_FILENO, STDOUT_FILENO, hfg]
    · by_cases hc : arg0 = "cd"
      · simp [handle_command, wait_loop, sys_waitpid, cleanup, launch, hpgm,
          open_redirections, hin, hout, sys_open, hopen, State.enter, count_programs,
          count_programs_loop, reverse_array, reverse_array_loop, launch_loop, launch_stage,
          hc, PIDS_SIZE, store_pid_get_self, STDIN_FILENO, STDOUT_FILENO, hfg]
      · obtain ⟨pid, hpid⟩ := Option.isSome_iff_exists.1 hfork
        simp [handle_command, wait_loop, sys_waitpid, cleanup, launch, hpgm,
          open_redirections, hin, hout, sys_open, hopen, State.enter, count_programs,
          count_programs_loop, reverse_array, reverse_array_loop, launch_loop, launch_stage,
          he, hc, fork_stage, hpid, PIDS_SIZE, store_pid_get_self, STDIN_FILENO, STDOUT_FILENO, hfg]
  · have hfs : ∀ f0 : String → Option File,
        fs_open env.umask F [OpenFlag.O_WRONLY, OpenFlag.O_CREAT] (some DEFAULT_MODE) f0 F
          = some (match f0 F with
            | none => { content := [], mode := created_mode DEFAULT_MODE env.umask }
            | some f => f) := by
      intro f0
      unfold fs_open
      cases h : f0 F with
      | none => simp [h]
      | some f => simp [h]
    by_cases he : arg0 = "exit"
    · have hout0 : single_stage_output env (Pgm.node (arg0 :: args) Pgm.NULL) = [] := by
        simp [single_stage_output, Pgm.forks, he]
      simp [handle_command, wait_loop, sys_waitpid, cleanup, launch, hpgm,
        open_redirections, hin, hout, sys_open, hopen, State.enter, count_programs,
        count_programs_loop, reverse_array, reverse_array_loop, launch_loop, launch_stage,
        he, PIDS_SIZE, store_pid_get_self, STDIN_FILENO, STDOUT_FILENO, hfg]
      rw [hfs, ← he, hout0]
      cases w.fs F <;> simp [write_from_start]
    · by_cases hc : arg0 = "cd"
      · have hout0 : single_stage_output env (Pgm.node (arg0 :: args) Pgm.NULL) = [] := by
          simp [single_stage_output, Pgm.forks, hc]
        have hch : ∀ (path : Option String) (s : State), (sys_chdir env path s).fs = s.fs := by
          intro path s
          unfold sys_chdir
          repeat' split
          all_goals rfl
        have hcp : ∀ (path : Option String) (s : State),
            (sys_chdir env path s).pids = s.pids := by
          intro path s
          unfold sys_chdir
          repeat' split
          all_goals rfl
        have hcc : ∀ (path : Option String) (s : State),
            (sys_chdir env path s).children = s.children := by
          intro path s
          unfold sys_chdir
          repeat' split
          all_goals rfl
        simp [handle_command, wait_loop, sys_waitpid, cleanup, launch, hpgm,
          open_redirections, hin, hout, sys_open, hopen, State.enter, count_programs,
          count_programs_loop, reverse_array, reverse_array_loop, launch_loop, launch_stage,
          hc, PIDS_SIZE, store_pid_get_self, STDIN_FILENO, STDOUT_FILENO, hfg, hch, hcp, hcc]
        rw [hfs, ← hc, hout0]
        cases w.fs F <;> simp [write_from_start]
      · obtain ⟨pid, hpid⟩ := Option.isSome_iff_exists.1 hfork
        have hout0 : single_stage_output env (Pgm.node (arg0 :: args) Pgm.NULL)
            = env.output 0 := by
          simp [single_stage_output, Pgm.forks, he, hc]
        simp [handle_command, wait_loop, sys_waitpid, cleanup, launch, hpgm,
          open_redirections, hin, hout, sys_open, hopen, State.enter, count_programs,
          count_programs_loop, reverse_array, reverse_array_loop, launch_loop, launch_stage,
          he, hc, fork_stage, hpid, PIDS_SIZE, store_pid_get_self, STDIN_FILENO, STDOUT_FILENO, hfg]
        rw [hout0]
        unfold child_output
        simp only [single_stage_child_stdout cmd (arg0 :: args)
          (w.fds.put w.fds.lowest_free (some (Obj.file F [OpenFlag.O_WRONLY, OpenFlag.O_CREAT])))
          (w.fds.lowest_free : Int) (Obj.file F [OpenFlag.O_WRONLY, OpenFlag.O_CREAT])
          (by rw [lookup_put, if_pos rfl])]
        simp only [List.mem_cons, true_or, if_true, hfs]
        cases w.fs F <;> simp [write_from_start]

/-- C6, the claim fails: `echo hi > out` run when `out` already holds `hello`
leaves `out` with the five bytes `hillo` (the two bytes written, then the old
tail), not with the two bytes written; and under the umask 077 a newly created
`out` has the permission bits 0600, not 0644. -/
theorem output_redirection_keeps_old_tail :
    (handle_command ex_env ex_cmd_echo_out ex_world_hello).1 = Exit.returned ∧
    single_stage_output ex_env ex_cmd_echo_out.pgm = [104, 105] ∧
    (handle_command ex_env ex_cmd_echo_out ex_world_hello).2.fs "out"
      = some { content := [104, 105, 108, 108, 111], mode := 0o600 } ∧
    ex_world.fs "out" = none ∧
    (handle_command ex_env_umask_077 ex_cmd_echo_out ex_world).2.fs "out"
      = some { content := [104, 105], mode := 0o600 } := by
  decide

theorem output_redirection_overwrites_witness :
    (handle_command ex_env ex_cmd_echo_out ex_world).1 = Exit.returned ∧
    (handle_command ex_env ex_cmd_echo_out ex_world).2.fs "out"
      = some { content := [104, 105], mode := 0o644 } ∧
    (handle_command ex_env ex_cmd_echo_out ex_world_hello).2.fs "out"
      = some { content := [104, 105, 108, 108, 111], mode := 0o600 } := by
  have h := output_redirection_overwrites ex_env ex_cmd_echo_out ex_world "echo" ["hi"] "out"
    rfl rfl rfl rfl rfl rfl
  have h2 := output_redirection_overwrites ex_env ex_cmd_echo_out ex_world_hello "echo" ["hi"]
    "out" rfl rfl rfl rfl rfl rfl
  refine ⟨h.1, h.2.1.trans (by decide), h2.2.1.trans (by decide)⟩

/-! ## The chain of pipes -/

theorem forks_node (p : Pgm) (h : p.forks = true) :
    ∃ arg0 args next, p = Pgm.node (arg0 :: args) next ∧ arg0 ≠ "exit" ∧ arg0 ≠ "cd" := by
  cases p with
  | NULL => simp [Pgm.forks] at h
  | node pgmlist next =>
    cases pgmlist with
    | nil => simp [Pgm.forks] at h
    | cons arg0 args =>
      simp [Pgm.forks] at h
      exact ⟨arg0, args, next, rfl, h.1, h.2⟩

theorem fork_stage_eq (env : Env) (cmd : Command) (i : Nat) (pgmlist : List String)
    (nr nw : Int) (s : State) (pid : Nat) (h : env.fork_ret i = some pid) :
    fork_stage env cmd i pgmlist nr nw s = (Flow.next,
      { s with
        proc := (safe_close s.previous_write_end (safe_close s.previous_read_end
          (s.proc.call (Event.fork_call (some pid))))).call (Event.pids_store i pid),
        children := s.children ++
          [{ stage := i, pid := pid, argv := pgmlist,
             proc := child_branch cmd pgmlist s.previous_read_end s.previous_write_end
               nr nw { fds := s.proc.fds, calls := [] } }],
        previous_read_end := nr, previous_write_end := nw,
        pids := store_pid s.pids i pid }) := by
  simp [fork_stage, h]

theorem sys_pipe_eq (env : Env) (i : Nat) (s : State) (h : env.pipe_ok i = true) :
    sys_pipe env i s =
      (some ((s.proc.fds.lowest_free : Int),
        ((s.proc.fds.put s.proc.fds.lowest_free
          (some (Obj.pipe_read s.npipes))).lowest_free : Int)),
      { s with
        proc :=
          { fds := (s.proc.fds.put s.proc.fds.lowest_free
              (some (Obj.pipe_read s.npipes))).put
                (s.proc.fds.put s.proc.fds.lowest_free
                  (some (Obj.pipe_read s.npipes))).lowest_free
                (some (Obj.pipe_write s.npipes)),
            calls := s.proc.calls ++ [Event.pipe_call
              (some ((s.proc.fds.lowest_free : Int),
                ((s.proc.fds.put s.proc.fds.lowest_free
                  (some (Obj.pipe_read s.npipes))).lowest_free : Int)))] },
        npipes := s.npipes + 1 }) := by
  simp [sys_pipe, h]

theorem after_fork_lookup (p : Proc) (pr pw : Int) (e1 e2 : Event) (x : Int) :
    ((safe_close pw (safe_close pr (p.call e1))).call e2).fds.lookup x =
      if x = pw ∧ pw > 1 then none else if x = pr ∧ pr > 1 then none else p.fds.lookup x := by
  show (safe_close pw (safe_close pr (p.call e1))).fds.lookup x = _
  rw [safe_close_lookup, safe_close_lookup]
  rfl

theorem launch_order_call (p : Proc) (e : Event) :
    (p.call e).launch_order = p.launch_order ++
      (if e.is_pipe || e.is_fork then [e.is_fork] else []) := by
  simp only [Proc.call, Proc.launch_order, List.filter_append, List.map_append]
  cases h : (e.is_pipe || e.is_fork) <;> simp [List.filter, h]

theorem launch_order_safe_close (fd : Int) (p : Proc) :
    (safe_close fd p).launch_order = p.launch_order := by
  simp only [Proc.launch_order, safe_close_calls]
  split <;> simp [List.filter_append, List.filter, Event.is_pipe, Event.is_fork]

theorem lookup_isSome_nonneg (t : FdTable) (x : Int) (h : (t.lookup x).isSome = true) :
    0 ≤ x := by
  by_contra hx
  rw [lookup_neg t x (by omega)] at h
  simp at h

theorem overall_input_isSome (cmd : Command) (w : World)
    (h0 : (w.fds.lookup 0).isSome = true) : (overall_input cmd w).isSome = true := by
  unfold overall_input
  split
  · rfl
  · exact h0

theorem overall_output_isSome (cmd : Command) (w : World)
    (h1 : (w.fds.lookup 1).isSome = true) : (overall_output cmd w).isSome = true := by
  unfold overall_output
  split
  · rfl
  · exact h1

theorem fork_results_call (p : Proc) (e : Event) :
    (p.call e).fork_results = p.fork_results ++
      (match e with
        | Event.fork_call ret => [ret]
        | _ => []) := by
  simp only [Proc.call, Proc.fork_results, List.filterMap_append]
  cases e <;> simp

theorem fork_results_safe_close (fd : Int) (p : Proc) :
    (safe_close fd p).fork_results = p.fork_results := by
  simp only [Proc.fork_results, safe_close_calls]
  split <;> simp [List.filterMap_append]

theorem waited_call (p : Proc) (e : Event) :
    (p.call e).waited = p.waited ++
      (match e with
        | Event.waitpid_call pid => [pid]
        | _ => []) := by
  simp only [Proc.call, Proc.waited, List.filterMap_append]
  cases e <;> simp

theorem waited_safe_close (fd : Int) (p : Proc) :
    (safe_close fd p).waited = p.waited := by
  simp only [Proc.waited, safe_close_calls]
  split <;> simp [List.filterMap_append]

theorem getElem?_append_singleton {α : Type} (l : List α) (a : α) (j : Nat) (c : α)
    (h : (l ++ [a])[j]? = some c) : (j < l.length ∧ l[j]? = some c) ∨ (j = l.length ∧ c = a) := by
  by_cases hj : j < l.length
  · rw [List.getElem?_append_left hj] at h
    exact Or.inl ⟨hj, h⟩
  · rw [List.getElem?_append_right (by omega)] at h
    right
    by_cases hj2 : j = l.length
    · subst hj2
      simp at h
      exact ⟨rfl, h.symm⟩
    · have : j - l.length ≠ 0 := by omega
      obtain ⟨m, hm⟩ := Nat.exists_eq_succ_of_ne_zero this
      rw [hm] at h
      simp at h

theorem chain_step (env : Env) (cmd : Command) (w : World) (n i : Nat) (current : Pgm)
    (s : State) (h0 : (w.fds.lookup 0).isSome = true) (h1 : (w.fds.lookup 1).isSome = true)
    (hc : s.chain cmd w n i) (hlt : i + 1 < n)
    (hcur : current.forks = true) (hp : env.pipe_ok i = true)
    (hf : (env.fork_ret i).isSome = true) :
    ∃ s1, launch_stage env cmd n i current s = (Flow.next, s1) ∧ s1.chain cmd w n (i + 1) := by
  obtain ⟨arg0, args, next, rfl, he, hcd⟩ := forks_node current hcur
  obtain ⟨pid, hpid⟩ := Option.isSome_iff_exists.1 hf
  have hne : ¬ i = n - 1 := by omega
  obtain ⟨T, hT⟩ : ∃ T, T = s.proc.fds := ⟨_, rfl⟩
  obtain ⟨r, hr⟩ : ∃ r, r = T.lowest_free := ⟨_, rfl⟩
  obtain ⟨T1, hT1⟩ : ∃ T1, T1 = T.put r (some (Obj.pipe_read s.npipes)) := ⟨_, rfl⟩
  obtain ⟨v, hv⟩ : ∃ v, v = T1.lowest_free := ⟨_, rfl⟩
  obtain ⟨T2, hT2⟩ : ∃ T2, T2 = T1.put v (some (Obj.pipe_write s.npipes)) := ⟨_, rfl⟩
  have hpipe := sys_pipe_eq env i s hp
  rw [← hT, ← hr, ← hT1, ← hv, ← hT2] at hpipe
  have hstage : launch_stage env cmd n i (Pgm.node (arg0 :: args) next) s
      = fork_stage env cmd i (arg0 :: args) (r : Int) (v : Int)
        { s with
          proc := { fds := T2, calls := s.proc.calls ++ [Event.pipe_call (some ((r : Int), (v : Int)))] },
          npipes := s.npipes + 1 } := by
    simp only [launch_stage, he, hcd, hne, if_false, hpipe]
  rw [fork_stage_eq env cmd i _ _ _ _ pid hpid] at hstage
  refine ⟨_, hstage, ?_⟩
  -- the tables
  have hTr : T.lookup (r : Int) = none := by rw [hr]; exact lookup_lowest_free T
  have hT1v : T1.lookup (v : Int) = none := by rw [hv]; exact lookup_lowest_free T1
  have hL1 : ∀ x : Int, T1.lookup x = if x = (r : Int) then some (Obj.pipe_read s.npipes)
      else T.lookup x := by
    intro x; rw [hT1, lookup_put]
  have hvr : (v : Int) ≠ (r : Int) := by
    intro h
    rw [hL1, if_pos h] at hT1v
    cases hT1v
  have hTv : T.lookup (v : Int) = none := by
    rw [hL1, if_neg hvr] at hT1v; exact hT1v
  have hL2 : ∀ x : Int, T2.lookup x = if x = (v : Int) then some (Obj.pipe_write s.npipes)
      else if x = (r : Int) then some (Obj.pipe_read s.npipes) else T.lookup x := by
    intro x; rw [hT2, lookup_put, hL1]
  have fresh : ∀ x : Int, (T.lookup x).isSome = true → x ≠ (r : Int) ∧ x ≠ (v : Int) := by
    intro x hx
    constructor
    · intro h; rw [h, hTr] at hx; simp at hx
    · intro h; rw [h, hTv] at hx; simp at hx
  have hL : ∀ x : Int,
      ((safe_close s.previous_write_end (safe_close s.previous_read_end
        (Proc.call (Event.fork_call (some pid))
          { fds := T2, calls := s.proc.calls ++
            [Event.pipe_call (some ((r : Int), (v : Int)))] }))).call
        (Event.pids_store i pid)).fds.lookup x =
      if x = s.previous_write_end ∧ s.previous_write_end > 1 then none
      else if x = s.previous_read_end ∧ s.previous_read_end > 1 then none
      else if x = (v : Int) then some (Obj.pipe_write s.npipes)
      else if x = (r : Int) then some (Obj.pipe_read s.npipes) else T.lookup x := by
    intro x
    rw [after_fork_lookup]
    simp only [hL2]
  have hin := overall_input_isSome cmd w h0
  have hout := overall_output_isSome cmd w h1
  have hpr : (T.lookup s.previous_read_end).isSome = true := by
    rw [hT, hc.read_end]; split
    · exact hin
    · rfl
  have hfo : (T.lookup s.fdout).isSome = true := by rw [hT, hc.out]; exact hout
  have hT0 : (T.lookup 0).isSome = true := by rw [hT, hc.std0]; exact h0
  have hT1' : (T.lookup 1).isSome = true := by rw [hT, hc.std1]; exact h1
  have hpwr : ¬ ((r : Int) = s.previous_write_end ∧ s.previous_write_end > 1) := by
    rintro ⟨e, g⟩
    by_cases hi0 : i = 0
    · have := hc.write_first hi0; omega
    · have hw := hc.write_end hi0
      rw [← hT, ← e, hTr] at hw; cases hw
  have hpwv : ¬ ((v : Int) = s.previous_write_end ∧ s.previous_write_end > 1) := by
    rintro ⟨e, g⟩
    by_cases hi0 : i = 0
    · have := hc.write_first hi0; omega
    · have hw := hc.write_end hi0
      rw [← hT, ← e, hTv] at hw; cases hw
  have hv_ne_pw : (v : Int) ≠ s.previous_write_end := by
    intro e
    by_cases hi0 : i = 0
    · have := hc.write_first hi0; omega
    · have hw := hc.write_end hi0
      rw [← hT, ← e, hTv] at hw; cases hw
  have hprr := (fresh _ hpr).1
  have hprv := (fresh _ hpr).2
  refine
    { npipes := ?_, count := ?_, std0 := ?_, std1 := ?_, out_ne := hc.out_ne,
      out := ?_, ends_ne := fun e => hvr e.symm, out_ne_read := (fresh _ hfo).1,
      out_ne_write := (fresh _ hfo).2, read_end := ?_, write_first := ?_, write_end := ?_,
      others := ?_, children := ?_, order := ?_, stored := ?_,
      forked := ?_, unwaited := ?_ }
  · show s.npipes + 1 = i + 1
    rw [hc.npipes]
  · show (s.children ++ [_]).length = i + 1
    simp [hc.count]
  · show _ = w.fds.lookup 0
    rw [hL, if_neg (by omega), if_neg (by omega), if_neg (fresh 0 hT0).2,
      if_neg (fresh 0 hT0).1, hT, hc.std0]
  · show _ = w.fds.lookup 1
    rw [hL, if_neg (by omega), if_neg (by omega), if_neg (fresh 1 hT1').2,
      if_neg (fresh 1 hT1').1, hT, hc.std1]
  · show _ = overall_output cmd w
    rw [hL, if_neg (fun h => hc.out_ne_write h.1), if_neg (fun h => hc.out_ne_read h.1),
      if_neg (fresh _ hfo).2, if_neg (fresh _ hfo).1, hT, hc.out]
  · show _ = if i + 1 = 0 then _ else _
    rw [hL, if_neg hpwr, if_neg (fun h => hprr h.1.symm), if_neg (fun h => hvr h.symm),
      if_pos rfl, if_neg (by omega), hc.npipes]
    rfl
  · intro h; omega
  · intro _
    show _ = some (Obj.pipe_write (i + 1 - 1))
    rw [hL, if_neg hpwv, if_neg (fun h => hprv h.1.symm), if_pos rfl, hc.npipes]
    rfl
  · intro x o hx ho
    change ((safe_close s.previous_write_end (safe_close s.previous_read_end
        (Proc.call (Event.fork_call (some pid))
          { fds := T2, calls := s.proc.calls ++
            [Event.pipe_call (some ((r : Int), (v : Int)))] }))).call
        (Event.pids_store i pid)).fds.lookup x = some o at hx
    show x = (r : Int) ∨ x = (v : Int) ∨ w.holds o
    rw [hL] at hx
    by_cases a1 : x = s.previous_write_end ∧ s.previous_write_end > 1
    · rw [if_pos a1] at hx; cases hx
    · rw [if_neg a1] at hx
      by_cases a2 : x = s.previous_read_end ∧ s.previous_read_end > 1
      · rw [if_pos a2] at hx; cases hx
      · rw [if_neg a2] at hx
        by_cases a3 : x = (v : Int)
        · exact Or.inr (Or.inl a3)
        · rw [if_neg a3] at hx
          by_cases a4 : x = (r : Int)
          · exact Or.inl a4
          · rw [if_neg a4] at hx
            right; right
            have hx0 : 0 ≤ x := lookup_isSome_nonneg T x (by rw [hx]; rfl)
            rw [hT] at hx
            rcases hc.others x o hx ho with b | b | b
            · have : x = 0 ∨ x = 1 := by
                have : ¬ s.previous_read_end > 1 := fun g => a2 ⟨b, g⟩
                omega
              rcases this with e | e
              · exact ⟨0, by rw [← hc.std0, ← e]; exact hx⟩
              · exact ⟨1, by rw [← hc.std1, ← e]; exact hx⟩
            · have : x = 0 ∨ x = 1 := by
                have : ¬ s.previous_write_end > 1 := fun g => a1 ⟨b, g⟩
                omega
              rcases this with e | e
              · exact ⟨0, by rw [← hc.std0, ← e]; exact hx⟩
              · exact ⟨1, by rw [← hc.std1, ← e]; exact hx⟩
            · exact b
  · intro j c hj
    rcases getElem?_append_singleton _ _ j c hj with ⟨_, hold⟩ | ⟨hji, hcj⟩
    · exact hc.children j c hold
    · have hji' : j = i := by rw [hji]; exact hc.count
      subst hji'
      subst hcj
      have hLc := fun x => child_branch_lookup cmd (arg0 :: args) s.previous_read_end
        s.previous_write_end (r : Int) (v : Int) { fds := T2, calls := [] } x
        (by show (T2.lookup _).isSome = true
            rw [hL2, if_neg hprv, if_neg hprr]; exact hpr)
        (by show (T2.lookup _).isSome = true
            rw [hL2, if_pos rfl]; rfl)
        hc.ends_ne hv_ne_pw (fun e => hprv e.symm) hvr (fun e => (fresh 0 hT0).2 e.symm)
      refine { stage := rfl, stdin := ?_, stdout := ?_, others := ?_ }
      · show (child_branch _ _ _ _ _ _ _).fds.lookup 0 = _
        rw [hLc, if_pos rfl]
        show T2.lookup _ = _
        rw [hL2, if_neg hprv, if_neg hprr, hT, hc.read_end]
      · show (child_branch _ _ _ _ _ _ _).fds.lookup 1 = _
        rw [hLc, if_neg (by omega), if_pos rfl, if_neg (by omega)]
        show T2.lookup _ = _
        rw [hL2, if_pos rfl, hc.npipes]
      · intro x o hx ho
        change (child_branch _ _ _ _ _ _ _).fds.lookup x = some o at hx
        rw [hLc] at hx
        by_cases b0 : x = 0
        · exact Or.inl b0
        · by_cases b1 : x = 1
          · exact Or.inr (Or.inl b1)
          · right; right
            rw [if_neg b0, if_neg b1] at hx
            split at hx
            · cases hx
            · rename_i hnot
              change T2.lookup x = some o at hx
              rw [hL2, if_neg (fun e => hnot (Or.inr (Or.inr (Or.inr e)))),
                if_neg (fun e => hnot (Or.inr (Or.inr (Or.inl e)))), hT] at hx
              rcases hc.others x o hx ho with b | b | b
              · exact absurd (Or.inl b) hnot
              · exact absurd (Or.inr (Or.inl b)) hnot
              · exact b
  · show Proc.launch_order _ = chain_order (i + 1)
    rw [launch_order_call, launch_order_safe_close, launch_order_safe_close,
      launch_order_call]
    have : Proc.launch_order { fds := T2, calls := s.proc.calls ++
        [Event.pipe_call (some ((r : Int), (v : Int)))] } = s.proc.launch_order ++ [false] := by
      simp [Proc.launch_order, List.filter_append, List.filter, Event.is_pipe, Event.is_fork]
    rw [this, hc.order]
    simp [chain_order, Event.is_pipe, Event.is_fork]
  · intro j c hj
    show (store_pid s.pids i pid)[j]? = _
    rcases getElem?_append_singleton _ _ j c hj with ⟨hlt', hold⟩ | ⟨hji, hcj⟩
    · have hne' : j ≠ i := by rw [hc.count] at hlt'; omega
      exact store_pid_get_of_ne _ _ _ _ _ hne' (hc.stored j c hold)
    · have hji' : j = i := by rw [hji]; exact hc.count
      subst hji'
      subst hcj
      exact store_pid_get_self _ _ _
  · show Proc.fork_results _ = (s.children ++ [_]).map _
    rw [fork_results_call, fork_results_safe_close, fork_results_safe_close,
      fork_results_call]
    have : Proc.fork_results { fds := T2, calls := s.proc.calls ++
        [Event.pipe_call (some ((r : Int), (v : Int)))] } = s.proc.fork_results := by
      simp [Proc.fork_results, List.filterMap_append]
    rw [this, hc.forked]
    simp
  · show Proc.waited _ = []
    rw [waited_call, waited_safe_close, waited_safe_close, waited_call]
    have : Proc.waited { fds := T2, calls := s.proc.calls ++
        [Event.pipe_call (some ((r : Int), (v : Int)))] } = s.proc.waited := by
      simp [Proc.waited, List.filterMap_append]
    rw [this, hc.unwaited]
    rfl

theorem chain_last (env : Env) (cmd : Command) (w : World) (n i : Nat) (current : Pgm)
    (s : State) (h0 : (w.fds.lookup 0).isSome = true) (h1 : (w.fds.lookup 1).isSome = true)
    (hc : s.chain cmd w n i) (hlast : i + 1 = n)
    (hcur : current.forks = true) (hf : (env.fork_ret i).isSome = true) :
    ∃ s1, launch_stage env cmd n i current s = (Flow.next, s1) ∧ s1.launched cmd w n := by
  obtain ⟨arg0, args, next, rfl, he, hcd⟩ := forks_node current hcur
  obtain ⟨pid, hpid⟩ := Option.isSome_iff_exists.1 hf
  have hne : i = n - 1 := by omega
  obtain ⟨T, hT⟩ : ∃ T, T = s.proc.fds := ⟨_, rfl⟩
  have hstage : launch_stage env cmd n i (Pgm.node (arg0 :: args) next) s
      = fork_stage env cmd i (arg0 :: args) (-1) s.fdout s := by
    simp only [launch_stage, he, hcd, hne, if_false, if_true]
  rw [fork_stage_eq env cmd i _ _ _ _ pid hpid] at hstage
  refine ⟨_, hstage, ?_⟩
  have hL : ∀ x : Int,
      ((safe_close s.previous_write_end (safe_close s.previous_read_end
        (Proc.call (Event.fork_call (some pid)) s.proc))).call
        (Event.pids_store i pid)).fds.lookup x =
      if x = s.previous_write_end ∧ s.previous_write_end > 1 then none
      else if x = s.previous_read_end ∧ s.previous_read_end > 1 then none
      else T.lookup x := by
    intro x
    rw [after_fork_lookup, hT]
  have hin := overall_input_isSome cmd w h0
  have hout := overall_output_isSome cmd w h1
  have hpr : (T.lookup s.previous_read_end).isSome = true := by
    rw [hT, hc.read_end]; split
    · exact hin
    · rfl
  have hfo : (T.lookup s.fdout).isSome = true := by rw [hT, hc.out]; exact hout
  refine
    { count := ?_, children := ?_, others := ?_, order := ?_, stored := ?_,
      std0 := ?_, std1 := ?_, forked := ?_, unwaited := ?_ }
  · show (s.children ++ [_]).length = n
    simp [hc.count, hlast]
  · intro j c hj
    rcases getElem?_append_singleton _ _ j c hj with ⟨_, hold⟩ | ⟨hji, hcj⟩
    · exact hc.children j c hold
    · have hji' : j = i := by rw [hji]; exact hc.count
      subst hji'
      subst hcj
      have hLc := fun x => child_branch_lookup cmd (arg0 :: args) s.previous_read_end
        s.previous_write_end (-1) s.fdout { fds := T, calls := [] } x hpr hfo
        hc.ends_ne hc.out_ne_write hc.out_ne_read
        (by have := lookup_isSome_nonneg T _ hfo; omega) hc.out_ne
      refine { stage := rfl, stdin := ?_, stdout := ?_, others := ?_ }
      · show (child_branch _ _ _ _ _ _ _).fds.lookup 0 = _
        rw [← hT, hLc, if_pos rfl]
        show T.lookup _ = _
        rw [hT, hc.read_end]
      · show (child_branch _ _ _ _ _ _ _).fds.lookup 1 = _
        rw [← hT, hLc, if_neg (by omega), if_pos rfl, if_pos hlast]
        show T.lookup _ = _
        rw [hT, hc.out]
      · intro x o hx ho
        change (child_branch _ _ _ _ _ _ _).fds.lookup x = some o at hx
        rw [← hT, hLc] at hx
        by_cases b0 : x = 0
        · exact Or.inl b0
        · by_cases b1 : x = 1
          · exact Or.inr (Or.inl b1)
          · right; right
            rw [if_neg b0, if_neg b1] at hx
            split at hx
            · cases hx
            · rename_i hnot
              change T.lookup x = some o at hx
              rw [hT] at hx
              rcases hc.others x o hx ho with b | b | b
              · exact absurd (Or.inl b) hnot
              · exact absurd (Or.inr (Or.inl b)) hnot
              · exact b
  · intro x o hx ho
    change ((safe_close s.previous_write_end (safe_close s.previous_read_end
        (Proc.call (Event.fork_call (some pid)) s.proc))).call
        (Event.pids_store i pid)).fds.lookup x = some o at hx
    rw [hL] at hx
    by_cases a1 : x = s.previous_write_end ∧ s.previous_write_end > 1
    · rw [if_pos a1] at hx; cases hx
    · rw [if_neg a1] at hx
      by_cases a2 : x = s.previous_read_end ∧ s.previous_read_end > 1
      · rw [if_pos a2] at hx; cases hx
      · rw [if_neg a2] at hx
        have hx0 : 0 ≤ x := lookup_isSome_nonneg T x (by rw [hx]; rfl)
        rw [hT] at hx
        rcases hc.others x o hx ho with b | b | b
        · have : x = 0 ∨ x = 1 := by
            have : ¬ s.previous_read_end > 1 := fun g => a2 ⟨b, g⟩
            omega
          rcases this with e | e
          · exact ⟨0, by rw [← hc.std0, ← e]; exact hx⟩
          · exact ⟨1, by rw [← hc.std1, ← e]; exact hx⟩
        · have : x = 0 ∨ x = 1 := by
            have : ¬ s.previous_write_end > 1 := fun g => a1 ⟨b, g⟩
            omega
          rcases this with e | e
          · exact ⟨0, by rw [← hc.std0, ← e]; exact hx⟩
          · exact ⟨1, by rw [← hc.std1, ← e]; exact hx⟩
        · exact b
  · show Proc.launch_order _ = chain_order (n - 1) ++ [true]
    rw [launch_order_call, launch_order_safe_close, launch_order_safe_close,
      launch_order_call, hc.order, ← hne]
    simp [Event.is_pipe, Event.is_fork]
  · intro j c hj
    show (store_pid s.pids i pid)[j]? = _
    rcases getElem?_append_singleton _ _ j c hj with ⟨hlt', hold⟩ | ⟨hji, hcj⟩
    · have hne' : j ≠ i := by rw [hc.count] at hlt'; omega
      exact store_pid_get_of_ne _ _ _ _ _ hne' (hc.stored j c hold)
    · have hji' : j = i := by rw [hji]; exact hc.count
      subst hji'
      subst hcj
      exact store_pid_get_self _ _ _
  · show _ = w.fds.lookup 0
    rw [hL, if_neg (by omega), if_neg (by omega), hT, hc.std0]
  · show _ = w.fds.lookup 1
    rw [hL, if_neg (by omega), if_neg (by omega), hT, hc.std1]
  · show Proc.fork_results _ = (s.children ++ [_]).map _
    rw [fork_results_call, fork_results_safe_close, fork_results_safe_close,
      fork_results_call, hc.forked]
    simp
  · show Proc.waited _ = []
    rw [waited_call, waited_safe_close, waited_safe_close, waited_call, hc.unwaited]
    rfl

theorem chain_loop (env : Env) (cmd : Command) (w : World) (n : Nat)
    (h0 : (w.fds.lookup 0).isSome = true) (h1 : (w.fds.lookup 1).isSome = true)
    (hp : pipes_ok env) (hf : forks_ok env) (rest : List Pgm) :
    ∀ (i : Nat) (s : State), rest ≠ [] → i + rest.length = n →
      (∀ p ∈ rest, p.forks = true) → s.chain cmd w n i →
      ∃ s1, launch_loop env cmd n i rest s = (Flow.next, s1) ∧ s1.launched cmd w n := by
  induction rest with
  | nil => intro i s h; exact absurd rfl h
  | cons current rest ih =>
    intro i s _ hlen hforks hc
    have hcur : current.forks = true := hforks current (by simp)
    by_cases hrest : rest = []
    · subst hrest
      obtain ⟨s1, hs1, hl⟩ := chain_last env cmd w n i current s h0 h1 hc
        (by simpa using hlen) hcur (hf i)
      refine ⟨s1, ?_, hl⟩
      rw [launch_loop_cons env cmd n i current [] s s1 hs1]
      rfl
    · have hpos : 0 < rest.length := List.length_pos.2 hrest
      obtain ⟨s1, hs1, hc1⟩ := chain_step env cmd w n i current s h0 h1 hc
        (by simp at hlen; omega) hcur (hp i) (hf i)
      obtain ⟨s2, hs2, hl⟩ := ih (i + 1) s1 hrest (by simp at hlen; omega)
        (fun p hp1 => hforks p (by simp [hp1])) hc1
      exact ⟨s2, by rw [launch_loop_cons env cmd n i current rest s s1 hs1]; exact hs2, hl⟩

theorem open_redirections_fork_results (env : Env) (cmd : Command) (s : State) :
    (open_redirections env cmd s).proc.fork_results = s.proc.fork_results := by
  unfold open_redirections sys_open
  cases cmd.rstdin <;> cases cmd.rstdout <;> simp only <;>
    (repeat' split) <;>
    simp [Proc.call, Proc.fork_results, List.filterMap_append]

theorem chain_start (env : Env) (cmd : Command) (w : World) (n : Nat)
    (h0 : (w.fds.lookup 0).isSome = true) (h1 : (w.fds.lookup 1).isSome = true)
    (ho : opens_ok env cmd) :
    State.chain cmd w n 0
      { open_redirections env cmd (State.enter w) with
        previous_read_end := (open_redirections env cmd (State.enter w)).fdin,
        previous_write_end := -1 } := by
  obtain ⟨k0, k1, -, -⟩ := std_kept_open_redirections env cmd _ _ h0 h1 _ (std_kept_enter w)
  obtain ⟨f1, f2, f3, f4, f5, f6, f7, f8⟩ := open_redirections_fields env cmd (State.enter w)
  obtain ⟨g1, g2⟩ := open_redirections_ok env cmd (State.enter w) ho
  have key : (open_redirections env cmd (State.enter w)).fdout ≠ 0 ∧
      (open_redirections env cmd (State.enter w)).fdout
        ≠ (open_redirections env cmd (State.enter w)).fdin ∧
      (open_redirections env cmd (State.enter w)).proc.fds.lookup
        (open_redirections env cmd (State.enter w)).fdout = overall_output cmd w ∧
      (open_redirections env cmd (State.enter w)).proc.fds.lookup
        (open_redirections env cmd (State.enter w)).fdin = overall_input cmd w ∧
      (∀ x o, (open_redirections env cmd (State.enter w)).proc.fds.lookup x = some o →
        o.is_pipe_end = true → w.holds o) ∧
      (open_redirections env cmd (State.enter w)).proc.launch_order = [] := by
    obtain ⟨o1, o2⟩ := ho
    have n0 := lowest_free_ne w.fds 0 h0
    have n1 := lowest_free_ne w.fds 1 h1
    unfold open_redirections sys_open overall_input overall_output
    cases hi : cmd.rstdin with
    | none =>
      cases hq : cmd.rstdout with
      | none =>
        simp only [STDIN_FILENO, STDOUT_FILENO, State.enter]
        refine ⟨by omega, by omega, trivial, trivial, ?_, rfl⟩
        intro x o hx _
        exact ⟨x, hx⟩
      | some q =>
        simp only [o2 q hq, if_true, STDIN_FILENO, STDOUT_FILENO, State.enter]
        refine ⟨fun h => n0 h.symm, fun h => n0 h.symm, ?_, ?_, ?_, ?_⟩
        · rw [lookup_put, if_pos rfl]
        · rw [lookup_put, if_neg n0]
        · intro x o hx hpe
          rw [lookup_put] at hx
          split at hx
          · cases hx; simp [Obj.is_pipe_end] at hpe
          · exact ⟨x, hx⟩
        · simp [Proc.launch_order, List.filter, Event.is_pipe, Event.is_fork]
    | some p =>
      cases hq : cmd.rstdout with
      | none =>
        simp only [o1 p hi, if_true, STDIN_FILENO, STDOUT_FILENO, State.enter]
        refine ⟨by omega, fun h => n1 h, ?_, ?_, ?_, ?_⟩
        · rw [lookup_put, if_neg n1]
        · rw [lookup_put, if_pos rfl]
        · intro x o hx hpe
          rw [lookup_put] at hx
          split at hx
          · cases hx; simp [Obj.is_pipe_end] at hpe
          · exact ⟨x, hx⟩
        · simp [Proc.launch_order, List.filter, Event.is_pipe, Event.is_fork]
      | some q =>
        simp only [o1 p hi, o2 q hq, if_true, STDIN_FILENO, STDOUT_FILENO, State.enter]
        have hfree := lookup_lowest_free
          (w.fds.put w.fds.lowest_free (some (Obj.file p [OpenFlag.O_RDONLY])))
        have hne : ((w.fds.put w.fds.lowest_free
            (some (Obj.file p [OpenFlag.O_RDONLY]))).lowest_free : Int)
            ≠ (w.fds.lowest_free : Int) := by
          intro e
          rw [lookup_put, if_pos e] at hfree
          cases hfree
        have hne0 : ((w.fds.put w.fds.lowest_free
            (some (Obj.file p [OpenFlag.O_RDONLY]))).lowest_free : Int) ≠ 0 := by
          intro e
          rw [e, lookup_put, if_neg n0] at hfree
          rw [hfree] at h0; simp at h0
        refine ⟨hne0, hne, ?_, ?_, ?_, ?_⟩
        · rw [lookup_put, if_pos rfl]
        · rw [lookup_put, if_neg (fun e => hne e.symm), lookup_put, if_pos rfl]
        · intro x o hx hpe
          rw [lookup_put] at hx
          split at hx
          · cases hx; simp [Obj.is_pipe_end] at hpe
          · rw [lookup_put] at hx
            split at hx
            · cases hx; simp [Obj.is_pipe_end] at hpe
            · exact ⟨x, hx⟩
        · simp [Proc.launch_order, List.filter, Event.is_pipe, Event.is_fork]
  obtain ⟨a1, a2, a3, a4, a5, a6⟩ := key
  refine
    { npipes := f4, count := by show (open_redirections env cmd (State.enter w)).children.length = 0
                                rw [f1]; rfl,
      std0 := k0, std1 := k1, out_ne := a1, out := a3,
      ends_ne := g1, out_ne_read := a2,
      out_ne_write := g2, read_end := a4, write_first := fun _ => rfl,
      write_end := fun h => absurd rfl h,
      others := fun x o hx hpe => Or.inr (Or.inr (a5 x o hx hpe)),
      children := ?_, order := a6, stored := ?_,
      forked := ?_, unwaited := ?_ }
  · intro j c hj
    change (open_redirections env cmd (State.enter w)).children[j]? = some c at hj
    rw [f1] at hj
    simp [State.enter] at hj
  · intro j c hj
    change (open_redirections env cmd (State.enter w)).children[j]? = some c at hj
    rw [f1] at hj
    simp [State.enter] at hj
  · show (open_redirections env cmd (State.enter w)).proc.fork_results
      = (open_redirections env cmd (State.enter w)).children.map _
    rw [f1, open_redirections_fork_results]
    rfl
  · show (open_redirections env cmd (State.enter w)).proc.waited = []
    rw [f8]; rfl

theorem launch_chain (env : Env) (cmd : Command) (w : World)
    (hn1 : 1 ≤ count_programs cmd.pgm)
    (hforks : ∀ p ∈ Pgm.nodes cmd.pgm, p.forks = true)
    (ho : opens_ok env cmd) (hp : pipes_ok env) (hf : forks_ok env) :
    ∃ s, launch env cmd w = (Flow.next, s) ∧ s.launched cmd w (count_programs cmd.pgm) := by
  have hpgm : cmd.pgm ≠ Pgm.NULL := by
    intro h; rw [h] at hn1; simp [count_programs, count_programs_loop] at hn1
  rw [launch_eq_loop env cmd w hpgm ho]
  have hne : (Pgm.nodes cmd.pgm).reverse ≠ [] := by
    intro h
    have : (Pgm.nodes cmd.pgm).reverse.length = 0 := by rw [h]; rfl
    rw [List.length_reverse, ← count_programs_eq] at this
    omega
  exact chain_loop env cmd w (count_programs cmd.pgm) (world_std0 w) (world_std1 w) hp hf
    (Pgm.nodes cmd.pgm).reverse 0 _ hne
    (by rw [List.length_reverse, ← count_programs_eq]; omega)
    (fun p hp1 => hforks p (by simpa using hp1))
    (chain_start env cmd w _ (world_std0 w) (world_std1 w) ho)

theorem wait_loop_keeps (env : Env) (n i : Nat) (s : State) :
    (wait_loop env n i s).children = s.children ∧
    (wait_loop env n i s).proc.launch_order = s.proc.launch_order ∧
    (wait_loop env n i s).proc.fds = s.proc.fds := by
  induction n generalizing i s with
  | zero => simp [wait_loop]
  | succ n ih =>
    unfold wait_loop
    obtain ⟨k1, k2, k3⟩ := ih (i + 1) (sys_waitpid env (s.pids.getD i none) s)
    obtain ⟨w1, -, w3, -, -⟩ := sys_waitpid_calls env (s.pids.getD i none) s
    refine ⟨k1.trans w3, ?_, ?_⟩
    · rw [k2, w1, launch_order_call]
      simp [Event.is_pipe, Event.is_fork]
    · rw [k3, w1]; rfl

theorem cleanup_launch_order (s : State) :
    (cleanup s).proc.launch_order = s.proc.launch_order := by
  simp only [cleanup, launch_order_safe_close]

theorem handle_command_of_launch (env : Env) (cmd : Command) (w : World) (s : State)
    (hl : launch env cmd w = (Flow.next, s)) :
    (handle_command env cmd w).1 = Exit.returned ∧
    (handle_command env cmd w).2.children = s.children ∧
    (handle_command env cmd w).2.proc.launch_order = s.proc.launch_order := by
  unfold handle_command
  rw [hl]
  simp only
  split
  · obtain ⟨k1, k2, -⟩ := wait_loop_keeps env (count_programs cmd.pgm) 0 s
    refine ⟨rfl, ?_, ?_⟩
    · simp only; rw [(cleanup_fields _).1, k1]
    · simp only; rw [cleanup_launch_order, k2]
  · refine ⟨rfl, ?_, ?_⟩
    · simp only; rw [(cleanup_fields s).1]
    · simp only; rw [cleanup_launch_order]

/-! ## Each child runs the program of its stage -/

theorem fork_stage_children (env : Env) (cmd : Command) (i : Nat) (pgmlist : List String)
    (nr nw : Int) (s : State) :
    (fork_stage env cmd i pgmlist nr nw s).2.children = s.children ∨
    ∃ c : Child, (fork_stage env cmd i pgmlist nr nw s).2.children = s.children ++ [c] ∧
      c.stage = i ∧ c.argv = pgmlist := by
  unfold fork_stage
  cases env.fork_ret i with
  | none => exact Or.inl rfl
  | some pid =>
    right
    exact ⟨_, rfl, rfl, rfl⟩

theorem sys_pipe_children (env : Env) (i : Nat) (s : State) :
    (sys_pipe env i s).2.children = s.children := by
  unfold sys_pipe
  split <;> rfl

theorem sys_chdir_children (env : Env) (path : Option String) (s : State) :
    (sys_chdir env path s).children = s.children := by
  unfold sys_chdir
  repeat' split
  all_goals rfl

theorem launch_stage_children (env : Env) (cmd : Command) (count i : Nat) (current : Pgm)
    (s : State) :
    (launch_stage env cmd count i current s).2.children = s.children ∨
    ∃ c : Child, (launch_stage env cmd count i current s).2.children = s.children ++ [c] ∧
      c.stage = i ∧ current.argv = some c.argv := by
  unfold launch_stage
  split
  · exact Or.inl rfl
  · exact Or.inl rfl
  · split
    · exact Or.inl rfl
    · split
      · exact Or.inl (sys_chdir_children env _ s)
      · split
        · rcases fork_stage_children env cmd i _ (-1) s.fdout s with h | ⟨c, h1, h2, h3⟩
          · exact Or.inl h
          · exact Or.inr ⟨c, h1, h2, by rw [h3]; rfl⟩
        · have hp := sys_pipe_children env i s
          split
          · rename_i s1 heq
            rw [heq] at hp
            exact Or.inl hp
          · rename_i nr nw s1 heq
            rw [heq] at hp
            simp only at hp
            rcases fork_stage_children env cmd i _ nr nw s1 with h | ⟨c, h1, h2, h3⟩
            · exact Or.inl (h.trans hp)
            · exact Or.inr ⟨c, by rw [h1, hp], h2, by rw [h3]; rfl⟩

theorem launch_loop_children (env : Env) (cmd : Command) (count : Nat) (pgms : List Pgm)
    (rest : List Pgm) :
    ∀ (seen : List Pgm) (s : State), pgms = seen ++ rest →
      (∀ c ∈ s.children, (pgms[c.stage]?).bind Pgm.argv = some c.argv) →
      ∀ c ∈ (launch_loop env cmd count seen.length rest s).2.children,
        (pgms[c.stage]?).bind Pgm.argv = some c.argv := by
  induction rest with
  | nil => intro seen s _ h; simpa [launch_loop] using h
  | cons current rest ih =>
    intro seen s hpgms h
    have hstage : ∀ c ∈ (launch_stage env cmd count seen.length current s).2.children,
        (pgms[c.stage]?).bind Pgm.argv = some c.argv := by
      intro c hc
      rcases launch_stage_children env cmd count seen.length current s with e | ⟨d, e, e1, e2⟩
      · rw [e] at hc; exact h c hc
      · rw [e] at hc
        rcases List.mem_append.1 hc with hc | hc
        · exact h c hc
        · simp only [List.mem_singleton] at hc
          subst hc
          rw [e1, hpgms, List.getElem?_append_right (le_refl _)]
          simp [e2]
    unfold launch_loop
    split
    · rename_i s1 heq
      rw [heq] at hstage
      have := ih (seen ++ [current]) s1 (by simp [hpgms]) hstage
      simpa using this
    · exact hstage

theorem handle_command_children_argv (env : Env) (cmd : Command) (w : World) :
    ∀ c ∈ (handle_command env cmd w).2.children,
      ((Pgm.nodes cmd.pgm).reverse[c.stage]?).bind Pgm.argv = some c.argv := by
  have hl : ∀ c ∈ (launch env cmd w).2.children,
      ((Pgm.nodes cmd.pgm).reverse[c.stage]?).bind Pgm.argv = some c.argv := by
    have hor : (open_redirections env cmd (State.enter w)).children = [] :=
      (open_redirections_fields env cmd (State.enter w)).1
    unfold launch
    split
    · intro c hc; simp [State.enter] at hc
    · simp only
      split
      · intro c hc; rw [hor] at hc; cases hc
      · split
        · intro c hc; rw [hor] at hc; cases hc
        · rw [reverse_array_eq]
          simp only
          exact launch_loop_children env cmd _ _ _ [] _ rfl
            (by intro c hc; change c ∈ (open_redirections env cmd (State.enter w)).children at hc
                rw [hor] at hc; cases hc)
  unfold handle_command
  split
  · rename_i s heq; rw [heq] at hl; exact hl
  · rename_i s heq; rw [heq] at hl; exact hl
  · rename_i s heq; rw [heq] at hl
    simp only
    rw [(cleanup_fields s).1]; exact hl
  · rename_i s heq; rw [heq] at hl
    have hw := (wait_loop_keeps env (count_programs cmd.pgm) 0 s).1
    split
    · simp only
      rw [(cleanup_fields _).1, hw]; exact hl
    · simp only
      rw [(cleanup_fields s).1]; exact hl

/-- C1: for a pipeline of `n ≥ 1` stages, none of them a built-in, with every
`open`, `pipe` and `fork` succeeding, `handle_command` returns having forked one child per stage (child `i` running the argument vector
of entry `i` of the execution-order array), wired as a linear chain: stage 0
reads the file of the input redirection if `rstdin` is set and the standard input
of the controlling process otherwise; stage `n - 1` writes the file of the output
redirection if `rstdout` is set and the standard output of the controlling process
otherwise; for `i < n - 1` stage `i` writes the write end and stage `i + 1` reads
the read end of pipe `i`; and the `pipe` and `fork` calls alternate, pipe `i`
being created right before stage `i` is forked, the last stage being forked
without a pipe. -/
theorem pipeline_is_linear_chain (env : Env) (cmd : Command) (w : World)
    (hn1 : 1 ≤ count_programs cmd.pgm)
    (hforks : ∀ p ∈ Pgm.nodes cmd.pgm, p.forks = true)
    (ho : opens_ok env cmd) (hp : pipes_ok env) (hf : forks_ok env) :
    (handle_command env cmd w).1 = Exit.returned ∧
    (handle_command env cmd w).2.children.length = count_programs cmd.pgm ∧
    (∀ (i : Nat) (c : Child), (handle_command env cmd w).2.children[i]? = some c →
      c.stage = i ∧ ((Pgm.nodes cmd.pgm).reverse[i]?).bind Pgm.argv = some c.argv) ∧
    (∀ c : Child, (handle_command env cmd w).2.children[0]? = some c →
      c.proc.fds.lookup 0 = overall_input cmd w) ∧
    (∀ c : Child,
      (handle_command env cmd w).2.children[count_programs cmd.pgm - 1]? = some c →
      c.proc.fds.lookup 1 = overall_output cmd w) ∧
    (∀ (i : Nat) (c d : Child), i + 1 < count_programs cmd.pgm →
      (handle_command env cmd w).2.children[i]? = some c →
      (handle_command env cmd w).2.children[i + 1]? = some d →
      c.proc.fds.lookup 1 = some (Obj.pipe_write i) ∧
      d.proc.fds.lookup 0 = some (Obj.pipe_read i)) ∧
    (handle_command env cmd w).2.proc.launch_order
      = chain_order (count_programs cmd.pgm - 1) ++ [true] := by
  obtain ⟨s, hl, hs⟩ := launch_chain env cmd w hn1 hforks ho hp hf
  obtain ⟨e1, e2, e3⟩ := handle_command_of_launch env cmd w s hl
  have hargv := handle_command_children_argv env cmd w
  rw [e2] at hargv
  rw [e2, e3]
  refine ⟨e1, hs.count, ?_, ?_, ?_, ?_, hs.order⟩
  · intro i c hc
    have hst := (hs.children i c hc).stage
    refine ⟨hst, ?_⟩
    have := hargv c (List.getElem?_mem hc)
    rwa [hst] at this
  · intro c hc
    have := (hs.children 0 c hc).stdin
    rwa [if_pos rfl] at this
  · intro c hc
    have := (hs.children _ c hc).stdout
    rwa [if_pos (by omega)] at this
  · intro i c d hi hc hd
    constructor
    · have := (hs.children i c hc).stdout
      rwa [if_neg (by omega)] at this
    · have := (hs.children (i + 1) d hd).stdin
      rwa [if_neg (by omega)] at this

/-! ## Who holds the ends of a pipe -/

theorem entry_mem (t : FdTable) (n : Nat) (o : Obj) (h : t.entry n = some o) :
    some o ∈ t := by
  induction t generalizing n with
  | nil => simp [FdTable.entry] at h
  | cons e t ih =>
    cases n with
    | zero =>
      simp only [FdTable.entry] at h
      rw [h]; simp
    | succ n =>
      simp only [FdTable.entry] at h
      exact List.mem_cons_of_mem _ (ih n h)

theorem inherited_table_no_pipe_ends (k : Nat) (l : List Bool) :
    (inherited_table k l).no_pipe_ends = true := by
  induction l generalizing k with
  | nil => rfl
  | cons b rest ih =>
    have h := ih (k + 1)
    unfold FdTable.no_pipe_ends at h ⊢
    cases b
    · rw [inherited_table, List.all_cons, h]; rfl
    · rw [inherited_table, List.all_cons, h]; rfl

theorem world_no_pipe_ends (w : World) : w.fds.no_pipe_ends = true := by
  have h := inherited_table_no_pipe_ends 2 w.open_fds
  unfold FdTable.no_pipe_ends at h ⊢
  rw [World.fds, List.all_cons, List.all_cons, h]
  rfl

theorem not_holds_pipe_end (w : World) (hnp : w.fds.no_pipe_ends = true) (o : Obj)
    (ho : o.is_pipe_end = true) : ¬ w.holds o := by
  rintro ⟨x, hx⟩
  unfold FdTable.lookup at hx
  split at hx
  · cases hx
  · have hm := entry_mem _ _ _ hx
    have := List.all_eq_true.1 hnp (some o) hm
    simp [ho] at this

theorem overall_input_pipe_end (cmd : Command) (w : World) (o : Obj)
    (h : overall_input cmd w = some o) (ho : o.is_pipe_end = true) : w.holds o := by
  unfold overall_input at h
  split at h
  · cases h; simp [Obj.is_pipe_end] at ho
  · exact ⟨0, h⟩

theorem overall_output_pipe_end (cmd : Command) (w : World) (o : Obj)
    (h : overall_output cmd w = some o) (ho : o.is_pipe_end = true) : w.holds o := by
  unfold overall_output at h
  split at h
  · cases h; simp [Obj.is_pipe_end] at ho
  · exact ⟨1, h⟩

theorem wired_pipe_write (cmd : Command) (w : World) (n j : Nat) (c : Child)
    (hnp : w.fds.no_pipe_ends = true) (hc : c.wired cmd w n j) (i : Nat) (hi : i + 1 < n)
    (x : Int) : c.proc.fds.lookup x = some (Obj.pipe_write i) ↔ (j = i ∧ x = 1) := by
  have hno := not_holds_pipe_end w hnp (Obj.pipe_write i) rfl
  constructor
  · intro hx
    rcases hc.others x _ hx rfl with e | e | e
    · exfalso
      rw [e, hc.stdin] at hx
      split at hx
      · exact hno (overall_input_pipe_end cmd w _ hx rfl)
      · cases hx
    · rw [e, hc.stdout] at hx
      split at hx
      · exact absurd (overall_output_pipe_end cmd w _ hx rfl) hno
      · cases hx
        exact ⟨rfl, e⟩
    · exact absurd e hno
  · rintro ⟨rfl, rfl⟩
    rw [hc.stdout, if_neg (by omega)]

theorem wired_pipe_read (cmd : Command) (w : World) (n j : Nat) (c : Child)
    (hnp : w.fds.no_pipe_ends = true) (hc : c.wired cmd w n j) (i : Nat)
    (x : Int) : c.proc.fds.lookup x = some (Obj.pipe_read i) ↔ (j = i + 1 ∧ x = 0) := by
  have hno := not_holds_pipe_end w hnp (Obj.pipe_read i) rfl
  constructor
  · intro hx
    rcases hc.others x _ hx rfl with e | e | e
    · rw [e, hc.stdin] at hx
      split at hx
      · exact absurd (overall_input_pipe_end cmd w _ hx rfl) hno
      · rename_i hj
        cases hx
        exact ⟨by omega, e⟩
    · exfalso
      rw [e, hc.stdout] at hx
      split at hx
      · exact hno (overall_output_pipe_end cmd w _ hx rfl)
      · cases hx
    · exact absurd e hno
  · rintro ⟨rfl, rfl⟩
    rw [hc.stdin, if_neg (by omega)]
    rfl

/-- C2: for a pipeline of `n ≥ 2` stages, none of them a built-in, with every
`open`, `pipe` and `fork` succeeding, the launch loop ends with all `n` stages
forked, and then, for every `i < n - 1`, the write end of pipe `i` is open in exactly one process, the child of stage `i`, as its descriptor 1, and the read
end in exactly one process, the child of stage `i + 1`, as its descriptor 0; the
controlling process and every other child hold neither end. -/
theorem pipe_ends_have_one_holder (env : Env) (cmd : Command) (w : World)
    (hn2 : 2 ≤ count_programs cmd.pgm)
    (hforks : ∀ p ∈ Pgm.nodes cmd.pgm, p.forks = true)
    (ho : opens_ok env cmd) (hp : pipes_ok env) (hf : forks_ok env) :
    (launch env cmd w).1 = Flow.next ∧
    (launch env cmd w).2.children.length = count_programs cmd.pgm ∧
    (∀ (j : Nat) (c : Child), (launch env cmd w).2.children[j]? = some c → c.stage = j) ∧
    ∀ i : Nat, i + 1 < count_programs cmd.pgm →
      (∀ x : Int, (launch env cmd w).2.proc.fds.lookup x ≠ some (Obj.pipe_write i) ∧
        (launch env cmd w).2.proc.fds.lookup x ≠ some (Obj.pipe_read i)) ∧
      (∀ (j : Nat) (c : Child), (launch env cmd w).2.children[j]? = some c → ∀ x : Int,
        (c.proc.fds.lookup x = some (Obj.pipe_write i) ↔ (j = i ∧ x = 1)) ∧
        (c.proc.fds.lookup x = some (Obj.pipe_read i) ↔ (j = i + 1 ∧ x = 0))) := by
  obtain ⟨s, hl, hs⟩ := launch_chain env cmd w (by omega) hforks ho hp hf
  have hnp := world_no_pipe_ends w
  rw [hl]
  refine ⟨rfl, hs.count, fun j c hc => (hs.children j c hc).stage, ?_⟩
  intro i hi
  constructor
  · intro x
    constructor
    · intro hx
      exact not_holds_pipe_end w hnp (Obj.pipe_write i) rfl (hs.others x _ hx rfl)
    · intro hx
      exact not_holds_pipe_end w hnp (Obj.pipe_read i) rfl (hs.others x _ hx rfl)
  · intro j c hc x
    exact ⟨wired_pipe_write cmd w _ j c hnp (hs.children j c hc) i hi x,
      wired_pipe_read cmd w _ j c hnp (hs.children j c hc) i x⟩

/-! ## The foreground wait -/

theorem wait_loop_waited (env : Env) (n i : Nat) (s : State) :
    (wait_loop env n i s).proc.waited
      = s.proc.waited ++ (List.range' i n).map (fun j => s.pids.getD j none) ∧
    (wait_loop env n i s).proc.fork_results = s.proc.fork_results := by
  induction n generalizing i s with
  | zero => simp [wait_loop]
  | succ n ih =>
    unfold wait_loop
    obtain ⟨k1, k2⟩ := ih (i + 1) (sys_waitpid env (s.pids.getD i none) s)
    obtain ⟨w1, w2, -, -, -⟩ := sys_waitpid_calls env (s.pids.getD i none) s
    constructor
    · rw [k1, w1, w2, waited_call]
      simp [List.range'_succ]
    · rw [k2, w1, fork_results_call]
      simp

theorem slots_of_children (children : List Child) (pids : List (Option Nat))
    (h : ∀ (j : Nat) (c : Child), children[j]? = some c → pids[j]? = some (some c.pid)) :
    (List.range' 0 children.length).map (fun j => pids.getD j none)
      = children.map fun c => some c.pid := by
  apply List.ext_getElem
  · simp
  · intro j h1 h2
    simp only [List.length_map, List.length_range'] at h1
    have hc : children[j]? = some children[j] := List.getElem?_eq_getElem h1
    have := h j _ hc
    simp [List.getD_eq_getElem?_getD, this]

/-- For a pipeline of 1 to 20 stages none of which is a built-in, with
every call succeeding, a foreground `handle_command` waits on exactly
the process identifiers `fork` returned, in launch order, and a background one
waits on none. -/
theorem chain_waits_on_fork_results (env : Env) (cmd : Command) (w : World)
    (hn1 : 1 ≤ count_programs cmd.pgm) (hn : count_programs cmd.pgm ≤ 20)
    (hforks : ∀ p ∈ Pgm.nodes cmd.pgm, p.forks = true)
    (ho : opens_ok env cmd) (hp : pipes_ok env) (hf : forks_ok env) :
    (handle_command env cmd w).2.proc.fork_results.length = count_programs cmd.pgm ∧
    (cmd.bakground = 0 → (handle_command env cmd w).2.proc.waited
      = (handle_command env cmd w).2.proc.fork_results) ∧
    (cmd.bakground ≠ 0 → (handle_command env cmd w).2.proc.waited = []) := by
  have _ := hn
  obtain ⟨s, hl, hs⟩ := launch_chain env cmd w hn1 hforks ho hp hf
  have hlen : s.proc.fork_results.length = count_programs cmd.pgm := by
    rw [hs.forked, List.length_map, hs.count]
  obtain ⟨k1, k2⟩ := wait_loop_waited env (count_programs cmd.pgm) 0 s
  have hslots := slots_of_children s.children s.pids hs.stored
  rw [hs.count] at hslots
  rw [hs.unwaited, List.nil_append, hslots, ← hs.forked] at k1
  unfold handle_command
  rw [hl]
  simp only
  by_cases hb : cmd.bakground = 0
  · rw [if_pos hb]
    simp only
    obtain ⟨-, -, -, -, -, -, -, c8, -, c10⟩ :=
      cleanup_fields (wait_loop env (count_programs cmd.pgm) 0 s)
    refine ⟨by rw [c10, k2]; exact hlen, fun _ => by rw [c8, c10, k1, k2],
      fun h => absurd hb h⟩
  · rw [if_neg hb]
    simp only
    obtain ⟨-, -, -, -, -, -, -, c8, -, c10⟩ := cleanup_fields s
    refine ⟨by rw [c10]; exact hlen, fun h => absurd h hb, fun _ => by rw [c8]; exact hs.unwaited⟩

/-! ## What `cleanup` gives back -/

theorem cleanup_lookup (s : State) (x : Int) :
    (cleanup s).proc.fds.lookup x =
      if x = s.previous_write_end ∧ s.previous_write_end > 1 then none
      else if x = s.previous_read_end ∧ s.previous_read_end > 1 then none
      else if x = s.fdout ∧ s.fdout > 1 then none
      else if x = s.fdin ∧ s.fdin > 1 then none
      else s.proc.fds.lookup x := by
  show (safe_close s.previous_write_end (safe_close s.previous_read_end
    (safe_close s.fdout (safe_close s.fdin s.proc)))).fds.lookup x = _
  simp only [safe_close_lookup]

theorem tidy_cleanup (w : World) (s : State) (h : s.tidy w) (x : Int) :
    (cleanup s).proc.fds.lookup x = w.fds.lookup x := by
  rw [cleanup_lookup]
  by_cases a1 : x = s.previous_write_end ∧ s.previous_write_end > 1
  · rw [if_pos a1, a1.1, h.fresh_write a1.2]
  · rw [if_neg a1]
    by_cases a2 : x = s.previous_read_end ∧ s.previous_read_end > 1
    · rw [if_pos a2, a2.1, h.fresh_read a2.2]
    · rw [if_neg a2]
      by_cases a3 : x = s.fdout ∧ s.fdout > 1
      · rw [if_pos a3, a3.1, h.fresh_out a3.2]
      · rw [if_neg a3]
        by_cases a4 : x = s.fdin ∧ s.fdin > 1
        · rw [if_pos a4, a4.1, h.fresh_in a4.2]
        · rw [if_neg a4]
          by_contra hne
          have hx : ¬ x > 1 := by
            intro g
            rcases h.differ x hne with e | e | e | e
            · exact a4 ⟨e, e ▸ g⟩
            · exact a3 ⟨e, e ▸ g⟩
            · exact a2 ⟨e, e ▸ g⟩
            · exact a1 ⟨e, e ▸ g⟩
          by_cases hneg : x < 0
          · exact hne (by rw [lookup_neg _ x hneg, lookup_neg _ x hneg])
          · have : x = 0 ∨ x = 1 := by omega
            rcases this with e | e
            · exact hne (by rw [e]; exact h.std0)
            · exact hne (by rw [e]; exact h.std1)

theorem tidy_of_proc (w : World) (s s1 : State) (h : s.tidy w)
    (hp : s1.proc.fds = s.proc.fds) (h1 : s1.fdin = s.fdin) (h2 : s1.fdout = s.fdout)
    (h3 : s1.previous_read_end = s.previous_read_end)
    (h4 : s1.previous_write_end = s.previous_write_end) : s1.tidy w := by
  constructor
  · rw [hp]; exact h.std0
  · rw [hp]; exact h.std1
  · rw [hp, h1, h2, h3, h4]; exact h.differ
  · rw [h1]; exact h.fresh_in
  · rw [h2]; exact h.fresh_out
  · rw [h3]; exact h.fresh_read
  · rw [h4]; exact h.fresh_write

theorem tidy_free (w : World) (s : State) (h : s.tidy w) (x : Int)
    (hx : s.proc.fds.lookup x = none) : w.fds.lookup x = none := by
  by_contra hne
  have hd : s.proc.fds.lookup x ≠ w.fds.lookup x := by
    rw [hx]; exact fun e => hne e.symm
  have h0 : x ≠ 0 := by
    intro e; rw [e, h.std0] at hx; rw [e] at hne; exact hne hx
  have h1 : x ≠ 1 := by
    intro e; rw [e, h.std1] at hx; rw [e] at hne; exact hne hx
  by_cases hneg : x < 0
  · exact hne (lookup_neg _ x hneg)
  · have g : x > 1 := by omega
    rcases h.differ x hd with e | e | e | e
    · exact hne (e ▸ h.fresh_in (e ▸ g))
    · exact hne (e ▸ h.fresh_out (e ▸ g))
    · exact hne (e ▸ h.fresh_read (e ▸ g))
    · exact hne (e ▸ h.fresh_write (e ▸ g))

theorem sys_chdir_locals (env : Env) (path : Option String) (s : State) :
    (sys_chdir env path s).proc.fds = s.proc.fds ∧
    (sys_chdir env path s).fdin = s.fdin ∧ (sys_chdir env path s).fdout = s.fdout ∧
    (sys_chdir env path s).previous_read_end = s.previous_read_end ∧
    (sys_chdir env path s).previous_write_end = s.previous_write_end := by
  unfold sys_chdir
  repeat' split
  all_goals exact ⟨rfl, rfl, rfl, rfl, rfl⟩

theorem tidy_fork_last (w : World) (s : State) (h : s.tidy w) (e1 e2 : Event)
    (children : List Child) (pids : List (Option Nat)) :
    State.tidy w
      { s with
        proc := (safe_close s.previous_write_end (safe_close s.previous_read_end
          (s.proc.call e1))).call e2,
        children := children,
        previous_read_end := -1, previous_write_end := s.fdout,
        pids := pids } := by
  have hL : ∀ x : Int,
      ((safe_close s.previous_write_end (safe_close s.previous_read_end
        (s.proc.call e1))).call e2).fds.lookup x =
      if x = s.previous_write_end ∧ s.previous_write_end > 1 then none
      else if x = s.previous_read_end ∧ s.previous_read_end > 1 then none
      else s.proc.fds.lookup x := fun x => after_fork_lookup _ _ _ _ _ x
  refine
    { std0 := ?_, std1 := ?_, differ := ?_, fresh_in := h.fresh_in,
      fresh_out := h.fresh_out, fresh_read := ?_, fresh_write := h.fresh_out }
  · show _ = w.fds.lookup 0
    rw [hL, if_neg (by omega), if_neg (by omega)]; exact h.std0
  · show _ = w.fds.lookup 1
    rw [hL, if_neg (by omega), if_neg (by omega)]; exact h.std1
  · intro x hx
    change ((safe_close s.previous_write_end (safe_close s.previous_read_end
        (s.proc.call e1))).call e2).fds.lookup x ≠ _ at hx
    show x = s.fdin ∨ x = s.fdout ∨ x = -1 ∨ x = s.fdout
    rw [hL] at hx
    by_cases a1 : x = s.previous_write_end ∧ s.previous_write_end > 1
    · rw [if_pos a1, a1.1, h.fresh_write a1.2] at hx
      exact absurd rfl hx
    · rw [if_neg a1] at hx
      by_cases a2 : x = s.previous_read_end ∧ s.previous_read_end > 1
      · rw [if_pos a2, a2.1, h.fresh_read a2.2] at hx
        exact absurd rfl hx
      · rw [if_neg a2] at hx
        have hlow : ∀ y : Int, ¬ y > 1 → s.proc.fds.lookup y = w.fds.lookup y := by
          intro y hy
          by_cases hneg : y < 0
          · rw [lookup_neg _ y hneg, lookup_neg _ y hneg]
          · have : y = 0 ∨ y = 1 := by omega
            rcases this with e | e
            · rw [e]; exact h.std0
            · rw [e]; exact h.std1
        rcases h.differ x hx with e | e | e | e
        · exact Or.inl e
        · exact Or.inr (Or.inl e)
        · exact absurd (hlow x (fun g => a2 ⟨e, e ▸ g⟩)) hx
        · exact absurd (hlow x (fun g => a1 ⟨e, e ▸ g⟩)) hx
  · intro g
    change (-1 : Int) > 1 at g
    omega

theorem tidy_fork_piped (w : World) (s : State) (h : s.tidy w) (e0 e1 e2 : Event)
    (k : Nat) (children : List Child) (pids : List (Option Nat)) :
    State.tidy w
      { s with
        proc := (safe_close s.previous_write_end (safe_close s.previous_read_end
          (Proc.call e1
            { fds := (s.proc.fds.put s.proc.fds.lowest_free (some (Obj.pipe_read k))).put
                (s.proc.fds.put s.proc.fds.lowest_free (some (Obj.pipe_read k))).lowest_free
                (some (Obj.pipe_write k)),
              calls := s.proc.calls ++ [e0] }))).call e2,
        children := children,
        npipes := k + 1,
        previous_read_end := (s.proc.fds.lowest_free : Int),
        previous_write_end :=
          ((s.proc.fds.put s.proc.fds.lowest_free (some (Obj.pipe_read k))).lowest_free : Int),
        pids := pids } := by
  obtain ⟨T, hT⟩ : ∃ T, T = s.proc.fds := ⟨_, rfl⟩
  obtain ⟨r, hr⟩ : ∃ r, r = T.lowest_free := ⟨_, rfl⟩
  obtain ⟨T1, hT1⟩ : ∃ T1, T1 = T.put r (some (Obj.pipe_read k)) := ⟨_, rfl⟩
  obtain ⟨v, hv⟩ : ∃ v, v = T1.lowest_free := ⟨_, rfl⟩
  rw [← hT, ← hr, ← hT1, ← hv]
  have hTr : T.lookup (r : Int) = none := by rw [hr]; exact lookup_lowest_free T
  have hT1v : T1.lookup (v : Int) = none := by rw [hv]; exact lookup_lowest_free T1
  have hL1 : ∀ x : Int, T1.lookup x = if x = (r : Int) then some (Obj.pipe_read k)
      else T.lookup x := by
    intro x; rw [hT1, lookup_put]
  have hvr : (v : Int) ≠ (r : Int) := by
    intro e
    rw [hL1, if_pos e] at hT1v
    cases hT1v
  have hTv : T.lookup (v : Int) = none := by
    rw [hL1, if_neg hvr] at hT1v; exact hT1v
  have hL : ∀ x : Int,
      ((safe_close s.previous_write_end (safe_close s.previous_read_end
        (Proc.call e1
          { fds := T1.put v (some (Obj.pipe_write k)),
            calls := s.proc.calls ++ [e0] }))).call e2).fds.lookup x =
      if x = s.previous_write_end ∧ s.previous_write_end > 1 then none
      else if x = s.previous_read_end ∧ s.previous_read_end > 1 then none
      else if x = (v : Int) then some (Obj.pipe_write k)
      else if x = (r : Int) then some (Obj.pipe_read k) else T.lookup x := by
    intro x
    rw [after_fork_lookup]
    simp only [lookup_put, hL1]
  have hw0 : (T.lookup 0).isSome = true := by rw [hT, h.std0]; rfl
  have hw1 : (T.lookup 1).isSome = true := by rw [hT, h.std1]; rfl
  have fresh : ∀ x : Int, (T.lookup x).isSome = true → x ≠ (r : Int) ∧ x ≠ (v : Int) := by
    intro x hx
    constructor
    · intro e; rw [e, hTr] at hx; simp at hx
    · intro e; rw [e, hTv] at hx; simp at hx
  refine
    { std0 := ?_, std1 := ?_, differ := ?_, fresh_in := h.fresh_in,
      fresh_out := h.fresh_out, fresh_read := ?_, fresh_write := ?_ }
  · show _ = w.fds.lookup 0
    rw [hL, if_neg (by omega), if_neg (by omega), if_neg (fresh 0 hw0).2,
      if_neg (fresh 0 hw0).1, hT]
    exact h.std0
  · show _ = w.fds.lookup 1
    rw [hL, if_neg (by omega), if_neg (by omega), if_neg (fresh 1 hw1).2,
      if_neg (fresh 1 hw1).1, hT]
    exact h.std1
  · intro x hx
    change ((safe_close s.previous_write_end (safe_close s.previous_read_end
        (Proc.call e1
          { fds := T1.put v (some (Obj.pipe_write k)),
            calls := s.proc.calls ++ [e0] }))).call e2).fds.lookup x ≠ _ at hx
    show x = s.fdin ∨ x = s.fdout ∨ x = (r : Int) ∨ x = (v : Int)
    rw [hL] at hx
    by_cases a1 : x = s.previous_write_end ∧ s.previous_write_end > 1
    · rw [if_pos a1, a1.1, h.fresh_write a1.2] at hx
      exact absurd rfl hx
    · rw [if_neg a1] at hx
      by_cases a2 : x = s.previous_read_end ∧ s.previous_read_end > 1
      · rw [if_pos a2, a2.1, h.fresh_read a2.2] at hx
        exact absurd rfl hx
      · rw [if_neg a2] at hx
        by_cases a3 : x = (v : Int)
        · exact Or.inr (Or.inr (Or.inr a3))
        · rw [if_neg a3] at hx
          by_cases a4 : x = (r : Int)
          · exact Or.inr (Or.inr (Or.inl a4))
          · rw [if_neg a4, hT] at hx
            have hlow : ∀ y : Int, ¬ y > 1 → s.proc.fds.lookup y = w.fds.lookup y := by
              intro y hy
              by_cases hneg : y < 0
              · rw [lookup_neg _ y hneg, lookup_neg _ y hneg]
              · have : y = 0 ∨ y = 1 := by omega
                rcases this with e | e
                · rw [e]; exact h.std0
                · rw [e]; exact h.std1
            rcases h.differ x hx with e | e | e | e
            · exact Or.inl e
            · exact Or.inr (Or.inl e)
            · exact absurd (hlow x (fun g => a2 ⟨e, e ▸ g⟩)) hx
            · exact absurd (hlow x (fun g => a1 ⟨e, e ▸ g⟩)) hx
  · intro _
    exact tidy_free w s h _ (by rw [← hT]; exact hTr)
  · intro _
    exact tidy_free w s h _ (by rw [← hT]; exact hTv)

theorem tidy_launch_stage (env : Env) (cmd : Command) (w : World) (count i : Nat)
    (current : Pgm) (s : State) (h : s.tidy w) (ha : current.has_arg0 = true)
    (hf : i ≠ count - 1 → (env.fork_ret i).isSome = true) :
    ((launch_stage env cmd count i current s).1 = Flow.next ∨
      (launch_stage env cmd count i current s).1 = Flow.cleanup) ∧
    (launch_stage env cmd count i current s).2.tidy w := by
  unfold launch_stage
  split
  · simp [Pgm.has_arg0] at ha
  · simp [Pgm.has_arg0] at ha
  · rename_i arg0 args next
    split
    · exact ⟨Or.inl rfl, tidy_of_proc w s _ h rfl rfl rfl rfl rfl⟩
    · split
      · obtain ⟨c1, c2, c3, c4, c5⟩ := sys_chdir_locals env args.head? s
        exact ⟨Or.inl rfl, tidy_of_proc w s _ h c1 c2 c3 c4 c5⟩
      · split
        · cases hr : env.fork_ret i with
          | none =>
            have : fork_stage env cmd i (arg0 :: args) (-1) s.fdout s
                = (Flow.cleanup,
                  { s with proc := s.proc.call (Event.fork_call none) }) := by
              simp [fork_stage, hr]
            rw [this]
            exact ⟨Or.inr rfl, tidy_of_proc w s _ h rfl rfl rfl rfl rfl⟩
          | some pid =>
            rw [fork_stage_eq env cmd i _ _ _ _ pid hr]
            exact ⟨Or.inl rfl, tidy_fork_last w s h _ _ _ _⟩
        · rename_i hlast
          cases hp : env.pipe_ok i with
          | false =>
            have : sys_pipe env i s
                = (none, { s with proc := s.proc.call (Event.pipe_call none) }) := by
              simp [sys_pipe, hp]
            rw [this]
            exact ⟨Or.inr rfl, tidy_of_proc w s _ h rfl rfl rfl rfl rfl⟩
          | true =>
            obtain ⟨pid, hr⟩ := Option.isSome_iff_exists.1 (hf hlast)
            rw [sys_pipe_eq env i s hp]
            simp only
            rw [fork_stage_eq env cmd i _ _ _ _ pid hr]
            exact ⟨Or.inl rfl, tidy_fork_piped w s h _ _ _ s.npipes _ _⟩

theorem tidy_launch_loop (env : Env) (cmd : Command) (w : World) (count : Nat)
    (hf : ∀ j, j + 1 < count → (env.fork_ret j).isSome = true) (rest : List Pgm) :
    ∀ (i : Nat) (s : State), i + rest.length = count → s.tidy w →
      (∀ p ∈ rest, p.has_arg0 = true) →
      ((launch_loop env cmd count i rest s).1 = Flow.next ∨
        (launch_loop env cmd count i rest s).1 = Flow.cleanup) ∧
      (launch_loop env cmd count i rest s).2.tidy w := by
  induction rest with
  | nil => intro i s _ h _; exact ⟨Or.inl rfl, h⟩
  | cons current rest ih =>
    intro i s hlen h ha
    obtain ⟨k1, k2⟩ := tidy_launch_stage env cmd w count i current s h
      (ha current (by simp)) (fun hne => hf i (by simp at hlen; omega))
    rcases hr : launch_stage env cmd count i current s with ⟨fl, s1⟩
    rw [hr] at k1 k2
    simp only at k1 k2
    rcases k1 with k1 | k1
    · subst k1
      rw [launch_loop_cons env cmd count i current rest s s1 hr]
      exact ih (i + 1) s1 (by simp at hlen; omega) k2 (fun p hp => ha p (by simp [hp]))
    · subst k1
      have : launch_loop env cmd count i (current :: rest) s = (Flow.cleanup, s1) := by
        rw [launch_loop, hr]
      rw [this]
      exact ⟨Or.inr rfl, k2⟩

theorem tidy_open_in (env : Env) (w : World) (path : String) (flags : List OpenFlag)
    (mode : Option Nat) (s : State) (h : s.tidy w) (hlow : ¬ s.fdin > 1) :
    State.tidy w
      { (sys_open env path flags mode s).2 with fdin := (sys_open env path flags mode s).1 } := by
  have hsmall : ∀ y : Int, ¬ y > 1 → s.proc.fds.lookup y = w.fds.lookup y := by
    intro y hy
    by_cases hneg : y < 0
    · rw [lookup_neg _ y hneg, lookup_neg _ y hneg]
    · have : y = 0 ∨ y = 1 := by omega
      rcases this with e | e
      · rw [e]; exact h.std0
      · rw [e]; exact h.std1
  unfold sys_open
  split
  · have n0 := lowest_free_ne s.proc.fds 0 (by rw [h.std0]; rfl)
    have n1 := lowest_free_ne s.proc.fds 1 (by rw [h.std1]; rfl)
    refine
      { std0 := ?_, std1 := ?_, differ := ?_, fresh_in := ?_,
        fresh_out := h.fresh_out, fresh_read := h.fresh_read, fresh_write := h.fresh_write }
    · show (s.proc.fds.put _ _).lookup 0 = _
      rw [lookup_put, if_neg n0]; exact h.std0
    · show (s.proc.fds.put _ _).lookup 1 = _
      rw [lookup_put, if_neg n1]; exact h.std1
    · intro x hx
      change (s.proc.fds.put _ _).lookup x ≠ _ at hx
      show x = (s.proc.fds.lowest_free : Int) ∨ _
      rw [lookup_put] at hx
      by_cases e : x = (s.proc.fds.lowest_free : Int)
      · exact Or.inl e
      · rw [if_neg e] at hx
        rcases h.differ x hx with e1 | e1 | e1 | e1
        · exact absurd (hsmall x (e1 ▸ hlow)) hx
        · exact Or.inr (Or.inl e1)
        · exact Or.inr (Or.inr (Or.inl e1))
        · exact Or.inr (Or.inr (Or.inr e1))
    · intro _
      exact tidy_free w s h _ (lookup_lowest_free _)
  · refine
      { std0 := h.std0, std1 := h.std1, differ := ?_, fresh_in := ?_,
        fresh_out := h.fresh_out, fresh_read := h.fresh_read, fresh_write := h.fresh_write }
    · intro x hx
      change s.proc.fds.lookup x ≠ _ at hx
      rcases h.differ x hx with e1 | e1 | e1 | e1
      · exact absurd (hsmall x (e1 ▸ hlow)) hx
      · exact Or.inr (Or.inl e1)
      · exact Or.inr (Or.inr (Or.inl e1))
      · exact Or.inr (Or.inr (Or.inr e1))
    · intro g
      change (-1 : Int) > 1 at g
      omega

theorem tidy_open_out (env : Env) (w : World) (path : String) (flags : List OpenFlag)
    (mode : Option Nat) (s : State) (h : s.tidy w) (hlow : ¬ s.fdout > 1) :
    State.tidy w
      { (sys_open env path flags mode s).2 with
        fdout := (sys_open env path flags mode s).1 } := by
  have hsmall : ∀ y : Int, ¬ y > 1 → s.proc.fds.lookup y = w.fds.lookup y := by
    intro y hy
    by_cases hneg : y < 0
    · rw [lookup_neg _ y hneg, lookup_neg _ y hneg]
    · have : y = 0 ∨ y = 1 := by omega
      rcases this with e | e
      · rw [e]; exact h.std0
      · rw [e]; exact h.std1
  unfold sys_open
  split
  · have n0 := lowest_free_ne s.proc.fds 0 (by rw [h.std0]; rfl)
    have n1 := lowest_free_ne s.proc.fds 1 (by rw [h.std1]; rfl)
    refine
      { std0 := ?_, std1 := ?_, differ := ?_, fresh_in := h.fresh_in,
        fresh_out := ?_, fresh_read := h.fresh_read, fresh_write := h.fresh_write }
    · show (s.proc.fds.put _ _).lookup 0 = _
      rw [lookup_put, if_neg n0]; exact h.std0
    · show (s.proc.fds.put _ _).lookup 1 = _
      rw [lookup_put, if_neg n1]; exact h.std1
    · intro x hx
      change (s.proc.fds.put _ _).lookup x ≠ _ at hx
      show _ ∨ x = (s.proc.fds.lowest_free : Int) ∨ _
      rw [lookup_put] at hx
      by_cases e : x = (s.proc.fds.lowest_free : Int)
      · exact Or.inr (Or.inl e)
      · rw [if_neg e] at hx
        rcases h.differ x hx with e1 | e1 | e1 | e1
        · exact Or.inl e1
        · exact absurd (hsmall x (e1 ▸ hlow)) hx
        · exact Or.inr (Or.inr (Or.inl e1))
        · exact Or.inr (Or.inr (Or.inr e1))
    · intro _
      exact tidy_free w s h _ (lookup_lowest_free _)
  · refine
      { std0 := h.std0, std1 := h.std1, differ := ?_, fresh_in := h.fresh_in,
        fresh_out := ?_, fresh_read := h.fresh_read, fresh_write := h.fresh_write }
    · intro x hx
      change s.proc.fds.lookup x ≠ _ at hx
      rcases h.differ x hx with e1 | e1 | e1 | e1
      · exact Or.inl e1
      · exact absurd (hsmall x (e1 ▸ hlow)) hx
      · exact Or.inr (Or.inr (Or.inl e1))
      · exact Or.inr (Or.inr (Or.inr e1))
    · intro g
      change (-1 : Int) > 1 at g
      omega

theorem tidy_enter (w : World) :
    State.tidy w { State.enter w with fdin := STDIN_FILENO, fdout := STDOUT_FILENO } := by
  refine
    { std0 := rfl, std1 := rfl, differ := fun x hx => absurd rfl hx, fresh_in := ?_,
      fresh_out := ?_, fresh_read := ?_, fresh_write := ?_ }
  all_goals
    intro g
    simp [State.enter, STDIN_FILENO, STDOUT_FILENO] at g

theorem tidy_open_redirections (env : Env) (cmd : Command) (w : World) :
    (open_redirections env cmd (State.enter w)).tidy w := by
  have h1 := tidy_enter w
  unfold open_redirections
  have h2 : State.tidy w
      (match cmd.rstdin with
        | some path =>
          { (sys_open env path [OpenFlag.O_RDONLY] none
              { State.enter w with fdin := STDIN_FILENO, fdout := STDOUT_FILENO }).2 with
            fdin := (sys_open env path [OpenFlag.O_RDONLY] none
              { State.enter w with fdin := STDIN_FILENO, fdout := STDOUT_FILENO }).1 }
        | none => { State.enter w with fdin := STDIN_FILENO, fdout := STDOUT_FILENO }) := by
    split
    · exact tidy_open_in env w _ _ _ _ h1 (by simp [STDIN_FILENO])
    · exact h1
  have hout : ¬ (match cmd.rstdin with
        | some path =>
          { (sys_open env path [OpenFlag.O_RDONLY] none
              { State.enter w with fdin := STDIN_FILENO, fdout := STDOUT_FILENO }).2 with
            fdin := (sys_open env path [OpenFlag.O_RDONLY] none
              { State.enter w with fdin := STDIN_FILENO, fdout := STDOUT_FILENO }).1 }
        | none => { State.enter w with fdin := STDIN_FILENO, fdout := STDOUT_FILENO }).fdout
        > 1 := by
    split
    · unfold sys_open
      split <;> simp [STDOUT_FILENO]
    · simp [STDOUT_FILENO]
  simp only
  split
  · exact tidy_open_out env w _ _ _ _ h2 hout
  · exact h2

theorem open_redirections_previous (env : Env) (cmd : Command) (s : State) :
    (open_redirections env cmd s).previous_read_end = s.previous_read_end ∧
    (open_redirections env cmd s).previous_write_end = s.previous_write_end := by
  unfold open_redirections sys_open
  cases cmd.rstdin <;> cases cmd.rstdout <;> simp only <;>
    (repeat' split) <;> first | exact ⟨rfl, rfl⟩ | simp

theorem sys_waitpid_locals (env : Env) (pid : Option Nat) (s : State) :
    (sys_waitpid env pid s).fdin = s.fdin ∧ (sys_waitpid env pid s).fdout = s.fdout ∧
    (sys_waitpid env pid s).previous_read_end = s.previous_read_end ∧
    (sys_waitpid env pid s).previous_write_end = s.previous_write_end := by
  unfold sys_waitpid
  cases pid with
  | none => exact ⟨rfl, rfl, rfl, rfl⟩
  | some p =>
    simp only
    split <;> exact ⟨rfl, rfl, rfl, rfl⟩

theorem tidy_wait_loop (env : Env) (w : World) (n i : Nat) (s : State) (h : s.tidy w) :
    (wait_loop env n i s).tidy w := by
  induction n generalizing i s with
  | zero => exact h
  | succ n ih =>
    unfold wait_loop
    obtain ⟨l1, l2, l3, l4⟩ := sys_waitpid_locals env (s.pids.getD i none) s
    obtain ⟨w1, -⟩ := sys_waitpid_calls env (s.pids.getD i none) s
    exact ih (i + 1) _ (tidy_of_proc w s _ h (by rw [w1]; rfl) l1 l2 l3 l4)

/-- On every path on which no `fork` of a stage other than the last fails, for a
pipeline of 1 to 20 stages each with a first argument, and whatever `open`,
`pipe`, `chdir` and the `fork` of the last stage answer, `handle_command` returns
with every descriptor of the controlling process as it was on entry: what it
opened it has closed, and it closed nothing else. -/
theorem descriptors_restored (env : Env) (cmd : Command) (w : World)
    (hn1 : 1 ≤ count_programs cmd.pgm) (hn : count_programs cmd.pgm ≤ 20)
    (ha : ∀ p ∈ Pgm.nodes cmd.pgm, p.has_arg0 = true)
    (hf : ∀ j, j + 1 < count_programs cmd.pgm → (env.fork_ret j).isSome = true) :
    (handle_command env cmd w).1 = Exit.returned ∧
    ∀ x : Int, (handle_command env cmd w).2.proc.fds.lookup x = w.fds.lookup x := by
  have _ := hn
  have hpgm : cmd.pgm ≠ Pgm.NULL := by
    intro h; rw [h] at hn1; simp [count_programs, count_programs_loop] at hn1
  have ht := tidy_open_redirections env cmd w
  obtain ⟨p1, p2⟩ := open_redirections_previous env cmd (State.enter w)
  have hl : ((launch env cmd w).1 = Flow.next ∨ (launch env cmd w).1 = Flow.cleanup) ∧
      (launch env cmd w).2.tidy w := by
    unfold launch
    cases hc : cmd.pgm with
    | NULL => exact absurd hc hpgm
    | node pgmlist next =>
      simp only
      split
      · exact ⟨Or.inr rfl, ht⟩
      · split
        · exact ⟨Or.inr rfl, ht⟩
        · rw [← hc, reverse_array_eq]
          simp only
          refine tidy_launch_loop env cmd w _ hf _ 0 _
            (by rw [List.length_reverse, ← count_programs_eq]; omega) ?_
            (fun p hp => ha p (by simpa using hp))
          refine
            { std0 := ht.std0, std1 := ht.std1, differ := ?_, fresh_in := ht.fresh_in,
              fresh_out := ht.fresh_out, fresh_read := ht.fresh_in, fresh_write := ?_ }
          · intro x hx
            change (open_redirections env cmd (State.enter w)).proc.fds.lookup x ≠ _ at hx
            show x = _ ∨ x = _ ∨ x = (open_redirections env cmd (State.enter w)).fdin ∨ x = -1
            rcases ht.differ x hx with e | e | e | e
            · exact Or.inl e
            · exact Or.inr (Or.inl e)
            · rw [p1] at e
              change x = 0 at e
              exact absurd (e ▸ ht.std0) hx
            · rw [p2] at e
              exact Or.inr (Or.inr (Or.inr e))
          · intro g
            change (-1 : Int) > 1 at g
            omega
  obtain ⟨k1, k2⟩ := hl
  rcases hr : launch env cmd w with ⟨fl, s⟩
  rw [hr] at k1 k2
  simp only at k1 k2
  unfold handle_command
  rw [hr]
  rcases k1 with k1 | k1
  · subst k1
    simp only
    split
    · have hw := tidy_wait_loop env w (count_programs cmd.pgm) 0 s k2
      exact ⟨rfl, fun x => tidy_cleanup w _ hw x⟩
    · exact ⟨rfl, fun x => tidy_cleanup w s k2 x⟩
  · subst k1
    exact ⟨rfl, fun x => tidy_cleanup w s k2 x⟩

theorem descriptors_restored_witness :
    (handle_command ex_env_no_open ex_cmd_three ex_world).1 = Exit.returned ∧
    ∀ x : Int, (handle_command ex_env_no_open ex_cmd_three ex_world).2.proc.fds.lookup x
      = ex_world.fds.lookup x :=
  descriptors_restored ex_env_no_open ex_cmd_three ex_world (by decide) (by decide)
    (by decide) (fun _ _ => rfl)

/-! ## The depth of the pipeline -/

theorem store_indices_eq_stores (p : Proc) : p.store_indices = p.stores.map Prod.fst := by
  unfold Proc.store_indices Proc.stores
  induction p.calls with
  | nil => rfl
  | cons e t ih => cases e <;> simp [List.filterMap_cons, ih]

theorem stores_call (p : Proc) (e : Event) :
    (p.call e).stores = p.stores ++ (match e with
      | .pids_store i pid => [(i, pid)]
      | _ => []) := by
  simp only [Proc.call, Proc.stores, List.filterMap_append]
  cases e <;> simp

theorem stores_safe_close (fd : Int) (p : Proc) : (safe_close fd p).stores = p.stores := by
  simp only [Proc.stores, safe_close_calls]
  split <;> simp [List.filterMap_append]

theorem sys_pipe_stores (env : Env) (i : Nat) (s : State) :
    (sys_pipe env i s).2.proc.stores = s.proc.stores := by
  unfold sys_pipe
  split <;> simp [Proc.stores, Proc.call, List.filterMap_append]

theorem sys_chdir_stores (env : Env) (path : Option String) (s : State) :
    (sys_chdir env path s).proc.stores = s.proc.stores := by
  unfold sys_chdir
  repeat' split
  all_goals simp [Proc.stores, Proc.call, List.filterMap_append]

theorem open_redirections_stores (env : Env) (cmd : Command) (s : State) :
    (open_redirections env cmd s).proc.stores = s.proc.stores := by
  unfold open_redirections sys_open
  cases cmd.rstdin <;> cases cmd.rstdout <;> simp only <;>
    (repeat' split) <;>
    simp [Proc.call, Proc.stores, List.filterMap_append]

theorem cleanup_stores (s : State) : (cleanup s).proc.stores = s.proc.stores := by
  simp only [cleanup, stores_safe_close]

theorem wait_loop_stores (env : Env) (n i : Nat) (s : State) :
    (wait_loop env n i s).proc.stores = s.proc.stores := by
  induction n generalizing i s with
  | zero => simp [wait_loop]
  | succ n ih =>
    unfold wait_loop
    rw [ih, (sys_waitpid_calls env _ s).1, stores_call]
    simp

/-- What one pass of the launch loop adds: nothing, or one child of stage `i`
with the process identifier `fork` returned, and the store `pids[i] = pid`. -/
theorem fork_stage_logged (env : Env) (cmd : Command) (i : Nat) (pgmlist : List String)
    (nr nw : Int) (s : State) :
    ((fork_stage env cmd i pgmlist nr nw s).2.children = s.children ∧
      (fork_stage env cmd i pgmlist nr nw s).2.proc.stores = s.proc.stores) ∨
    ∃ c : Child, (fork_stage env cmd i pgmlist nr nw s).2.children = s.children ++ [c] ∧
      (fork_stage env cmd i pgmlist nr nw s).2.proc.stores
        = s.proc.stores ++ [(c.stage, c.pid)] ∧
      c.stage = i ∧ env.fork_ret i = some c.pid := by
  unfold fork_stage
  cases hr : env.fork_ret i with
  | none =>
    left
    refine ⟨rfl, ?_⟩
    simp only
    rw [stores_call]
    simp
  | some pid =>
    right
    refine ⟨_, rfl, ?_, rfl, rfl⟩
    simp only
    rw [stores_call, stores_safe_close, stores_safe_close, stores_call]
    simp

theorem launch_stage_logged (env : Env) (cmd : Command) (count i : Nat) (current : Pgm)
    (s : State) :
    ((launch_stage env cmd count i current s).2.children = s.children ∧
      (launch_stage env cmd count i current s).2.proc.stores = s.proc.stores) ∨
    ∃ c : Child, (launch_stage env cmd count i current s).2.children = s.children ++ [c] ∧
      (launch_stage env cmd count i current s).2.proc.stores
        = s.proc.stores ++ [(c.stage, c.pid)] ∧
      c.stage = i ∧ env.fork_ret i = some c.pid := by
  unfold launch_stage
  split
  · exact Or.inl ⟨rfl, rfl⟩
  · exact Or.inl ⟨rfl, rfl⟩
  · split
    · exact Or.inl ⟨rfl, rfl⟩
    · split
      · exact Or.inl ⟨sys_chdir_children env _ s, sys_chdir_stores env _ s⟩
      · split
        · exact fork_stage_logged env cmd i _ _ _ s
        · have hc := sys_pipe_children env i s
          have hp := sys_pipe_stores env i s
          split
          · rename_i s1 heq
            rw [heq] at hc hp
            exact Or.inl ⟨hc, hp⟩
          · rename_i nr nw s1 heq
            rw [heq] at hc hp
            simp only at hc hp
            rcases fork_stage_logged env cmd i _ nr nw s1 with ⟨h1, h2⟩ | ⟨c, h1, h2, h3, h4⟩
            · exact Or.inl ⟨h1.trans hc, h2.trans hp⟩
            · exact Or.inr ⟨c, by rw [h1, hc], by rw [h2, hp], h3, h4⟩

/-- The invariant of the launch loop on the stores: they are the pairs of stage
and process identifier of the children, and each child has the process
identifier `fork` returned at its stage. -/
theorem launch_loop_logged (env : Env) (cmd : Command) (count : Nat) (pgms : List Pgm)
    (i : Nat) (s : State)
    (h1 : s.proc.stores = s.children.map (fun c => (c.stage, c.pid)))
    (h2 : ∀ c ∈ s.children, env.fork_ret c.stage = some c.pid) :
    (launch_loop env cmd count i pgms s).2.proc.stores
      = (launch_loop env cmd count i pgms s).2.children.map (fun c => (c.stage, c.pid)) ∧
    ∀ c ∈ (launch_loop env cmd count i pgms s).2.children,
      env.fork_ret c.stage = some c.pid := by
  induction pgms generalizing i s with
  | nil => exact ⟨h1, h2⟩
  | cons current rest ih =>
    have hs : (launch_stage env cmd count i current s).2.proc.stores
        = (launch_stage env cmd count i current s).2.children.map (fun c => (c.stage, c.pid)) ∧
        ∀ c ∈ (launch_stage env cmd count i current s).2.children,
          env.fork_ret c.stage = some c.pid := by
      rcases launch_stage_logged env cmd count i current s with ⟨e1, e2⟩ | ⟨c, e1, e2, e3, e4⟩
      · rw [e1, e2]; exact ⟨h1, h2⟩
      · rw [e1, e2]
        refine ⟨by rw [h1]; simp, ?_⟩
        intro d hd
        rcases List.mem_append.1 hd with hd | hd
        · exact h2 d hd
        · simp only [List.mem_singleton] at hd
          subst hd
          rw [e3]; exact e4
    unfold launch_loop
    split
    · rename_i s1 heq
      rw [heq] at hs
      exact ih (i + 1) s1 hs.1 hs.2
    · exact hs

theorem launch_logged (env : Env) (cmd : Command) (w : World) :
    (launch env cmd w).2.proc.stores
      = (launch env cmd w).2.children.map (fun c => (c.stage, c.pid)) ∧
    ∀ c ∈ (launch env cmd w).2.children, env.fork_ret c.stage = some c.pid := by
  have hor : (open_redirections env cmd (State.enter w)).children = [] :=
    (open_redirections_fields env cmd (State.enter w)).1
  have hst : (open_redirections env cmd (State.enter w)).proc.stores = [] := by
    rw [open_redirections_stores]; rfl
  have h0 : (open_redirections env cmd (State.enter w)).proc.stores
      = (open_redirections env cmd (State.enter w)).children.map (fun c => (c.stage, c.pid)) ∧
      ∀ c ∈ (open_redirections env cmd (State.enter w)).children,
        env.fork_ret c.stage = some c.pid := by
    rw [hor, hst]
    exact ⟨rfl, fun c hc => by cases hc⟩
  unfold launch
  split
  · exact ⟨rfl, fun c hc => by simp [State.enter] at hc⟩
  · simp only
    split
    · exact h0
    · split
      · exact h0
      · split
        · exact h0
        · exact launch_loop_logged env cmd _ _ 0 _ h0.1 h0.2

theorem handle_command_logged (env : Env) (cmd : Command) (w : World) :
    (handle_command env cmd w).2.proc.stores
      = (handle_command env cmd w).2.children.map (fun c => (c.stage, c.pid)) ∧
    ∀ c ∈ (handle_command env cmd w).2.children, env.fork_ret c.stage = some c.pid := by
  have hl := launch_logged env cmd w
  unfold handle_command
  split
  · rename_i s heq; rw [heq] at hl; exact hl
  · rename_i s heq; rw [heq] at hl; exact hl
  · rename_i s heq; rw [heq] at hl
    simp only
    rw [cleanup_stores, (cleanup_fields s).1]; exact hl
  · rename_i s heq; rw [heq] at hl
    split
    · simp only
      rw [cleanup_stores, (cleanup_fields _).1, wait_loop_stores,
        (wait_loop_keeps env (count_programs cmd.pgm) 0 s).1]
      exact hl
    · simp only
      rw [cleanup_stores, (cleanup_fields s).1]; exact hl

theorem store_indices_call_eq (p : Proc) (e : Event) :
    (p.call e).store_indices = p.store_indices ++ (match e with
      | .pids_store i _ => [i]
      | _ => []) := by
  simp only [Proc.call, Proc.store_indices, List.filterMap_append]
  cases e <;> simp

theorem fork_stage_store_indices (env : Env) (cmd : Command) (i : Nat) (pgmlist : List String)
    (nr nw : Int) (s : State) (hf : (env.fork_ret i).isSome = true) :
    (fork_stage env cmd i pgmlist nr nw s).2.proc.store_indices
      = s.proc.store_indices ++ [i] := by
  obtain ⟨pid, hpid⟩ := Option.isSome_iff_exists.1 hf
  rw [fork_stage_eq env cmd i _ _ _ _ pid hpid]
  simp only
  rw [store_indices_call_eq, store_indices_safe_close, store_indices_safe_close,
    store_indices_call_eq]
  simp

theorem launch_stage_store_indices (env : Env) (cmd : Command) (count i : Nat)
    (current : Pgm) (s : State) (hp : pipes_ok env) (hf : forks_ok env)
    (ha : current.has_arg0 = true) :
    (launch_stage env cmd count i current s).2.proc.store_indices
      = s.proc.store_indices ++ (if current.forks = true then [i] else []) := by
  unfold launch_stage
  split
  · simp [Pgm.has_arg0] at ha
  · simp [Pgm.has_arg0] at ha
  · rename_i arg0 args next
    split
    · rename_i h; simp [Pgm.forks, h]
    · split
      · rename_i h1 h2; simp [Pgm.forks, h2, sys_chdir_store]
      · rename_i h1 h2
        have hfk : (Pgm.node (arg0 :: args) next).forks = true := by simp [Pgm.forks, h1, h2]
        rw [if_pos hfk]
        split
        · exact fork_stage_store_indices env cmd i _ _ _ s (hf i)
        · obtain ⟨nr, nw, hs⟩ := sys_pipe_some env i s (hp i)
          have hc := sys_pipe_store env i s
          split
          · rename_i s1 heq
            rw [heq] at hs; simp at hs
          · rename_i nr1 nw1 s1 heq
            rw [heq] at hc
            rw [fork_stage_store_indices env cmd i _ _ _ _ (hf i), hc]

theorem launch_loop_store_indices (env : Env) (cmd : Command) (count : Nat)
    (pgms : List Pgm) (i : Nat) (s : State) (hp : pipes_ok env) (hf : forks_ok env)
    (ha : ∀ p ∈ pgms, p.has_arg0 = true) :
    (launch_loop env cmd count i pgms s).2.proc.store_indices
      = s.proc.store_indices ++ forking_stages i pgms := by
  induction pgms generalizing i s with
  | nil => simp [launch_loop, forking_stages]
  | cons current rest ih =>
    have hcur : current.has_arg0 = true := ha current (by simp)
    have h1 := launch_stage_flow env cmd count i current s hp hf hcur
    have h2 := launch_stage_store_indices env cmd count i current s hp hf hcur
    rcases hr : launch_stage env cmd count i current s with ⟨fl, s1⟩
    rw [hr] at h1 h2
    simp only at h1 h2
    subst h1
    rw [launch_loop_cons env cmd count i current rest s s1 hr,
      ih (i + 1) s1 (fun p hp1 => ha p (by simp [hp1])), h2]
    by_cases hfk : current.forks = true <;> simp [forking_stages, hfk]

/-- With every call succeeding, `handle_command` forks each stage that is not a
built-in and stores at the indices of those stages, whatever the depth. -/
theorem handle_command_forks_all (env : Env) (cmd : Command) (w : World)
    (hn1 : 1 ≤ count_programs cmd.pgm)
    (ha : ∀ p ∈ Pgm.nodes cmd.pgm, p.has_arg0 = true)
    (ho : opens_ok env cmd) (hp : pipes_ok env) (hf : forks_ok env) :
    (handle_command env cmd w).2.proc.fork_count = (Pgm.nodes cmd.pgm).countP Pgm.forks ∧
    (handle_command env cmd w).2.proc.store_indices
      = forking_stages 0 (Pgm.nodes cmd.pgm).reverse := by
  have hpgm : cmd.pgm ≠ Pgm.NULL := by
    intro h; rw [h] at hn1; simp [count_programs, count_programs_loop] at hn1
  have hl := launch_eq_loop env cmd w hpgm ho
  obtain ⟨l1, l2⟩ := launch_loop_forks env cmd (count_programs cmd.pgm)
    (Pgm.nodes cmd.pgm).reverse 0
    { open_redirections env cmd (State.enter w) with
      previous_read_end := (open_redirections env cmd (State.enter w)).fdin,
      previous_write_end := -1 } hp hf
    (fun p hp1 => ha p (by simpa using hp1))
  have l3 := launch_loop_store_indices env cmd (count_programs cmd.pgm)
    (Pgm.nodes cmd.pgm).reverse 0
    { open_redirections env cmd (State.enter w) with
      previous_read_end := (open_redirections env cmd (State.enter w)).fdin,
      previous_write_end := -1 } hp hf
    (fun p hp1 => ha p (by simpa using hp1))
  rw [← hl] at l1 l2 l3
  have hstart : (open_redirections env cmd (State.enter w)).proc.fork_count = 0 := by
    rw [(open_redirections_fields env cmd (State.enter w)).2.2.2.2.2.1]; rfl
  have hstart2 : (open_redirections env cmd (State.enter w)).proc.store_indices = [] := by
    rw [open_redirections_store]; rfl
  simp only [List.countP_reverse] at l2
  rw [hstart, Nat.zero_add] at l2
  simp only at l3
  rw [hstart2, List.nil_append] at l3
  rcases hr : launch env cmd w with ⟨fl, s⟩
  rw [hr] at l1 l2 l3
  simp only at l1 l2 l3
  subst l1
  unfold handle_command
  rw [hr]
  simp only
  split
  · simp only
    rw [(cleanup_fields _).2.2.2.2.2.1, (cleanup_fields _).2.2.2.2.2.2.2.2.1,
      wait_loop_forks, wait_loop_store, l2, l3]
    exact ⟨rfl, rfl⟩
  · simp only
    rw [(cleanup_fields s).2.2.2.2.2.1, (cleanup_fields s).2.2.2.2.2.2.2.2.1, l2, l3]
    exact ⟨rfl, rfl⟩

set_option maxRecDepth 100000 in
/-- C5, the claim fails: a foreground pipeline of 21 stages `ls`, every call
succeeding, is not rejected: `handle_command` makes 21 `fork` calls and stores a
process identifier at index 20 of `pids`, outside the table. -/
theorem depth_21_not_rejected :
    count_programs (ex_cmd (Pgm.chain 21)).pgm = 21 ∧
    (handle_command ex_env (ex_cmd (Pgm.chain 21)) ex_world).2.proc.fork_count = 21 ∧
    20 ∈ (handle_command ex_env (ex_cmd (Pgm.chain 21)) ex_world).2.proc.store_indices := by
  decide

/-- C5, amended: `handle_command` has no test of the pipeline depth. On every
run, whatever the calls answer, the stores into `pids` are, one per child and in
order, `pids[i] = pid` with `i` the stage of the child and `pid` what `fork`
returned at loop index `i`; `i` is below the number of stages and the child runs
the argument vector of entry `i` of the execution-order array; so with at most 20
stages every store is at an index below 20. And for a pipeline of any depth, each
stage with a first argument, with every `open`, `pipe` and `fork` succeeding,
there are as many `fork` calls as stages that are not built-ins, and the stores
are at exactly the indices of those stages, in increasing order. -/
theorem depth_is_not_tested (env : Env) (cmd : Command) (w : World) :
    (handle_command env cmd w).2.proc.stores
      = (handle_command env cmd w).2.children.map (fun c => (c.stage, c.pid)) ∧
    (∀ c ∈ (handle_command env cmd w).2.children,
      c.stage < count_programs cmd.pgm ∧ env.fork_ret c.stage = some c.pid ∧
      ((Pgm.nodes cmd.pgm).reverse[c.stage]?).bind Pgm.argv = some c.argv) ∧
    (count_programs cmd.pgm ≤ 20 →
      ∀ j ∈ (handle_command env cmd w).2.proc.store_indices, j < PIDS_SIZE) ∧
    (1 ≤ count_programs cmd.pgm → (∀ p ∈ Pgm.nodes cmd.pgm, p.has_arg0 = true) →
      opens_ok env cmd → pipes_ok env → forks_ok env →
      (handle_command env cmd w).2.proc.fork_count = (Pgm.nodes cmd.pgm).countP Pgm.forks ∧
      (handle_command env cmd w).2.proc.store_indices
        = forking_stages 0 (Pgm.nodes cmd.pgm).reverse) := by
  obtain ⟨h1, h2⟩ := handle_command_logged env cmd w
  have hargv := handle_command_children_argv env cmd w
  refine ⟨h1, ?_, ?_, fun hn1 ha ho hp hf => handle_command_forks_all env cmd w hn1 ha ho hp hf⟩
  · intro c hc
    refine ⟨?_, h2 c hc, hargv c hc⟩
    apply handle_command_store env cmd w
    rw [store_indices_eq_stores, h1, List.map_map]
    exact List.mem_map.2 ⟨c, hc, rfl⟩
  · intro hn j hj
    have := handle_command_store env cmd w j hj
    unfold PIDS_SIZE
    omega

/-! ## Runs of concrete pipelines -/

theorem safe_close_spares_std_witness :
    (handle_command ex_env (ex_cmd (Pgm.chain 2)) ex_world).2.proc.fds.lookup 0
      = some (Obj.inherited 0) ∧
    (handle_command ex_env (ex_cmd (Pgm.chain 2)) ex_world).2.proc.fds.lookup 1
      = some (Obj.inherited 1) ∧
    safe_close 3 { fds := ex_world.fds, calls := [] }
      = sys_close 3 { fds := ex_world.fds, calls := [] } := by
  have h := safe_close_spares_std 3 { fds := ex_world.fds, calls := [] } ex_env
    (ex_cmd (Pgm.chain 2)) ex_world
  exact ⟨h.2.2.2.1, h.2.2.2.2.1, h.2.1 (by decide)⟩

theorem open_failure_launches_nothing_witness :
    (handle_command ex_env_no_open
      { ex_cmd (Pgm.chain 2) with rstdin := some "in" } ex_world).2.proc.fork_count = 0 ∧
    (handle_command ex_env_no_open
      { ex_cmd (Pgm.chain 2) with rstdin := some "in" } ex_world).2.children = [] := by
  have h := open_failure_launches_nothing ex_env_no_open
    { ex_cmd (Pgm.chain 2) with rstdin := some "in" } ex_world (by decide)
    (Or.inl ⟨"in", rfl, rfl⟩)
  exact ⟨h.2.2.1, h.2.2.2.2.2.1⟩

theorem fork_count_is_forking_stages_witness :
    (handle_command ex_env (ex_cmd (Pgm.of_list [["wc"], ["cd", "/tmp"], ["ls"]]))
      ex_world).1 = Exit.returned ∧
    (handle_command ex_env (ex_cmd (Pgm.of_list [["wc"], ["cd", "/tmp"], ["ls"]]))
      ex_world).2.proc.fork_count = 2 := by
  have h := fork_count_is_forking_stages ex_env
    (ex_cmd (Pgm.of_list [["wc"], ["cd", "/tmp"], ["ls"]])) ex_world
    (by decide) (by decide) (by decide) ⟨(by intro p hp; cases hp), (by intro p hp; cases hp)⟩
    (fun _ => rfl) (fun _ => rfl)
  exact ⟨h.1, h.2.trans (by decide)⟩

/-- C4, the code departs from the claim: for the foreground pipeline of the single
built-in stage `cd /tmp`, `handle_command` makes no `fork` call, yet its wait loop
makes one blocking `waitpid` call, on the slot `pids[0]` that was never written. -/
theorem builtin_stage_waits_on_unwritten_slot :
    (handle_command ex_env (ex_cmd (Pgm.of_list [["cd", "/tmp"]])) ex_world).1
      = Exit.returned ∧
    (handle_command ex_env (ex_cmd (Pgm.of_list [["cd", "/tmp"]])) ex_world).2.proc.fork_results
      = [] ∧
    (handle_command ex_env (ex_cmd (Pgm.of_list [["cd", "/tmp"]])) ex_world).2.proc.waited
      = [none] := by
  decide

/-- C10, the code departs from the claim: when the `fork` of stage 0 of `ls | wc`
fails, `handle_command` returns with both ends of the pipe it created for stage 0
still open in the controlling process, at descriptors 3 and 4, which were not
open before the call. -/
theorem fork_failure_leaks_pipe :
    (handle_command ex_env_no_fork (ex_cmd (Pgm.of_list [["wc"], ["ls"]])) ex_world).1
      = Exit.returned ∧
    ex_world.fds.lookup 3 = none ∧ ex_world.fds.lookup 4 = none ∧
    (handle_command ex_env_no_fork (ex_cmd (Pgm.of_list [["wc"], ["ls"]]))
      ex_world).2.proc.fds.lookup 3 = some (Obj.pipe_read 0) ∧
    (handle_command ex_env_no_fork (ex_cmd (Pgm.of_list [["wc"], ["ls"]]))
      ex_world).2.proc.fds.lookup 4 = some (Obj.pipe_write 0) := by
  decide

/-! ## Runs of concrete chains -/

theorem all_ok_ex_env (cmd : Command) : opens_ok ex_env cmd ∧ pipes_ok ex_env ∧ forks_ok ex_env :=
  ⟨⟨fun _ _ => rfl, fun _ _ => rfl⟩, fun _ => rfl, fun _ => rfl⟩

theorem pipeline_is_linear_chain_witness :
    (handle_command ex_env ex_cmd_three ex_world).1 = Exit.returned ∧
    (handle_command ex_env ex_cmd_three ex_world).2.children.length = 3 ∧
    (handle_command ex_env ex_cmd_three ex_world).2.proc.launch_order
      = [false, true, false, true, true] ∧
    (∀ c : Child, (handle_command ex_env ex_cmd_three ex_world).2.children[0]? = some c →
      c.proc.fds.lookup 0 = some (Obj.file "in" [OpenFlag.O_RDONLY])) := by
  have h := pipeline_is_linear_chain ex_env ex_cmd_three ex_world (by decide) (by decide)
    (all_ok_ex_env ex_cmd_three).1 (all_ok_ex_env ex_cmd_three).2.1
    (all_ok_ex_env ex_cmd_three).2.2
  exact ⟨h.1, h.2.1.trans (by decide), h.2.2.2.2.2.2.trans (by decide), h.2.2.2.1⟩

theorem pipe_ends_have_one_holder_witness :
    (launch ex_env ex_cmd_three ex_world).1 = Flow.next ∧
    (launch ex_env ex_cmd_three ex_world).2.children.length = 3 ∧
    (∀ x : Int, (launch ex_env ex_cmd_three ex_world).2.proc.fds.lookup x
      ≠ some (Obj.pipe_write 0)) ∧
    (∀ (j : Nat) (c : Child), (launch ex_env ex_cmd_three ex_world).2.children[j]? = some c →
      ∀ x : Int, c.proc.fds.lookup x = some (Obj.pipe_read 1) ↔ (j = 2 ∧ x = 0)) := by
  have h := pipe_ends_have_one_holder ex_env ex_cmd_three ex_world (by decide) (by decide)
    (all_ok_ex_env ex_cmd_three).1 (all_ok_ex_env ex_cmd_three).2.1
    (all_ok_ex_env ex_cmd_three).2.2
  refine ⟨h.1, h.2.1.trans (by decide), fun x => ((h.2.2.2 0 (by decide)).1 x).1, ?_⟩
  intro j c hc x
  exact ((h.2.2.2 1 (by decide)).2 j c hc x).2

set_option maxRecDepth 100000 in
/-- The run of the pipeline of 22 stages `ls`, every call succeeding: the launch
loop forks all 22 stages, the last one reading the read end of pipe 20 on its
descriptor 0, and leaves no end of that pipe open in the controlling process,
which has stored a process identifier at the indices 20 and 21, past the end of
`pids[20]`. -/
theorem chain_of_22_is_wired :
    (launch ex_env (ex_cmd (Pgm.chain 22)) ex_world).1 = Flow.next ∧
    (launch ex_env (ex_cmd (Pgm.chain 22)) ex_world).2.children.map Child.stage
      = List.range 22 ∧
    ((launch ex_env (ex_cmd (Pgm.chain 22)) ex_world).2.children.map
      fun c => c.proc.fds.lookup 0).getLast? = some (some (Obj.pipe_read 20)) ∧
    (launch ex_env (ex_cmd (Pgm.chain 22)) ex_world).2.proc.fds.lookup 3 = none ∧
    (launch ex_env (ex_cmd (Pgm.chain 22)) ex_world).2.proc.fds.lookup 4 = none ∧
    (launch ex_env (ex_cmd (Pgm.chain 22)) ex_world).2.proc.store_indices
      = List.range 22 := by
  decide

set_option maxRecDepth 100000 in
theorem depth_is_not_tested_witness :
    (handle_command ex_env (ex_cmd (Pgm.chain 21)) ex_world).2.proc.fork_count = 21 ∧
    (handle_command ex_env (ex_cmd (Pgm.chain 21)) ex_world).2.proc.store_indices
      = List.range 21 ∧
    (∀ j ∈ (handle_command ex_env (ex_cmd (Pgm.chain 20)) ex_world).2.proc.store_indices,
      j < PIDS_SIZE) ∧
    (handle_command ex_env (ex_cmd (Pgm.chain 20)) ex_world).2.proc.store_indices
      = List.range 20 := by
  have h := (depth_is_not_tested ex_env (ex_cmd (Pgm.chain 21)) ex_world).2.2.2 (by decide)
    (by decide) (all_ok_ex_env (ex_cmd (Pgm.chain 21))).1 (all_ok_ex_env (ex_cmd (Pgm.chain 21))).2.1
    (all_ok_ex_env (ex_cmd (Pgm.chain 21))).2.2
  exact ⟨h.1.trans (by decide), h.2.trans (by decide),
    (depth_is_not_tested ex_env (ex_cmd (Pgm.chain 20)) ex_world).2.2.1 (by decide),
    by decide⟩

end Lsh
